import Mathlib

/-!
# Hangman server: leaderboard, request queue, game engine and session

A shallow embedding of `src/server.c` and proofs about it.

Conventions of the embedding

* A C string (`char *`) is a `String`; the bytes of the C string are the
  characters of `String.data`.
* `int` counters are `Int` (signed overflow is undefined in C, so no wrap is
  modelled); `double percentageWon` is the exact rational `gamesWon / totalGames`.
* A singly linked list reached only through its head pointer is the `List` of
  its nodes in link order; the global variables of the C file are the fields of
  a state structure that every operation takes and returns.
-/

namespace Hangman

/-! ## Constants -/

/-- The constant `MAX_NUM_GUESSES` of `server.c`. -/
def MAX_NUM_GUESSES : Nat := 26

/-! ## `strcmp` -/

/-- The comparison loop of the C library function `strcmp` on the characters of
two strings: the sign of the difference of the first two characters that
differ, the end of a string counting as smaller than every character.
Characters are compared by their code, as `strcmp` compares `unsigned char`
values.  The C standard fixes only the sign of the result; `-1`, `0`, `1` are
returned. -/
def strcmpAux : List Char → List Char → Int
  | [], [] => 0
  | [], _ :: _ => -1
  | _ :: _, [] => 1
  | a :: as, b :: bs =>
    if a.toNat < b.toNat then -1
    else if b.toNat < a.toNat then 1
    else strcmpAux as bs

/-- The C library function `strcmp`. -/
def strcmp (s t : String) : Int := strcmpAux s.data t.data

/-! ## Leaderboard -/

/-- The struct `leaderboard_item_t` without its `next` pointer: the link is the
position of the item in the list that holds it. -/
structure leaderboard_item_t where
  username : String
  gamesWon : Int
  totalGames : Int
  percentageWon : ℚ
deriving DecidableEq

/-- The globals `leaderboardItems` (head of the linked list) and
`numLeaderboardItems`. -/
structure Leaderboard where
  leaderboardItems : List leaderboard_item_t
  numLeaderboardItems : Int
deriving DecidableEq

/-- The initial values of the leaderboard globals: `NULL` and `0`. -/
def Leaderboard.empty : Leaderboard := ⟨[], 0⟩

/-- The function `get_percentage_won`: `(double)gamesWon / (double)totalGames`. -/
def get_percentage_won (item : leaderboard_item_t) : ℚ :=
  (item.gamesWon : ℚ) / (item.totalGames : ℚ)

/-- The function `compare_leaderboard_items`. -/
def compare_leaderboard_items (item1 item2 : leaderboard_item_t) : Int :=
  if item1.gamesWon < item2.gamesWon then -1
  else if item1.gamesWon = item2.gamesWon then
    if item1.percentageWon < item2.percentageWon then -1
    else if item1.percentageWon = item2.percentageWon then
      strcmp item1.username item2.username
    else 1
  else 1

/-- The function `insert_leaderboard_item_at_correct_pos`.  `startItem` is the
node the scan starts at and `rest` the chain hanging off `startItem->next`; the
result is the chain that starts at `startItem` afterwards.  `startItem` itself
is never compared with `newItem`. -/
def insert_leaderboard_item_at_correct_pos (startItem : leaderboard_item_t) :
    List leaderboard_item_t → leaderboard_item_t → List leaderboard_item_t
  | [], newItem => [startItem, newItem]
  | next :: rest, newItem =>
    if compare_leaderboard_items next newItem < 0 then
      startItem :: insert_leaderboard_item_at_correct_pos next rest newItem
    else startItem :: newItem :: next :: rest

/-- The item `add_leaderboard_item` allocates and fills in its first statements:
`username = currentUser`, `gamesWon = gameWon ? 1 : 0`, `totalGames = 1`,
`percentageWon = get_percentage_won(newItem)`. -/
def new_leaderboard_item (currentUser : String) (gameWon : Bool) : leaderboard_item_t :=
  let newItem : leaderboard_item_t :=
    { username := currentUser, gamesWon := if gameWon then 1 else 0, totalGames := 1,
      percentageWon := 0 }
  { newItem with percentageWon := get_percentage_won newItem }

/-- The function `add_leaderboard_item`. -/
def add_leaderboard_item (lb : Leaderboard) (currentUser : String) (gameWon : Bool) :
    Leaderboard :=
  let newItem := new_leaderboard_item currentUser gameWon
  let num := lb.numLeaderboardItems + 1
  match lb.leaderboardItems with
  | [] => ⟨[newItem], num⟩
  | head :: rest =>
    if compare_leaderboard_items head newItem ≥ 0 then ⟨newItem :: head :: rest, num⟩
    else ⟨insert_leaderboard_item_at_correct_pos head rest newItem, num⟩

/-- The item as `update_leaderboard_item` leaves it after its first three
statements: one more win if `gameWon`, one more game, the rate recomputed. -/
def updated_item (item : leaderboard_item_t) (gameWon : Bool) : leaderboard_item_t :=
  let item1 : leaderboard_item_t :=
    { item with gamesWon := if gameWon then item.gamesWon + 1 else item.gamesWon }
  let item2 : leaderboard_item_t := { item1 with totalGames := item1.totalGames + 1 }
  { item2 with percentageWon := get_percentage_won item2 }

/-- The function `update_leaderboard_item`.  The list is
`before ++ previousItem ++ item :: after`: `previousItem` is the node in front
of `item` (`none` for `NULL`, when `item` is the head) and `before` the nodes in
front of `previousItem`.  The result is the whole list afterwards. -/
def update_leaderboard_item (before : List leaderboard_item_t)
    (previousItem : Option leaderboard_item_t) (item : leaderboard_item_t)
    (after : List leaderboard_item_t) (gameWon : Bool) : List leaderboard_item_t :=
  let item' := updated_item item gameWon
  match after with
  | [] => before ++ previousItem.toList ++ [item']
  | next :: rest =>
    if compare_leaderboard_items item' next > 0 then
      match previousItem with
      | none =>
        -- leaderboardItems = item->next; previousItem = leaderboardItems;
        insert_leaderboard_item_at_correct_pos next rest item'
      | some prev =>
        -- previousItem->next = item->next;
        before ++ insert_leaderboard_item_at_correct_pos prev (next :: rest) item'
    else before ++ previousItem.toList ++ item' :: next :: rest

/-- The search loop of `update_leaderboard`: the loop state is
`(before, previousItem, chain from item)`; it stops at the first item whose
username `strcmp`s equal to `currentUser`, or with an empty chain (`item == NULL`). -/
def find_leaderboard_item (currentUser : String) :
    List leaderboard_item_t → Option leaderboard_item_t → List leaderboard_item_t →
    List leaderboard_item_t × Option leaderboard_item_t × List leaderboard_item_t
  | before, previousItem, [] => (before, previousItem, [])
  | before, previousItem, item :: rest =>
    if strcmp item.username currentUser = 0 then (before, previousItem, item :: rest)
    else find_leaderboard_item currentUser (before ++ previousItem.toList) (some item) rest

/-- The function `update_leaderboard` (the spec's `recordResult`), between
`write_lock` and `write_unlock`; `currentUser` is `loggedInUsers[threadId]`. -/
def update_leaderboard (lb : Leaderboard) (currentUser : String) (gameWon : Bool) :
    Leaderboard :=
  match find_leaderboard_item currentUser [] none lb.leaderboardItems with
  | (_, _, []) => add_leaderboard_item lb currentUser gameWon
  | (before, previousItem, item :: after) =>
    { lb with
      leaderboardItems := update_leaderboard_item before previousItem item after gameWon }

/-- A finite sequence of `update_leaderboard` calls, oldest first. -/
def record_results (lb : Leaderboard) (calls : List (String × Bool)) : Leaderboard :=
  calls.foldl (fun acc call => update_leaderboard acc call.1 call.2) lb

/-- Sortedness per the comparator: every adjacent pair `(a, b)` of the list has
`compare_leaderboard_items a b < 0`. -/
def leaderboard_sorted (items : List leaderboard_item_t) : Prop :=
  List.Chain' (fun a b => compare_leaderboard_items a b < 0) items

/-- The spec's `winRate`: the exact ratio `gamesWon / totalGames`. -/
def win_rate (a : leaderboard_item_t) : ℚ := (a.gamesWon : ℚ) / (a.totalGames : ℚ)

/-- The spec's rank order in its own words: `a` sorts before `b` when it has
fewer wins, or equal wins with a lower win rate, or is equal on both with a
lexicographically earlier username (`<` on `String` is the lexicographic order
of the character lists, `String.lt_iff_toList_lt`). -/
def rank_before (a b : leaderboard_item_t) : Prop :=
  a.gamesWon < b.gamesWon ∨
  (a.gamesWon = b.gamesWon ∧ win_rate a < win_rate b) ∨
  (a.gamesWon = b.gamesWon ∧ win_rate a = win_rate b ∧ a.username < b.username)

/-! ## Request queue

The queue is a linked list with a head pointer `requests` and a tail pointer
`lastRequest` that aliases its last node, so the nodes live in an explicit heap:
a pointer is `none` (`NULL`) or the address of a node.  `custom_malloc` returns
the address `nextFree`, which is above every address handed out before.  An
operation returns `none` when it would dereference `NULL` or an address that
holds no node. -/

/-- The struct `request_t`; `addressInfo` and `addressSize` are carried as
numbers. -/
structure request_t where
  fileDescriptor : Int
  addressInfo : Nat
  addressSize : Nat
  next : Option Nat
deriving DecidableEq

/-- The globals `requests`, `lastRequest` and `numRequests`, with the heap that
holds the nodes. -/
structure RequestQueue where
  heap : Nat → Option request_t
  nextFree : Nat
  requests : Option Nat
  lastRequest : Option Nat
  numRequests : Int

/-- The initial values of the queue globals: `NULL`, `NULL` and `0`. -/
def RequestQueue.empty : RequestQueue :=
  { heap := fun _ => none, nextFree := 0, requests := none, lastRequest := none,
    numRequests := 0 }

/-- The function `add_request`, between locking and unlocking the mutex. -/
def add_request (q : RequestQueue) (fileDescriptor : Int) (addressInfo addressSize : Nat) :
    Option RequestQueue :=
  let request := q.nextFree
  let heap1 := Function.update q.heap request
    (some { fileDescriptor := fileDescriptor, addressInfo := addressInfo,
            addressSize := addressSize, next := none })
  if q.numRequests = 0 then
    some { heap := heap1, nextFree := request + 1, requests := some request,
           lastRequest := some request, numRequests := q.numRequests + 1 }
  else
    match q.lastRequest with
    | none => none
    | some last =>
      match heap1 last with
      | none => none
      | some node =>
        some { heap := Function.update heap1 last (some { node with next := some request }),
               nextFree := request + 1, requests := q.requests,
               lastRequest := some request, numRequests := q.numRequests + 1 }

/-- The function `get_request`, between locking and unlocking the mutex: the
new state and the returned pointer (`none` when the list is empty). -/
def get_request (q : RequestQueue) : Option (RequestQueue × Option Nat) :=
  if q.numRequests > 0 then
    match q.requests with
    | none => none
    | some request =>
      match q.heap request with
      | none => none
      | some node =>
        some ({ q with requests := node.next,
                       lastRequest := if node.next = none then none else q.lastRequest,
                       numRequests := q.numRequests - 1 }, some request)
  else some (q, none)

/-- One operation on the queue: an `add_request` with its arguments, or a
`get_request`. -/
inductive QueueOp where
  | enqueue (fileDescriptor : Int) (addressInfo addressSize : Nat)
  | dequeue
deriving DecidableEq

/-- What identifies a request: file descriptor, address info, address size. -/
abbrev RequestData := Int × Nat × Nat

/-- The requests the `enqueue` operations of a sequence put in, in order. -/
def enqueued : List QueueOp → List RequestData
  | [] => []
  | QueueOp.enqueue fd info size :: ops => (fd, info, size) :: enqueued ops
  | QueueOp.dequeue :: ops => enqueued ops

/-- Runs a sequence of queue operations one at a time.  The result is the final
state and the requests that the `get_request` calls returned (a call that
returns `NULL` contributes nothing), read through the returned pointer, in the
order of the calls. -/
def run_queue : RequestQueue → List QueueOp → Option (RequestQueue × List RequestData)
  | q, [] => some (q, [])
  | q, QueueOp.enqueue fd info size :: ops =>
    match add_request q fd info size with
    | none => none
    | some q' => run_queue q' ops
  | q, QueueOp.dequeue :: ops =>
    match get_request q with
    | none => none
    | some (q', none) => run_queue q' ops
    | some (q', some request) =>
      match q'.heap request with
      | none => none
      | some node =>
        match run_queue q' ops with
        | none => none
        | some (q'', out) =>
          some (q'', (node.fileDescriptor, node.addressInfo, node.addressSize) :: out)

/-- The chain of nodes that starts at pointer `p` in `heap`: their addresses
and request data, in link order, ending at a `NULL` link. -/
def queue_chain (heap : Nat → Option request_t) :
    Option Nat → List (Nat × RequestData) → Prop
  | p, [] => p = none
  | p, (a, d) :: l =>
    p = some a ∧ ∃ node, heap a = some node ∧
      (node.fileDescriptor, node.addressInfo, node.addressSize) = d ∧
      queue_chain heap node.next l

/-- The invariant of the queue: the chain from `requests` holds the pending
requests, `lastRequest` points at its last node, `numRequests` is its length,
and its addresses are distinct and were handed out by the allocator. -/
structure queue_inv (q : RequestQueue) (l : List (Nat × RequestData)) : Prop where
  chain : queue_chain q.heap q.requests l
  last : q.lastRequest = (l.map Prod.fst).getLast?
  num : q.numRequests = (l.length : Int)
  nodup : (l.map Prod.fst).Nodup
  bound : ∀ a ∈ l.map Prod.fst, a < q.nextFree

/-! ## Game engine

The character buffers of `play_hangman` that are indexed (`hangmanWord`,
`clientWord`, `guessedLetters`) are the `List Char` of their characters, without
the terminating NUL of `hangmanWord` and `clientWord`.  `buf[j] = c` is
`List.set`, which leaves the list as it is when `j` is not an index of the list:
a write behind the end of `guessedLetters` changes nothing that is modelled. -/

/-- The struct `hangman_word_t`. -/
structure hangman_word_t where
  objectName : String
  objectType : String
deriving DecidableEq

/-- The local variables of `play_hangman` that make up the state of one game. -/
structure GameState where
  hangmanWord : List Char
  hangmanWordLength : Nat
  clientWord : List Char
  numGuesses : Int
  i : Nat
  guessedLetters : List Char
  gameWon : Bool
  gameOver : Bool
deriving DecidableEq

/-- The part of `play_hangman` in front of its `while` loop, for the corpus
entry `hangmanWordItem = hangmanWords[randomNumber]`. -/
def hangman_init (hangmanWordItem : hangman_word_t) : GameState :=
  let objectType := hangmanWordItem.objectType.data
  let objectName := hangmanWordItem.objectName.data
  let hangmanWordLength := objectType.length + 1 + objectName.length
  -- strcpy(hangmanWord, objectType); strcat(hangmanWord, " "); strcat(hangmanWord, objectName);
  let hangmanWord := (objectType ++ [' ']) ++ objectName
  let numGuesses : Int :=
    if hangmanWordLength + 9 > MAX_NUM_GUESSES then (MAX_NUM_GUESSES : Int)
    else ((hangmanWord.length + 9 : Nat) : Int)
  -- calloc, then for (i = 0; i < hangmanWordLength; i++) clientWord[i] = '_';
  let clientWord0 := (List.range hangmanWordLength).foldl (fun cw i => cw.set i '_')
    (List.replicate hangmanWordLength '\x00')
  let clientWord := clientWord0.set objectType.length ' '
  { hangmanWord := hangmanWord, hangmanWordLength := hangmanWordLength,
    clientWord := clientWord, numGuesses := numGuesses, i := 0,
    guessedLetters := ' ' :: List.replicate (MAX_NUM_GUESSES - 1) '\x00',
    gameWon := false, gameOver := false }

/-- The corpus entry `(category, item)` of the spec: `play_hangman` puts
`objectType` in front, so the category is `objectType` and the item `objectName`. -/
def corpus_entry (category item : String) : hangman_word_t :=
  { objectName := item, objectType := category }

/-- The corpus entry of the spec's scenario: category "animal", item "dog". -/
def animal_dog : hangman_word_t := corpus_entry "animal" "dog"

/-- One pass of the loop `for (j = 0; j < hangmanWordLength; j++)` of
`play_hangman` on the pair `(clientWord, gameWon)`. -/
def reveal_step (hangmanWord : List Char) (guess : Char) (acc : List Char × Bool) (j : Nat) :
    List Char × Bool :=
  if hangmanWord.getD j '\x00' = guess then (acc.1.set j guess, acc.2)
  else if acc.1.getD j '\x00' = '_' then (acc.1, false)
  else acc

/-- The body of `if (gameStatusIndicator == 'O')` in `play_hangman` after the
guess was received: `guess` is `receivedMessage[0]`. -/
def apply_guess (s : GameState) (guess : Char) : GameState :=
  let guessedLetters := (s.guessedLetters.set s.i guess).set (s.i + 1) '\x00'
  let numGuesses := s.numGuesses - 1
  -- gameWon = true; for (j = 0; j < hangmanWordLength; j++) ...
  let revealed := (List.range s.hangmanWordLength).foldl (reveal_step s.hangmanWord guess)
    (s.clientWord, true)
  { s with guessedLetters := guessedLetters, numGuesses := numGuesses,
           clientWord := revealed.1, gameWon := revealed.2, i := s.i + 1 }

/-- The `gameStatusIndicator` that `play_hangman` computes at the top of its
loop: `'W'` when `gameWon`, else `'L'` when `numGuesses == 0`, else `'O'`. -/
def game_status_indicator (s : GameState) : Char :=
  if s.gameWon then 'W' else if s.numGuesses = 0 then 'L' else 'O'

/-! ## Session: messages, game loop, leaderboard stream, menu, login

The state of one connection as its worker thread sees it.  `incoming` holds the
results of the successive `receive_client_message` calls still to come, `none`
standing for a `NULL` result (receive error or connection closed); when the
list is used up the peer has closed the connection, and the call returns `NULL`.
`sent` holds the messages passed to `send_client_message`, oldest first (a send
error is only logged by the C code).  A received message is a C string; its
first byte `message[0]` is the first character, or NUL for the empty string.
`sprintf` into `messageToSend` is string concatenation; the capacity of
`messageToSend` is not modelled.  A session function returns `none` when the C
code would dereference `NULL` or divide by zero. -/

/-- The struct `user_info_t`. -/
structure user_info_t where
  username : String
  password : String
deriving DecidableEq

/-- What a worker thread works on while it serves one connection: the socket
(`incoming`, `sent`), the leaderboard globals, `loggedInUsers[threadId]`
(`none` for `NULL`) and the values that the coming `rand()` calls return. -/
structure Session where
  incoming : List (Option String)
  sent : List String
  leaderboard : Leaderboard
  loggedInUser : Option String
  randoms : List Nat
deriving DecidableEq

/-- The function `send_client_message`. -/
def send_client_message (ss : Session) (message : String) : Session :=
  { ss with sent := ss.sent ++ [message] }

/-- The function `receive_client_message`: the message or `none` for `NULL`. -/
def receive_client_message (ss : Session) : Option String × Session :=
  match ss.incoming with
  | [] => (none, ss)
  | r :: rest => (r, { ss with incoming := rest })

/-- The byte `message[0]` of a received C string. -/
def first_char (message : String) : Char := message.data.headD '\x00'

/-- The C string held in a character buffer: the characters in front of the
first NUL (what `%s` prints). -/
def c_string (buf : List Char) : List Char := buf.takeWhile (fun c => c != '\x00')

/-- What `%d` prints for an `int`. -/
def sprintf_d (n : Int) : List Char :=
  if n < 0 then '-' :: Nat.toDigits 10 n.natAbs else Nat.toDigits 10 n.toNat

/-- The message `sprintf(messageToSend, "%s|%d|%s|%c", guessedLetters, numGuesses,
clientWord, gameStatusIndicator)` of `play_hangman`. -/
def game_update_message (s : GameState) (gameStatusIndicator : Char) : String :=
  String.mk (c_string s.guessedLetters ++ '|' :: sprintf_d s.numGuesses ++
    '|' :: c_string s.clientWord ++ ['|', gameStatusIndicator])

/-- The `while (!gameOver)` loop of `play_hangman` on the pending results of
`receive_client_message`, the game state and the messages sent so far.  The
result is `false` when the loop is left by `return false` and `true` when it is
left with `gameOver` set, with the final game state, the messages sent and the
receive results not consumed. -/
def play_hangman_loop :
    List (Option String) → GameState → List String →
      Bool × GameState × List String × List (Option String)
  | [], s, sent =>
    if game_status_indicator s = 'O' then
      (false, s, sent ++ [game_update_message s (game_status_indicator s)], [])
    else
      (true, { s with gameOver := true },
        sent ++ [game_update_message s (game_status_indicator s)], [])
  | received :: rest, s, sent =>
    if game_status_indicator s = 'O' then
      match received with
      | none =>
        (false, s, sent ++ [game_update_message s (game_status_indicator s)], rest)
      | some receivedMessage =>
        play_hangman_loop rest (apply_guess s (first_char receivedMessage))
          (sent ++ [game_update_message s (game_status_indicator s)])
    else
      (true, { s with gameOver := true },
        sent ++ [game_update_message s (game_status_indicator s)], received :: rest)

/-- The function `play_hangman`.  `rand()` returns the head of `randoms`. -/
def play_hangman (hangmanWords : List hangman_word_t) (ss : Session) :
    Option (Bool × Session) :=
  if hangmanWords.length = 0 then none
  else
    match hangmanWords[ss.randoms.headD 0 % hangmanWords.length]? with
    | none => none
    | some hangmanWordItem =>
      match play_hangman_loop ss.incoming (hangman_init hangmanWordItem) ss.sent with
      | (false, _, sent, incoming) =>
        some (false, { ss with incoming := incoming, sent := sent,
                               randoms := ss.randoms.tail })
      | (true, s, sent, incoming) =>
        match ss.loggedInUser with
        | none => none
        | some currentUser =>
          some (true, { ss with incoming := incoming, sent := sent,
                                randoms := ss.randoms.tail,
                                leaderboard := update_leaderboard ss.leaderboard currentUser
                                  s.gameWon })

/-- The message `sprintf(messageToSend, "%s|%d|%d", item->username, item->gamesWon,
item->totalGames)` of `send_leaderboard`. -/
def leaderboard_item_message (item : leaderboard_item_t) : String :=
  String.mk (item.username.data ++ '|' :: sprintf_d item.gamesWon ++
    '|' :: sprintf_d item.totalGames)

/-- The `for (i = 0; i < numLeaderboardItems; i++)` loop of `send_leaderboard`:
the first argument is the number of rounds still to run, the second the chain
from `item`. -/
def send_leaderboard_items :
    Nat → List leaderboard_item_t → Session → Option (Bool × Session)
  | 0, _, ss => some (true, ss)
  | _ + 1, [], _ => none
  | n + 1, item :: rest, ss =>
    match receive_client_message (send_client_message ss (leaderboard_item_message item)) with
    | (none, ss') => some (false, ss')
    | (some _, ss') => send_leaderboard_items n rest ss'

/-- The function `send_leaderboard`, `read_lock` and `read_unlock` left out. -/
def send_leaderboard (ss : Session) : Option (Bool × Session) :=
  match receive_client_message
      (send_client_message ss (String.mk (sprintf_d ss.leaderboard.numLeaderboardItems))) with
  | (none, ss') => some (false, ss')
  | (some _, ss') =>
    match send_leaderboard_items ss.leaderboard.numLeaderboardItems.toNat
        ss.leaderboard.leaderboardItems ss' with
    | none => none
    | some (false, ss'') => some (false, ss'')
    | some (true, ss'') => some (true, send_client_message ss'' "Y")

/-- The `while (!quitMenu)` loop of `main_menu`, with a bound on the number of
rounds; `none` also when the bound is used up. -/
def main_menu_loop (hangmanWords : List hangman_word_t) :
    Nat → Session → Option (Bool × Session)
  | 0, _ => none
  | fuel + 1, ss =>
    match receive_client_message ss with
    | (none, ss') => some (false, ss')
    | (some selection, ss') =>
      if first_char selection = '1' then
        match play_hangman hangmanWords ss' with
        | none => none
        | some (true, ss'') => main_menu_loop hangmanWords fuel ss''
        | some (false, ss'') => some (true, ss'')
      else if first_char selection = '2' then
        match send_leaderboard ss' with
        | none => none
        | some (true, ss'') => main_menu_loop hangmanWords fuel ss''
        | some (false, ss'') => some (true, ss'')
      else if first_char selection = '3' then some (true, ss')
      else some (false, ss')

/-- The function `main_menu`.  Every round of its loop consumes a receive
result, so one round more than there are pending results is enough. -/
def main_menu (hangmanWords : List hangman_word_t) (ss : Session) : Option (Bool × Session) :=
  main_menu_loop hangmanWords (ss.incoming.length + 1) ss

/-- The `for (i = 0; i < numUsers; i++)` loop of `is_user_valid` on the rest of
the `users` array; `message` is the received username. -/
def is_user_valid_loop : List user_info_t → String → Session → Bool × Session
  | [], _, ss => (false, ss)
  | user :: rest, message, ss =>
    if strcmp user.username message = 0 then
      match receive_client_message
          (send_client_message ss "Please enter your password: ") with
      | (none, ss') => (false, ss')
      | (some password, ss') =>
        if strcmp user.password password = 0 then
          (true, { ss' with loggedInUser := some user.username })
        else (false, ss')
    else is_user_valid_loop rest message ss

/-- The function `is_user_valid`. -/
def is_user_valid (users : List user_info_t) (ss : Session) : Bool × Session :=
  match receive_client_message
      (send_client_message ss "\nPlease enter your username: ") with
  | (none, ss') => (false, ss')
  | (some message, ss') => is_user_valid_loop users message ss'

/-- The function `handle_request`. -/
def handle_request (users : List user_info_t) (hangmanWords : List hangman_word_t)
    (ss : Session) : Option Session :=
  match is_user_valid users ss with
  | (false, ss') => some (send_client_message ss' "false")
  | (true, ss') =>
    match main_menu hangmanWords (send_client_message ss' "true") with
    | none => none
    | some (_, ss'') => some ss''

/-- The credential collaborator of the spec, `lookup(username)`: the first
entry of the table with that username. -/
def lookup (users : List user_info_t) (username : String) : Option user_info_t :=
  users.find? (fun user => user.username = username)

/-- The tokens that successive `strtok(message, "|")`, `strtok(NULL, "|")`, ...
calls of the client return: the maximal runs of characters other than `'|'`,
in order.  `cur` is the run being read, reversed. -/
def strtok_fields : List Char → List Char → List (List Char)
  | [], cur => if cur = [] then [] else [cur.reverse]
  | c :: rest, cur =>
    if c = '|' then
      if cur = [] then strtok_fields rest [] else cur.reverse :: strtok_fields rest []
    else strtok_fields rest (c :: cur)

/-- The 26 one-letter messages "a", "b", ..., "z". -/
def alphabet_messages : List String :=
  "abcdefghijklmnopqrstuvwxyz".data.map (fun c => String.mk [c])

/-- The 27 one-character messages " ", "a", "b", ..., "z". -/
def pangram_guesses : List String :=
  " abcdefghijklmnopqrstuvwxyz".data.map (fun c => String.mk [c])

/-- The indices of `guessedLetters` that the statements
`guessedLetters[i] = guess; guessedLetters[i + 1] = '\0';` of `play_hangman`
write when a guess is received in the state `s`. -/
def guess_write_indices (s : GameState) : List Nat := [s.i, s.i + 1]

/-- The corpus entry with category "animal" and item "hippopotamus": a phrase
of 19 characters, which gets `MAX_NUM_GUESSES` attempts. -/
def animal_hippopotamus : hangman_word_t := corpus_entry "animal" "hippopotamus"

/-! ## Shutdown: `close_sockets`

The calls of `close` are recorded as the list of the descriptors passed to it,
oldest first.  The array `clientConnections` is the list of its entries. -/

/-- The constant `MAX_USERS`. -/
def MAX_USERS : Nat := 10

/-- The constant `NO_CONNECTION`. -/
def NO_CONNECTION : Int := -1

/-- The part of `close_sockets` in front of its `while` loop: it closes
`serverfileDescriptor`, then each of the first `MAX_USERS` entries of
`clientConnections` that is not `NO_CONNECTION`. -/
def close_connections (serverfileDescriptor : Int) (clientConnections : List Int) : List Int :=
  serverfileDescriptor ::
    (clientConnections.take MAX_USERS).filter (fun fd => fd ≠ NO_CONNECTION)

/-- The state of the `while` loop of `close_sockets`: the local variable
`currentRequest` and the descriptors closed so far. -/
structure CloseState where
  currentRequest : Option Nat
  closed : List Int
deriving DecidableEq

/-- The loop `while (currentRequest != NULL)` of `close_sockets`, run for at most
`fuel` iterations: the state after them, which is the state at the exit of the
loop when `currentRequest` is `NULL` in it.  The result is `none` when a pointer
that is `NULL` or not allocated is dereferenced. -/
def close_sockets_loop (q : RequestQueue) : Nat → CloseState → Option CloseState
  | 0, st => some st
  | fuel + 1, st =>
    match st.currentRequest with
    | none => some st
    | some current =>
      match q.heap current with
      | none => none
      | some node =>
        -- close(currentRequest->fileDescriptor);
        let closed := st.closed ++ [node.fileDescriptor]
        -- currentRequest = requests->next;
        match q.requests with
        | none => none
        | some head =>
          match q.heap head with
          | none => none
          | some headNode =>
            close_sockets_loop q fuel { currentRequest := headNode.next, closed := closed }

/-- The function `close_sockets` with at most `fuel` iterations of its `while`
loop: the descriptors it has closed when it returns, `none` when the loop has
not ended after `fuel` iterations (or a bad pointer is dereferenced). -/
def close_sockets (serverfileDescriptor : Int) (clientConnections : List Int)
    (q : RequestQueue) (fuel : Nat) : Option (List Int) :=
  match close_sockets_loop q fuel
      { currentRequest := q.requests,
        closed := close_connections serverfileDescriptor clientConnections } with
  | some st => if st.currentRequest = none then some st.closed else none
  | none => none

/-- The spec's re-insertion by a scan from the head, in its own words: going
from the head, `newItem` is put in front of the first item that does not rank
before it, or at the tail when every item ranks before it. -/
def reinsert_from_head :
    List leaderboard_item_t → leaderboard_item_t → List leaderboard_item_t
  | [], newItem => [newItem]
  | head :: rest, newItem =>
    if compare_leaderboard_items head newItem < 0 then
      head :: reinsert_from_head rest newItem
    else newItem :: head :: rest

/-- The spec's FIFO queue in its own words, on the list of the pending
requests, oldest first: an enqueue appends at the tail; a dequeue takes the
head and hands it out, and hands out nothing when no request is pending.  The
result is the pending requests at the end and the requests handed out, in the
order of the calls. -/
def fifo_model : List RequestData → List QueueOp → List RequestData × List RequestData
  | pending, [] => (pending, [])
  | pending, QueueOp.enqueue fd info size :: ops =>
    fifo_model (pending ++ [(fd, info, size)]) ops
  | [], QueueOp.dequeue :: ops => fifo_model [] ops
  | d :: pending, QueueOp.dequeue :: ops =>
    ((fifo_model pending ops).1, d :: (fifo_model pending ops).2)

/-! ## Facts about `strcmp` -/

theorem char_toNat_inj {a b : Char} (h : a.toNat = b.toNat) : a = b := by
  rw [← Char.ofNat_toNat a, ← Char.ofNat_toNat b, h]

theorem char_lt_iff_toNat (a b : Char) : a < b ↔ a.toNat < b.toNat := Iff.rfl

theorem strcmpAux_eq_zero_iff (s t : List Char) : strcmpAux s t = 0 ↔ s = t := by
  induction s generalizing t with
  | nil => cases t <;> simp [strcmpAux]
  | cons a as ih =>
    cases t with
    | nil => simp [strcmpAux]
    | cons b bs =>
      simp only [strcmpAux]
      split_ifs with h1 h2
      · constructor
        · intro h; exact absurd h (by decide)
        · intro h; injection h with hab _; subst hab; exact absurd h1 (lt_irrefl _)
      · constructor
        · intro h; exact absurd h (by decide)
        · intro h; injection h with hab _; subst hab; exact absurd h2 (lt_irrefl _)
      · have hab : a = b := char_toNat_inj (by omega)
        subst hab
        rw [ih bs]
        simp

theorem strcmpAux_neg_iff (s t : List Char) : strcmpAux s t < 0 ↔ List.lt s t := by
  induction s generalizing t with
  | nil =>
    cases t with
    | nil => simp only [strcmpAux]; constructor
             · intro h; exact absurd h (by decide)
             · intro h; cases h
    | cons b bs => simp only [strcmpAux]; constructor
                   · intro _; exact List.lt.nil b bs
                   · intro _; decide
  | cons a as ih =>
    cases t with
    | nil =>
      simp only [strcmpAux]
      constructor
      · intro h; omega
      · intro h; cases h
    | cons b bs =>
      simp only [strcmpAux]
      split_ifs with h1 h2
      · constructor
        · intro _; exact List.lt.head as bs h1
        · intro _; omega
      · constructor
        · intro h; omega
        · intro h
          cases h with
          | head _ _ h3 => exact absurd h3 h1
          | tail h3 h4 _ => exact absurd h2 h4
      · rw [ih bs]
        constructor
        · intro h; exact List.lt.tail h1 h2 h
        · intro h
          cases h with
          | head _ _ h3 => exact absurd h3 h1
          | tail _ _ h5 => exact h5

theorem strcmpAux_antisymm (s t : List Char) : strcmpAux t s = - strcmpAux s t := by
  induction s generalizing t with
  | nil => cases t <;> simp [strcmpAux]
  | cons a as ih =>
    cases t with
    | nil => simp [strcmpAux]
    | cons b bs =>
      simp only [strcmpAux]
      split_ifs with h1 h2 h3 <;> first | omega | rfl | exact ih bs

theorem strcmp_eq_zero_iff (s t : String) : strcmp s t = 0 ↔ s = t := by
  unfold strcmp
  rw [strcmpAux_eq_zero_iff]
  constructor
  · exact String.ext
  · intro h; rw [h]

theorem strcmp_neg_iff (s t : String) : strcmp s t < 0 ↔ s < t := by
  unfold strcmp
  rw [strcmpAux_neg_iff, String.lt_iff_toList_lt]
  exact List.lt_iff_lex_lt s.data t.data

theorem strcmp_antisymm (s t : String) : strcmp t s = - strcmp s t :=
  strcmpAux_antisymm s.data t.data

theorem strcmp_pos_iff (s t : String) : 0 < strcmp s t ↔ t < s := by
  rw [← strcmp_neg_iff t s, strcmp_antisymm s t]
  omega

/-! ## The comparator -/

theorem compare_neg_iff (a b : leaderboard_item_t) :
    compare_leaderboard_items a b < 0 ↔
      a.gamesWon < b.gamesWon ∨
      (a.gamesWon = b.gamesWon ∧ a.percentageWon < b.percentageWon) ∨
      (a.gamesWon = b.gamesWon ∧ a.percentageWon = b.percentageWon ∧
        a.username < b.username) := by
  unfold compare_leaderboard_items
  split_ifs with h1 h2 h3 h4
  · simp [h1]
  · simp [h2, h3]
  · rw [strcmp_neg_iff]; simp [h2, h4]
  · have h5 : ¬ ((1 : Int) < 0) := by decide
    simp only [h5, false_iff]
    rintro (h | ⟨_, h⟩ | ⟨_, h, _⟩)
    · exact h1 h
    · exact h3 h
    · exact h4 h
  · have h5 : ¬ ((1 : Int) < 0) := by decide
    simp only [h5, false_iff]
    rintro (h | ⟨h, _⟩ | ⟨h, _⟩)
    · exact h1 h
    · exact h2 h
    · exact h2 h

theorem compare_eq_zero_iff (a b : leaderboard_item_t) :
    compare_leaderboard_items a b = 0 ↔
      a.gamesWon = b.gamesWon ∧ a.percentageWon = b.percentageWon ∧
        a.username = b.username := by
  unfold compare_leaderboard_items
  split_ifs with h1 h2 h3 h4
  · have h5 : ¬ ((-1 : Int) = 0) := by decide
    simp only [h5, false_iff]
    rintro ⟨h, _⟩
    omega
  · have h5 : ¬ ((-1 : Int) = 0) := by decide
    simp only [h5, false_iff]
    rintro ⟨_, h, _⟩
    exact absurd h3 (by rw [h]; exact lt_irrefl _)
  · rw [strcmp_eq_zero_iff]; simp [h2, h4]
  · have h5 : ¬ ((1 : Int) = 0) := by decide
    simp only [h5, false_iff]
    rintro ⟨_, h, _⟩
    exact h4 h
  · have h5 : ¬ ((1 : Int) = 0) := by decide
    simp only [h5, false_iff]
    rintro ⟨h, _⟩
    exact h2 h

theorem compare_antisymm_sign (a b : leaderboard_item_t) :
    0 < compare_leaderboard_items a b ↔ compare_leaderboard_items b a < 0 := by
  rw [compare_neg_iff b a]
  unfold compare_leaderboard_items
  split_ifs with h1 h2 h3 h4
  · have h5 : ¬ ((0 : Int) < -1) := by decide
    simp only [h5, false_iff]
    rintro (h | ⟨h, _⟩ | ⟨h, _⟩) <;> omega
  · have h5 : ¬ ((0 : Int) < -1) := by decide
    simp only [h5, false_iff]
    rintro (h | ⟨_, h⟩ | ⟨_, h, _⟩)
    · omega
    · exact absurd h (not_lt.mpr h3.le)
    · exact absurd h3 (by rw [h]; exact lt_irrefl _)
  · rw [strcmp_pos_iff]
    constructor
    · intro h; exact Or.inr (Or.inr ⟨h2.symm, h4.symm, h⟩)
    · rintro (h | ⟨_, h⟩ | ⟨_, _, h⟩)
      · omega
      · exact absurd h (by rw [h4]; exact lt_irrefl _)
      · exact h
  · have h5 : (0 : Int) < 1 := by decide
    simp only [h5, true_iff]
    exact Or.inr (Or.inl ⟨h2.symm, lt_of_le_of_ne (not_lt.mp h3) (Ne.symm h4)⟩)
  · have h5 : (0 : Int) < 1 := by decide
    simp only [h5, true_iff]
    exact Or.inl (lt_of_le_of_ne (not_lt.mp h1) (Ne.symm h2))

/-! ## Shape of the leaderboard after one operation -/

theorem insert_at_correct_pos_shape (startItem : leaderboard_item_t)
    (rest : List leaderboard_item_t) (newItem : leaderboard_item_t) :
    ∃ l1 l2, rest = l1 ++ l2 ∧
      insert_leaderboard_item_at_correct_pos startItem rest newItem
        = startItem :: (l1 ++ newItem :: l2) ∧
      (∀ x ∈ l1, compare_leaderboard_items x newItem < 0) ∧
      (∀ y ∈ l2.head?, ¬ compare_leaderboard_items y newItem < 0) := by
  induction rest generalizing startItem with
  | nil => exact ⟨[], [], rfl, rfl, by simp, by simp⟩
  | cons next rest ih =>
    by_cases h : compare_leaderboard_items next newItem < 0
    · obtain ⟨l1, l2, h1, h2, h3, h4⟩ := ih next
      refine ⟨next :: l1, l2, by rw [h1]; rfl, ?_, ?_, h4⟩
      · simp only [insert_leaderboard_item_at_correct_pos, h, if_true, h2]
        rfl
      · intro x hx
        rcases List.mem_cons.mp hx with rfl | hx
        · exact h
        · exact h3 x hx
    · refine ⟨[], next :: rest, rfl, ?_, by simp, ?_⟩
      · simp only [insert_leaderboard_item_at_correct_pos, h, if_false]
        rfl
      · intro y hy
        simp only [List.head?_cons, Option.mem_def, Option.some.injEq] at hy
        subst hy
        exact h

theorem add_leaderboard_item_shape (lb : Leaderboard) (u : String) (won : Bool) :
    ∃ l1 l2, lb.leaderboardItems = l1 ++ l2 ∧
      (add_leaderboard_item lb u won).leaderboardItems
        = l1 ++ new_leaderboard_item u won :: l2 ∧
      (add_leaderboard_item lb u won).numLeaderboardItems = lb.numLeaderboardItems + 1 ∧
      (∀ x ∈ l1, compare_leaderboard_items x (new_leaderboard_item u won) < 0) ∧
      (∀ y ∈ l2.head?, ¬ compare_leaderboard_items y (new_leaderboard_item u won) < 0) := by
  obtain ⟨items, num⟩ := lb
  cases items with
  | nil =>
    refine ⟨[], [], rfl, ?_, ?_, by simp, by simp⟩
    · simp [add_leaderboard_item]
    · simp [add_leaderboard_item]
  | cons head rest =>
    by_cases h : compare_leaderboard_items head (new_leaderboard_item u won) ≥ 0
    · refine ⟨[], head :: rest, rfl, ?_, ?_, by simp, ?_⟩
      · simp only [add_leaderboard_item, h, if_true]
        rfl
      · simp only [add_leaderboard_item, h, if_true]
      · intro y hy
        simp only [List.head?_cons, Option.mem_def, Option.some.injEq] at hy
        subst hy
        exact not_lt.mpr h
    · obtain ⟨l1, l2, h1, h2, h3, h4⟩ :=
        insert_at_correct_pos_shape head rest (new_leaderboard_item u won)
      refine ⟨head :: l1, l2, by rw [h1]; rfl, ?_, ?_, ?_, h4⟩
      · simp only [add_leaderboard_item, h, if_false, h2]
        rfl
      · simp only [add_leaderboard_item, h, if_false]
      · intro x hx
        rcases List.mem_cons.mp hx with rfl | hx
        · exact not_le.mp h
        · exact h3 x hx

theorem find_leaderboard_item_absent (u : String) (l : List leaderboard_item_t)
    (h : ∀ x ∈ l, x.username ≠ u) (before : List leaderboard_item_t)
    (prev : Option leaderboard_item_t) :
    (find_leaderboard_item u before prev l).2.2 = [] := by
  induction l generalizing before prev with
  | nil => rfl
  | cons item rest ih =>
    have h1 : ¬ strcmp item.username u = 0 := by
      rw [strcmp_eq_zero_iff]; exact h item (List.mem_cons_self _ _)
    simp only [find_leaderboard_item, h1, if_false]
    exact ih (fun x hx => h x (List.mem_cons_of_mem _ hx)) _ _

theorem find_leaderboard_item_present (u : String) (l : List leaderboard_item_t)
    (h : ∃ x ∈ l, x.username = u) (before : List leaderboard_item_t)
    (prev : Option leaderboard_item_t) (hinv : prev = none → before = []) :
    ∃ b p pre item after,
      find_leaderboard_item u before prev l = (b, p, item :: after) ∧
      l = pre ++ item :: after ∧ item.username = u ∧ (∀ x ∈ pre, x.username ≠ u) ∧
      b ++ p.toList = before ++ prev.toList ++ pre ∧ (p = none → b = []) := by
  induction l generalizing before prev with
  | nil => obtain ⟨x, hx, _⟩ := h; cases hx
  | cons item rest ih =>
    by_cases h1 : strcmp item.username u = 0
    · refine ⟨before, prev, [], item, rest, ?_, rfl, (strcmp_eq_zero_iff _ _).mp h1,
        by simp, by simp, hinv⟩
      simp only [find_leaderboard_item, h1, if_true]
    · have h2 : ∃ x ∈ rest, x.username = u := by
        obtain ⟨x, hx, hxu⟩ := h
        rcases List.mem_cons.mp hx with rfl | hx
        · exact absurd ((strcmp_eq_zero_iff _ _).mpr hxu) h1
        · exact ⟨x, hx, hxu⟩
      obtain ⟨b, p, pre, it, after, e1, e2, e3, e4, e5, e6⟩ :=
        ih h2 (before ++ prev.toList) (some item) (by simp)
      refine ⟨b, p, item :: pre, it, after, ?_, by rw [e2]; rfl, e3, ?_, ?_, e6⟩
      · simp only [find_leaderboard_item, h1, if_false]
        exact e1
      · intro x hx
        rcases List.mem_cons.mp hx with rfl | hx
        · intro hxu; exact h1 ((strcmp_eq_zero_iff _ _).mpr hxu)
        · exact e4 x hx
      · rw [e5]; simp

theorem update_leaderboard_item_shape (b : List leaderboard_item_t)
    (p : Option leaderboard_item_t) (item : leaderboard_item_t)
    (after : List leaderboard_item_t) (won : Bool) (hinv : p = none → b = []) :
    ∃ l1 l2, after = l1 ++ l2 ∧
      update_leaderboard_item b p item after won
        = b ++ p.toList ++ l1 ++ updated_item item won :: l2 := by
  cases after with
  | nil => exact ⟨[], [], rfl, by simp [update_leaderboard_item]⟩
  | cons next rest =>
    by_cases h : compare_leaderboard_items (updated_item item won) next > 0
    · cases p with
      | none =>
        obtain ⟨l1, l2, h1, h2, _, _⟩ :=
          insert_at_correct_pos_shape next rest (updated_item item won)
        refine ⟨next :: l1, l2, by rw [h1]; rfl, ?_⟩
        simp only [update_leaderboard_item, h, if_true, h2, hinv rfl]
        simp
      | some prev =>
        obtain ⟨l1, l2, h1, h2, _, _⟩ :=
          insert_at_correct_pos_shape prev (next :: rest) (updated_item item won)
        refine ⟨l1, l2, h1, ?_⟩
        simp only [update_leaderboard_item, h, if_true, h2]
        simp
    · refine ⟨[], next :: rest, rfl, ?_⟩
      simp only [update_leaderboard_item, h, if_false]
      simp

/-- What one `update_leaderboard` call does to the list: a username that is
absent gets a new item put in between two parts of the list, a username that is
present has its first item updated and possibly moved towards the tail. -/
theorem update_leaderboard_shape (lb : Leaderboard) (u : String) (won : Bool) :
    ((∀ x ∈ lb.leaderboardItems, x.username ≠ u) ∧
      update_leaderboard lb u won = add_leaderboard_item lb u won) ∨
    (∃ pre item l1 l2,
      lb.leaderboardItems = pre ++ item :: (l1 ++ l2) ∧ item.username = u ∧
      (∀ x ∈ pre, x.username ≠ u) ∧
      (update_leaderboard lb u won).leaderboardItems
        = pre ++ l1 ++ updated_item item won :: l2 ∧
      (update_leaderboard lb u won).numLeaderboardItems = lb.numLeaderboardItems) := by
  by_cases h : ∃ x ∈ lb.leaderboardItems, x.username = u
  · right
    obtain ⟨b, p, pre, item, after, e1, e2, e3, e4, e5, e6⟩ :=
      find_leaderboard_item_present u lb.leaderboardItems h [] none (fun _ => rfl)
    obtain ⟨l1, l2, f1, f2⟩ := update_leaderboard_item_shape b p item after won e6
    refine ⟨pre, item, l1, l2, by rw [e2, f1], e3, e4, ?_, ?_⟩
    · simp only [update_leaderboard, e1, f2, e5]
      simp
    · simp only [update_leaderboard, e1]
  · left
    have h' : ∀ x ∈ lb.leaderboardItems, x.username ≠ u := by
      intro x hx hxu; exact h ⟨x, hx, hxu⟩
    refine ⟨h', ?_⟩
    have h2 := find_leaderboard_item_absent u lb.leaderboardItems h' [] none
    unfold update_leaderboard
    generalize find_leaderboard_item u [] none lb.leaderboardItems = r at h2
    obtain ⟨r1, r2, r3⟩ := r
    simp only at h2
    subst h2
    rfl

/-! ## The rank order is a strict order -/

theorem compare_trans {a b c : leaderboard_item_t}
    (hab : compare_leaderboard_items a b < 0) (hbc : compare_leaderboard_items b c < 0) :
    compare_leaderboard_items a c < 0 := by
  rw [compare_neg_iff] at hab hbc ⊢
  rcases hab with h1 | ⟨h1, h2⟩ | ⟨h1, h2, h3⟩ <;>
    rcases hbc with g1 | ⟨g1, g2⟩ | ⟨g1, g2, g3⟩
  · exact Or.inl (lt_trans h1 g1)
  · exact Or.inl (g1 ▸ h1)
  · exact Or.inl (g1 ▸ h1)
  · exact Or.inl (h1 ▸ g1)
  · exact Or.inr (Or.inl ⟨h1.trans g1, lt_trans h2 g2⟩)
  · exact Or.inr (Or.inl ⟨h1.trans g1, g2 ▸ h2⟩)
  · exact Or.inl (h1 ▸ g1)
  · exact Or.inr (Or.inl ⟨h1.trans g1, h2 ▸ g2⟩)
  · exact Or.inr (Or.inr ⟨h1.trans g1, h2.trans g2, lt_trans h3 g3⟩)

theorem compare_neg_of_not_neg {a b : leaderboard_item_t} (hne : a.username ≠ b.username)
    (h : ¬ compare_leaderboard_items a b < 0) : compare_leaderboard_items b a < 0 := by
  rw [← compare_antisymm_sign]
  have h0 : compare_leaderboard_items a b ≠ 0 := by
    intro h0
    exact hne ((compare_eq_zero_iff a b).mp h0).2.2
  omega

theorem sorted_pairwise {l : List leaderboard_item_t} (h : leaderboard_sorted l) :
    l.Pairwise (fun a b => compare_leaderboard_items a b < 0) := by
  induction l with
  | nil => exact List.Pairwise.nil
  | cons a l ih =>
    have h' : List.Chain' (fun a b => compare_leaderboard_items a b < 0) (a :: l) := h
    rw [List.chain'_cons'] at h'
    refine List.Pairwise.cons ?_ (ih h'.2)
    have hp := ih h'.2
    cases l with
    | nil => intro x hx; cases hx
    | cons b l =>
      have hab : compare_leaderboard_items a b < 0 := h'.1 b rfl
      intro x hx
      rcases List.mem_cons.mp hx with rfl | hx
      · exact hab
      · exact compare_trans hab ((List.pairwise_cons.mp hp).1 x hx)

theorem sorted_of_pairwise {l : List leaderboard_item_t}
    (h : l.Pairwise (fun a b => compare_leaderboard_items a b < 0)) :
    leaderboard_sorted l :=
  List.Pairwise.chain' h

/-- Putting `x` between `l1` and `l2` keeps the list sorted when everything in
`l1` ranks before `x` and `x` ranks before the first item of `l2`. -/
theorem sorted_insert {l1 l2 : List leaderboard_item_t} {x : leaderboard_item_t}
    (hs : leaderboard_sorted (l1 ++ l2))
    (h1 : ∀ a ∈ l1, compare_leaderboard_items a x < 0)
    (h2 : ∀ b ∈ l2.head?, compare_leaderboard_items x b < 0) :
    leaderboard_sorted (l1 ++ x :: l2) ∧ ∀ b ∈ l2, compare_leaderboard_items x b < 0 := by
  have hp := sorted_pairwise hs
  rw [List.pairwise_append] at hp
  obtain ⟨p1, p2, p3⟩ := hp
  have hall : ∀ b ∈ l2, compare_leaderboard_items x b < 0 := by
    cases l2 with
    | nil => intro b hb; cases hb
    | cons y l2 =>
      have hxy : compare_leaderboard_items x y < 0 := h2 y rfl
      intro b hb
      rcases List.mem_cons.mp hb with rfl | hb
      · exact hxy
      · exact compare_trans hxy ((List.pairwise_cons.mp p2).1 b hb)
  refine ⟨sorted_of_pairwise ?_, hall⟩
  rw [List.pairwise_append]
  refine ⟨p1, List.Pairwise.cons hall p2, ?_⟩
  intro a ha b hb
  rcases List.mem_cons.mp hb with rfl | hb
  · exact h1 a ha
  · exact p3 a ha b hb

theorem items_sum_insert (l1 l2 : List leaderboard_item_t) (x : leaderboard_item_t) :
    ((l1 ++ x :: l2).map (·.totalGames)).sum
      = ((l1 ++ l2).map (·.totalGames)).sum + x.totalGames := by
  simp only [List.map_append, List.map_cons, List.sum_append, List.sum_cons]
  ring

/-- One `update_leaderboard` call raises the sum of `totalGames` by one. -/
theorem update_leaderboard_sum (lb : Leaderboard) (u : String) (won : Bool) :
    ((update_leaderboard lb u won).leaderboardItems.map (·.totalGames)).sum
      = (lb.leaderboardItems.map (·.totalGames)).sum + 1 := by
  rcases update_leaderboard_shape lb u won with ⟨_, h⟩ | ⟨pre, item, l1, l2, h1, _, _, h4, _⟩
  · obtain ⟨l1, l2, e1, e2, _, _, _⟩ := add_leaderboard_item_shape lb u won
    rw [h, e2, e1, items_sum_insert]
    rfl
  · rw [h4, h1]
    simp only [List.map_append, List.map_cons, List.sum_append, List.sum_cons, updated_item]
    ring

/-- One `update_leaderboard` call keeps the usernames pairwise different. -/
theorem update_leaderboard_nodup (lb : Leaderboard) (u : String) (won : Bool)
    (hn : (lb.leaderboardItems.map (·.username)).Nodup) :
    ((update_leaderboard lb u won).leaderboardItems.map (·.username)).Nodup := by
  rcases update_leaderboard_shape lb u won with ⟨hu, h⟩ | ⟨pre, item, l1, l2, h1, _, _, h4, _⟩
  · obtain ⟨l1, l2, e1, e2, _, _, _⟩ := add_leaderboard_item_shape lb u won
    rw [h, e2]
    rw [e1] at hn hu
    have hperm : ((l1 ++ new_leaderboard_item u won :: l2).map (·.username)).Perm
        (u :: (l1 ++ l2).map (·.username)) := by
      simp only [List.map_append, List.map_cons]
      exact List.perm_middle
    rw [hperm.nodup_iff, List.nodup_cons]
    refine ⟨?_, hn⟩
    intro hmem
    obtain ⟨x, hx, hxu⟩ := List.mem_map.mp hmem
    exact hu x hx hxu
  · rw [h4]
    rw [h1] at hn
    have hperm : ((pre ++ l1 ++ updated_item item won :: l2).map (·.username)).Perm
        ((pre ++ item :: (l1 ++ l2)).map (·.username)) := by
      simp only [List.map_append, List.map_cons, List.append_assoc, updated_item]
      refine List.Perm.append_left _ ?_
      exact List.perm_middle
    exact hperm.nodup_iff.mpr hn

theorem record_results_snoc (lb : Leaderboard) (calls : List (String × Bool))
    (call : String × Bool) :
    record_results lb (calls ++ [call])
      = update_leaderboard (record_results lb calls) call.1 call.2 := by
  simp [record_results, List.foldl_append]

/-! ## Claims about the leaderboard -/

/-- C1, evaluated on the code: from the empty leaderboard, the calls
`("a", won)`, `("b", won)`, `("b", lost)` leave the list `a (1/1), b (1/2)`,
whose only adjacent pair has `compare_leaderboard_items a b = 1`: the list is
not sorted per the comparator. -/
theorem record_results_unsorted_after_loss :
    (record_results Leaderboard.empty [("a", true), ("b", true), ("b", false)]).leaderboardItems
        = [⟨"a", 1, 1, 1⟩, ⟨"b", 1, 2, 1 / 2⟩] ∧
      compare_leaderboard_items ⟨"a", 1, 1, 1⟩ ⟨"b", 1, 2, 1 / 2⟩ = 1 ∧
      ¬ leaderboard_sorted
        (record_results Leaderboard.empty
          [("a", true), ("b", true), ("b", false)]).leaderboardItems := by
  have hab : strcmp "a" "b" = -1 := by decide
  have hbb : strcmp "b" "b" = 0 := by decide
  have hba : strcmp "b" "a" = 1 := by decide
  have h1 : (record_results Leaderboard.empty
      [("a", true), ("b", true), ("b", false)]).leaderboardItems
        = [⟨"a", 1, 1, 1⟩, ⟨"b", 1, 2, 1 / 2⟩] := by
    norm_num [record_results, update_leaderboard, find_leaderboard_item, add_leaderboard_item,
      new_leaderboard_item, update_leaderboard_item, updated_item,
      insert_leaderboard_item_at_correct_pos, get_percentage_won, compare_leaderboard_items,
      Leaderboard.empty, hab, hbb, hba]
  have h2 : compare_leaderboard_items ⟨"a", 1, 1, 1⟩ ⟨"b", 1, 2, 1 / 2⟩ = 1 := by
    norm_num [compare_leaderboard_items]
  refine ⟨h1, h2, ?_⟩
  rw [h1]
  intro hs
  have h3 : compare_leaderboard_items ⟨"a", 1, 1, 1⟩ ⟨"b", 1, 2, 1 / 2⟩ < 0 := by
    have := List.chain'_cons.mp hs
    exact this.1
  rw [h2] at h3
  exact absurd h3 (by decide)

/-- C2: `compare_leaderboard_items` is the three-level lexicographic order.  For
entries with `totalGames ≥ 1` whose stored rate is the exact ratio
`gamesWon / totalGames`, the result is negative iff `a` has fewer wins, or equal
wins and a lower rate, or equal wins and rate and the earlier username
(`rank_before a b`); it is zero iff the three keys are equal; it is positive in
every other case, which is exactly when `b` ranks before `a`.  In particular a
tie on wins and rate is decided by the usernames alone. -/
theorem compare_leaderboard_items_three_level (a b : leaderboard_item_t)
    (ha : 1 ≤ a.totalGames) (hb : 1 ≤ b.totalGames)
    (hpa : a.percentageWon = get_percentage_won a)
    (hpb : b.percentageWon = get_percentage_won b) :
    (compare_leaderboard_items a b < 0 ↔ rank_before a b) ∧
    (compare_leaderboard_items a b = 0 ↔
      a.gamesWon = b.gamesWon ∧ win_rate a = win_rate b ∧ a.username = b.username) ∧
    (0 < compare_leaderboard_items a b ↔
      ¬ rank_before a b ∧
      ¬ (a.gamesWon = b.gamesWon ∧ win_rate a = win_rate b ∧ a.username = b.username)) ∧
    (0 < compare_leaderboard_items a b ↔ rank_before b a) ∧
    (a.gamesWon = b.gamesWon → win_rate a = win_rate b →
      (compare_leaderboard_items a b < 0 ↔ a.username < b.username)) := by
  have hwa : a.percentageWon = win_rate a := hpa
  have hwb : b.percentageWon = win_rate b := hpb
  have hneg : compare_leaderboard_items a b < 0 ↔ rank_before a b := by
    rw [compare_neg_iff, hwa, hwb]; rfl
  have hzero : compare_leaderboard_items a b = 0 ↔
      a.gamesWon = b.gamesWon ∧ win_rate a = win_rate b ∧ a.username = b.username := by
    rw [compare_eq_zero_iff, hwa, hwb]
  have hpos : 0 < compare_leaderboard_items a b ↔ rank_before b a := by
    rw [compare_antisymm_sign, compare_neg_iff, hwa, hwb]; rfl
  refine ⟨hneg, hzero, ?_, hpos, ?_⟩
  · rw [← hneg, ← hzero]
    omega
  · intro h1 h2
    rw [hneg]
    unfold rank_before
    constructor
    · rintro (h | ⟨_, h⟩ | ⟨_, _, h⟩)
      · omega
      · exact absurd h (by rw [h2]; exact lt_irrefl _)
      · exact h
    · intro h
      exact Or.inr (Or.inr ⟨h1, h2, h⟩)

/-- C2 at a concrete pair: "alice" and "bob" tie at one win in two games, and
the comparator puts "alice" first. -/
theorem compare_leaderboard_items_three_level_witness :
    compare_leaderboard_items ⟨"alice", 1, 2, 1 / 2⟩ ⟨"bob", 1, 2, 1 / 2⟩ < 0 ↔
      (("alice" : String) < "bob") :=
  (compare_leaderboard_items_three_level ⟨"alice", 1, 2, 1 / 2⟩ ⟨"bob", 1, 2, 1 / 2⟩
    (by decide) (by decide) (by norm_num [get_percentage_won])
    (by norm_num [get_percentage_won])).2.2.2.2 rfl rfl

/-- C3: for a sorted leaderboard without username `u`, `update_leaderboard`
splits the list in two, puts the one new entry `(u, won ? 1 : 0, 1)` in between
and changes nothing else; every entry in front ranks before the new one, every
entry behind ranks after it, the result is sorted, and the item count grows by
one.  On the empty leaderboard, recording a win of "alice" and then a loss of
"bob" gives the order bob, alice. -/
theorem update_leaderboard_new_user (lb : Leaderboard) (u : String) (won : Bool)
    (hs : leaderboard_sorted lb.leaderboardItems)
    (hu : ∀ x ∈ lb.leaderboardItems, x.username ≠ u) :
    (∃ pre post newItem,
      lb.leaderboardItems = pre ++ post ∧
      (update_leaderboard lb u won).leaderboardItems = pre ++ newItem :: post ∧
      newItem.username = u ∧ newItem.gamesWon = (if won then 1 else 0) ∧
      newItem.totalGames = 1 ∧ newItem.percentageWon = get_percentage_won newItem ∧
      (∀ x ∈ pre, compare_leaderboard_items x newItem < 0) ∧
      (∀ y ∈ post, compare_leaderboard_items newItem y < 0)) ∧
    leaderboard_sorted (update_leaderboard lb u won).leaderboardItems ∧
    (update_leaderboard lb u won).numLeaderboardItems = lb.numLeaderboardItems + 1 ∧
    (record_results Leaderboard.empty [("alice", true), ("bob", false)]).leaderboardItems
      = [⟨"bob", 0, 1, 0⟩, ⟨"alice", 1, 1, 1⟩] := by
  have hadd : update_leaderboard lb u won = add_leaderboard_item lb u won := by
    rcases update_leaderboard_shape lb u won with ⟨_, h⟩ | ⟨pre, item, l1, l2, h1, h2, _⟩
    · exact h
    · exact absurd h2 (hu item (by rw [h1]; simp))
  obtain ⟨l1, l2, e1, e2, e3, e4, e5⟩ := add_leaderboard_item_shape lb u won
  have hhead : ∀ b ∈ l2.head?, compare_leaderboard_items (new_leaderboard_item u won) b < 0 := by
    intro b hb
    have hbl : b ∈ lb.leaderboardItems := by
      rw [e1]; exact List.mem_append_right _ (List.mem_of_mem_head? hb)
    exact compare_neg_of_not_neg (hu b hbl) (e5 b hb)
  have hins := sorted_insert (e1 ▸ hs) e4 hhead
  refine ⟨⟨l1, l2, new_leaderboard_item u won, e1, by rw [hadd, e2], rfl, rfl, rfl, rfl, e4,
    hins.2⟩, by rw [hadd, e2]; exact hins.1, by rw [hadd, e3], ?_⟩
  have hab : strcmp "alice" "bob" = -1 := by decide
  norm_num [record_results, update_leaderboard, find_leaderboard_item, add_leaderboard_item,
    new_leaderboard_item, insert_leaderboard_item_at_correct_pos, get_percentage_won,
    compare_leaderboard_items, Leaderboard.empty, hab]

/-- C3 at a concrete leaderboard: "bob" loses his first game while "alice" is
on the board with one win. -/
theorem update_leaderboard_new_user_witness :
    leaderboard_sorted (update_leaderboard ⟨[⟨"alice", 1, 1, 1⟩], 1⟩ "bob" false).leaderboardItems ∧
    (update_leaderboard ⟨[⟨"alice", 1, 1, 1⟩], 1⟩ "bob" false).numLeaderboardItems = 1 + 1 :=
  ⟨(update_leaderboard_new_user ⟨[⟨"alice", 1, 1, 1⟩], 1⟩ "bob" false
      (List.chain'_singleton _) (by decide)).2.1,
   (update_leaderboard_new_user ⟨[⟨"alice", 1, 1, 1⟩], 1⟩ "bob" false
      (List.chain'_singleton _) (by decide)).2.2.1⟩

/-- C4: when the leaderboard holds username `u`, `update_leaderboard` takes the
first entry `item` with that username, adds one win if `won` and none
otherwise, adds exactly one game, and stores the new ratio as its rate.  The
entry stays where it is or moves towards the tail past the entries `l1`; every
other entry is kept as it is and in the same relative order, so the new list is
a permutation of the old one with `item` replaced: nothing is added, lost or
duplicated, and the item count is unchanged. -/
theorem update_leaderboard_existing_user (lb : Leaderboard) (u : String) (won : Bool)
    (hu : ∃ x ∈ lb.leaderboardItems, x.username = u) :
    ∃ pre item l1 l2 item',
      lb.leaderboardItems = pre ++ item :: (l1 ++ l2) ∧
      item.username = u ∧ (∀ x ∈ pre, x.username ≠ u) ∧
      (update_leaderboard lb u won).leaderboardItems = pre ++ l1 ++ item' :: l2 ∧
      item'.username = u ∧
      item'.gamesWon = item.gamesWon + (if won then 1 else 0) ∧
      item'.totalGames = item.totalGames + 1 ∧
      item'.percentageWon = (item'.gamesWon : ℚ) / (item'.totalGames : ℚ) ∧
      List.Perm (update_leaderboard lb u won).leaderboardItems
        (pre ++ item' :: (l1 ++ l2)) ∧
      (update_leaderboard lb u won).leaderboardItems.length = lb.leaderboardItems.length ∧
      (update_leaderboard lb u won).numLeaderboardItems = lb.numLeaderboardItems := by
  rcases update_leaderboard_shape lb u won with ⟨hno, _⟩ | ⟨pre, item, l1, l2, h1, h2, h3, h4, h5⟩
  · obtain ⟨x, hx, hxu⟩ := hu
    exact absurd hxu (hno x hx)
  · refine ⟨pre, item, l1, l2, updated_item item won, h1, h2, h3, h4, h2, ?_, rfl, rfl, ?_, ?_,
      h5⟩
    · cases won <;> simp [updated_item]
    · rw [h4, List.append_assoc]
      exact List.Perm.append_left _ List.perm_middle
    · rw [h4, h1]
      simp only [List.length_append, List.length_cons]
      omega

/-- C4 at a concrete leaderboard: "bob" (0 of 1) wins while "alice" (1 of 1)
is behind him; his entry becomes 1 of 2, which still ranks before "alice". -/
theorem update_leaderboard_existing_user_witness :
    ∃ pre item l1 l2 item',
      ([⟨"bob", 0, 1, 0⟩, ⟨"alice", 1, 1, 1⟩] : List leaderboard_item_t)
        = pre ++ item :: (l1 ++ l2) ∧
      item.username = "bob" ∧ (∀ x ∈ pre, x.username ≠ "bob") ∧
      (update_leaderboard ⟨[⟨"bob", 0, 1, 0⟩, ⟨"alice", 1, 1, 1⟩], 2⟩ "bob" true).leaderboardItems
        = pre ++ l1 ++ item' :: l2 ∧
      item'.username = "bob" ∧
      item'.gamesWon = item.gamesWon + (if true then 1 else 0) ∧
      item'.totalGames = item.totalGames + 1 ∧
      item'.percentageWon = (item'.gamesWon : ℚ) / (item'.totalGames : ℚ) ∧
      List.Perm
        (update_leaderboard ⟨[⟨"bob", 0, 1, 0⟩, ⟨"alice", 1, 1, 1⟩], 2⟩ "bob" true).leaderboardItems
        (pre ++ item' :: (l1 ++ l2)) ∧
      (update_leaderboard ⟨[⟨"bob", 0, 1, 0⟩, ⟨"alice", 1, 1, 1⟩], 2⟩ "bob"
        true).leaderboardItems.length
        = ([⟨"bob", 0, 1, 0⟩, ⟨"alice", 1, 1, 1⟩] : List leaderboard_item_t).length ∧
      (update_leaderboard ⟨[⟨"bob", 0, 1, 0⟩, ⟨"alice", 1, 1, 1⟩], 2⟩ "bob"
        true).numLeaderboardItems = 2 :=
  update_leaderboard_existing_user ⟨[⟨"bob", 0, 1, 0⟩, ⟨"alice", 1, 1, 1⟩], 2⟩ "bob" true
    ⟨⟨"bob", 0, 1, 0⟩, List.mem_cons_self _ _, rfl⟩

/-- C5: from the empty leaderboard, after any `n` calls of `update_leaderboard`
the `totalGames` of all entries add up to `n`. -/
theorem record_results_total_games (calls : List (String × Bool)) :
    ((record_results Leaderboard.empty calls).leaderboardItems.map (·.totalGames)).sum
      = (calls.length : Int) := by
  induction calls using List.reverseRecOn with
  | nil => rfl
  | append_singleton calls call ih =>
    rw [record_results_snoc, update_leaderboard_sum, ih, List.length_append]
    simp

/-- C6: from the empty leaderboard, after any sequence of `update_leaderboard`
calls no two entries of the leaderboard have the same username. -/
theorem record_results_usernames_nodup (calls : List (String × Bool)) :
    ((record_results Leaderboard.empty calls).leaderboardItems.map (·.username)).Nodup := by
  induction calls using List.reverseRecOn with
  | nil => exact List.nodup_nil
  | append_singleton calls call ih =>
    rw [record_results_snoc]
    exact update_leaderboard_nodup _ _ _ ih

/-! ## Request queue: preservation of the invariant -/

theorem queue_chain_update_fresh (heap : Nat → Option request_t) (p : Option Nat)
    (l : List (Nat × RequestData)) (n : Nat) (v : Option request_t)
    (h : queue_chain heap p l) (hn : ∀ a ∈ l.map Prod.fst, a ≠ n) :
    queue_chain (Function.update heap n v) p l := by
  induction l generalizing p with
  | nil => exact h
  | cons x l ih =>
    obtain ⟨a, d⟩ := x
    obtain ⟨hp, node, h1, h2, h3⟩ := h
    have han : a ≠ n := hn a (by simp)
    refine ⟨hp, node, ?_, h2, ih _ h3 (fun b hb => hn b (by simp at hb ⊢; exact Or.inr hb))⟩
    rw [Function.update_noteq han]
    exact h1

theorem queue_chain_snoc (heap : Nat → Option request_t) (p : Option Nat)
    (l : List (Nat × RequestData)) (a : Nat) (d : RequestData) (node : request_t)
    (n : Nat) (d' : RequestData)
    (h : queue_chain heap p (l ++ [(a, d)])) (ha : heap a = some node)
    (hnd : ((l ++ [(a, d)]).map Prod.fst).Nodup)
    (hn : heap n = some ⟨d'.1, d'.2.1, d'.2.2, none⟩)
    (hfresh : ∀ b ∈ (l ++ [(a, d)]).map Prod.fst, b ≠ n) :
    queue_chain (Function.update heap a (some { node with next := some n })) p
      (l ++ [(a, d), (n, d')]) := by
  induction l generalizing p with
  | nil =>
    obtain ⟨hp, node', h1, h2, _⟩ := h
    have hnode : node' = node := by rw [ha] at h1; exact (Option.some.inj h1).symm
    subst hnode
    refine ⟨hp, { node' with next := some n }, by simp, h2, rfl, ?_⟩
    have hna : n ≠ a := fun e => hfresh a (by simp) e.symm
    exact ⟨⟨d'.1, d'.2.1, d'.2.2, none⟩, by rw [Function.update_noteq hna]; exact hn, rfl, rfl⟩
  | cons x l ih =>
    obtain ⟨b, e⟩ := x
    obtain ⟨hp, node', h1, h2, h3⟩ := h
    have hnd' : b ∉ (l ++ [(a, d)]).map Prod.fst ∧ ((l ++ [(a, d)]).map Prod.fst).Nodup := by
      simpa using hnd
    have hba : b ≠ a := by
      intro e'; apply hnd'.1; simp [e']
    refine ⟨hp, node', by rw [Function.update_noteq hba]; exact h1, h2, ?_⟩
    exact ih _ h3 hnd'.2 (fun c hc => hfresh c (by simp at hc ⊢; exact Or.inr hc))

theorem queue_chain_last (heap : Nat → Option request_t) (p : Option Nat)
    (l : List (Nat × RequestData)) (a : Nat) (d : RequestData)
    (h : queue_chain heap p (l ++ [(a, d)])) : ∃ node, heap a = some node := by
  induction l generalizing p with
  | nil =>
    obtain ⟨_, node, h1, _, _⟩ := h
    exact ⟨node, h1⟩
  | cons x l ih =>
    obtain ⟨b, e⟩ := x
    obtain ⟨_, node, _, _, h3⟩ := h
    exact ih _ h3

theorem add_request_inv (q : RequestQueue) (l : List (Nat × RequestData))
    (hinv : queue_inv q l) (fd : Int) (info size : Nat) :
    ∃ q', add_request q fd info size = some q' ∧
      queue_inv q' (l ++ [(q.nextFree, (fd, info, size))]) := by
  rcases List.eq_nil_or_concat l with rfl | ⟨l0, x, hl⟩
  · have hnum : q.numRequests = 0 := by simpa using hinv.num
    refine ⟨{ heap := Function.update q.heap q.nextFree (some ⟨fd, info, size, none⟩),
              nextFree := q.nextFree + 1, requests := some q.nextFree,
              lastRequest := some q.nextFree, numRequests := q.numRequests + 1 },
      by simp only [add_request, hnum, if_true], ?_⟩
    refine ⟨?_, by simp, by simp [hnum], by simp, by simp⟩
    exact ⟨rfl, _, Function.update_same _ _ _, rfl, rfl⟩
  · rw [List.concat_eq_append] at hl
    subst hl
    obtain ⟨a, d⟩ := x
    have hnum : q.numRequests ≠ 0 := by
      have := hinv.num
      simp only [List.length_append, List.length_singleton] at this
      omega
    have hlast : q.lastRequest = some a := by
      have := hinv.last
      simpa using this
    obtain ⟨node, hnode⟩ := queue_chain_last _ _ _ _ _ hinv.chain
    have hfresh : ∀ b ∈ (l0 ++ [(a, d)]).map Prod.fst, b ≠ q.nextFree :=
      fun b hb => Nat.ne_of_lt (hinv.bound b hb)
    have ha : a ≠ q.nextFree := hfresh a (by simp)
    have h1 : Function.update q.heap q.nextFree
        (some ⟨fd, info, size, none⟩) a = some node := by
      rw [Function.update_noteq ha]; exact hnode
    refine ⟨{ heap := Function.update
                (Function.update q.heap q.nextFree (some ⟨fd, info, size, none⟩)) a
                (some { node with next := some q.nextFree }),
              nextFree := q.nextFree + 1, requests := q.requests,
              lastRequest := some q.nextFree, numRequests := q.numRequests + 1 },
      by simp only [add_request, hnum, if_false, hlast, h1], ?_⟩
    refine ⟨?_, by simp, ?_, ?_, ?_⟩
    · have hc := queue_chain_snoc
        (Function.update q.heap q.nextFree (some ⟨fd, info, size, none⟩)) q.requests l0 a d node
        q.nextFree (fd, info, size)
        (queue_chain_update_fresh _ _ _ _ _ hinv.chain hfresh) h1 hinv.nodup
        (Function.update_same _ _ _) hfresh
      simpa using hc
    · have := hinv.num
      simp only [List.length_append, List.length_singleton, List.length_cons,
        List.length_nil] at this ⊢
      push_cast at this ⊢
      show q.numRequests + 1 = _
      omega
    · have hnd := hinv.nodup
      rw [List.map_append, List.nodup_append]
      refine ⟨hnd, by simp, ?_⟩
      intro b hb hb'
      simp only [List.map_cons, List.map_nil, List.mem_singleton] at hb'
      exact hfresh b hb hb'
    · intro b hb
      rw [List.map_append, List.mem_append] at hb
      rcases hb with hb | hb
      · have := hinv.bound b hb
        show b < q.nextFree + 1
        omega
      · simp only [List.map_cons, List.map_nil, List.mem_singleton] at hb
        show b < q.nextFree + 1
        omega

theorem get_request_inv (q : RequestQueue) (l : List (Nat × RequestData))
    (hinv : queue_inv q l) :
    (l = [] ∧ get_request q = some (q, none)) ∨
    (∃ a d rest q' node, l = (a, d) :: rest ∧ get_request q = some (q', some a) ∧
      queue_inv q' rest ∧ q'.heap a = some node ∧
      (node.fileDescriptor, node.addressInfo, node.addressSize) = d) := by
  cases l with
  | nil =>
    left
    have hnum : ¬ q.numRequests > 0 := by
      have := hinv.num
      simp only [List.length_nil] at this
      push_cast at this
      omega
    exact ⟨rfl, by simp only [get_request, hnum, if_false]⟩
  | cons x rest =>
    right
    obtain ⟨a, d⟩ := x
    have hnum : q.numRequests > 0 := by
      have := hinv.num
      simp only [List.length_cons] at this
      push_cast at this
      omega
    obtain ⟨hp, node, h1, h2, h3⟩ := hinv.chain
    refine ⟨a, d, rest,
      { q with requests := node.next,
               lastRequest := if node.next = none then none else q.lastRequest,
               numRequests := q.numRequests - 1 },
      node, rfl, by simp only [get_request, hnum, if_true, hp, h1], ?_, h1, h2⟩
    have hnd : a ∉ rest.map Prod.fst ∧ (rest.map Prod.fst).Nodup := by
      simpa using hinv.nodup
    refine ⟨h3, ?_, ?_, hnd.2, ?_⟩
    · cases rest with
      | nil =>
        have hn : node.next = none := h3
        show (if node.next = none then none else q.lastRequest) = _
        simp [hn]
      | cons y rest =>
        obtain ⟨b, e⟩ := y
        have hn : node.next = some b := h3.1
        have := hinv.last
        show (if node.next = none then none else q.lastRequest) = _
        simp only [hn, this]
        simp [List.getLast?_cons_cons]
    · have := hinv.num
      simp only [List.length_cons] at this
      push_cast at this
      show q.numRequests - 1 = _
      omega
    · intro b hb
      exact hinv.bound b (by simp only [List.map_cons, List.mem_cons]; exact Or.inr hb)

/-- Running any sequence of operations from a state that satisfies the
invariant never faults, and the requests handed out followed by the requests
still pending are the requests pending at the start followed by the enqueued
ones. -/
theorem run_queue_inv (ops : List QueueOp) (q : RequestQueue)
    (l : List (Nat × RequestData)) (hinv : queue_inv q l) :
    ∃ q' out l', run_queue q ops = some (q', out) ∧ queue_inv q' l' ∧
      out ++ l'.map Prod.snd = l.map Prod.snd ++ enqueued ops := by
  induction ops generalizing q l with
  | nil => exact ⟨q, [], l, rfl, hinv, by simp [enqueued]⟩
  | cons op ops ih =>
    cases op with
    | enqueue fd info size =>
      obtain ⟨q1, h1, hinv1⟩ := add_request_inv q l hinv fd info size
      obtain ⟨q', out, l', h2, hinv2, h3⟩ := ih q1 _ hinv1
      refine ⟨q', out, l', by simp only [run_queue, h1, h2], hinv2, ?_⟩
      rw [h3]
      simp [enqueued]
    | dequeue =>
      rcases get_request_inv q l hinv with ⟨rfl, h1⟩ | ⟨a, d, rest, q1, node, rfl, h1, hinv1, hn, hd⟩
      · obtain ⟨q', out, l', h2, hinv2, h3⟩ := ih q [] hinv
        exact ⟨q', out, l', by simp only [run_queue, h1, h2], hinv2, by rw [h3]; simp [enqueued]⟩
      · obtain ⟨q', out, l', h2, hinv2, h3⟩ := ih q1 rest hinv1
        refine ⟨q', d :: out, l', by simp only [run_queue, h1, hn, h2, hd], hinv2, ?_⟩
        simp only [List.cons_append, h3, List.map_cons, enqueued]

theorem queue_inv_empty : queue_inv RequestQueue.empty [] :=
  ⟨rfl, rfl, rfl, List.nodup_nil, by simp⟩

/-- The code's queue refines the list queue: from a state whose chain holds
the pending requests `l`, a run of operations does not fault, hands out what
`fifo_model` hands out and leaves pending what `fifo_model` leaves pending. -/
theorem run_queue_refines (ops : List QueueOp) (q : RequestQueue)
    (l : List (Nat × RequestData)) (hinv : queue_inv q l) :
    ∃ q' l', run_queue q ops = some (q', (fifo_model (l.map Prod.snd) ops).2) ∧
      queue_inv q' l' ∧ l'.map Prod.snd = (fifo_model (l.map Prod.snd) ops).1 := by
  induction ops generalizing q l with
  | nil => exact ⟨q, l, by simp [run_queue, fifo_model], hinv, by simp [fifo_model]⟩
  | cons op ops ih =>
    cases op with
    | enqueue fd info size =>
      obtain ⟨q1, h1, hinv1⟩ := add_request_inv q l hinv fd info size
      obtain ⟨q', l', h2, hinv2, h3⟩ := ih q1 _ hinv1
      rw [List.map_append, List.map_cons, List.map_nil] at h2 h3
      exact ⟨q', l', by simp only [run_queue, h1, fifo_model]; exact h2, hinv2,
        by simp only [fifo_model]; exact h3⟩
    | dequeue =>
      rcases get_request_inv q l hinv with ⟨rfl, h1⟩ | ⟨a, d, rest, q1, node, rfl, h1, hinv1, hn, hd⟩
      · obtain ⟨q', l', h2, hinv2, h3⟩ := ih q [] hinv
        rw [List.map_nil] at h2 h3
        exact ⟨q', l', by simp only [run_queue, h1, List.map_nil, fifo_model]; exact h2, hinv2,
          by simp only [List.map_nil, fifo_model]; exact h3⟩
      · obtain ⟨q', l', h2, hinv2, h3⟩ := ih q1 rest hinv1
        refine ⟨q', l', ?_, hinv2, by simp only [List.map_cons, fifo_model]; exact h3⟩
        simp only [run_queue, h1, hn, h2, hd, List.map_cons, fifo_model]

theorem fifo_model_append (ops : List QueueOp) (pending : List RequestData) :
    (fifo_model pending ops).2 ++ (fifo_model pending ops).1 = pending ++ enqueued ops := by
  induction ops generalizing pending with
  | nil => simp [fifo_model, enqueued]
  | cons op ops ih =>
    cases op with
    | enqueue fd info size =>
      simp only [fifo_model, enqueued]
      rw [ih]
      simp
    | dequeue =>
      cases pending with
      | nil => simp only [fifo_model, enqueued]; exact ih []
      | cons d pending =>
        simp only [fifo_model, enqueued, List.cons_append]
        rw [ih]

theorem fifo_model_snoc (ops : List QueueOp) (pending : List RequestData) :
    fifo_model pending (ops ++ [QueueOp.dequeue])
      = ((fifo_model pending ops).1.tail,
         (fifo_model pending ops).2 ++ (fifo_model pending ops).1.head?.toList) ∧
    ∀ fd info size, fifo_model pending (ops ++ [QueueOp.enqueue fd info size])
      = ((fifo_model pending ops).1 ++ [(fd, info, size)], (fifo_model pending ops).2) := by
  induction ops generalizing pending with
  | nil =>
    constructor
    · cases pending with
      | nil => simp [fifo_model]
      | cons d pending => simp [fifo_model]
    · intro fd info size
      simp [fifo_model]
  | cons op ops ih =>
    cases op with
    | enqueue fd info size =>
      simp only [List.cons_append, fifo_model]
      exact ih _
    | dequeue =>
      cases pending with
      | nil =>
        simp only [List.cons_append, fifo_model]
        exact ih _
      | cons d pending =>
        obtain ⟨h1, h2⟩ := ih pending
        constructor
        · rw [List.cons_append, fifo_model, h1]
          simp [fifo_model]
        · intro fd info size
          rw [List.cons_append, fifo_model, h2]
          simp [fifo_model]

/-- C7: the request queue is FIFO.  Any sequence of `add_request` and
`get_request` calls, applied one at a time to the empty queue, runs without a
fault.  The requests handed out and the requests left pending are those of the
list queue `fifo_model`: a `get_request` hands out the oldest pending request
whenever one is pending.  With `N` enqueues and `M` requests handed out, `M ≤ N`,
the requests handed out are exactly the first `M` enqueued requests in enqueue
order (so each exactly once), the `N - M` later ones are the chain from
`requests`, and `numRequests = N - M`.  One more `get_request` hands out the
request number `M` in enqueue order, and nothing only when `M = N`; one more
`add_request` hands out nothing. -/
theorem request_queue_fifo (ops : List QueueOp) :
    ∃ q out, run_queue RequestQueue.empty ops = some (q, out) ∧
      out = (fifo_model [] ops).2 ∧
      out.length ≤ (enqueued ops).length ∧
      out = (enqueued ops).take out.length ∧
      q.numRequests = ((enqueued ops).length : Int) - (out.length : Int) ∧
      (∃ pending, queue_chain q.heap q.requests pending ∧
        pending.map Prod.snd = (enqueued ops).drop out.length ∧
        pending.map Prod.snd = (fifo_model [] ops).1) ∧
      (∃ q', run_queue RequestQueue.empty (ops ++ [QueueOp.dequeue])
        = some (q', out ++ ((enqueued ops).drop out.length).head?.toList)) ∧
      (∀ fd info size, ∃ q',
        run_queue RequestQueue.empty (ops ++ [QueueOp.enqueue fd info size])
          = some (q', out)) := by
  obtain ⟨q, l, h1, hinv, h2⟩ := run_queue_refines ops RequestQueue.empty [] queue_inv_empty
  have happ := fifo_model_append ops []
  simp only [List.map_nil, List.nil_append] at h1 h2 happ
  have hlen : (fifo_model [] ops).2.length + l.length = (enqueued ops).length := by
    rw [← happ, ← h2]; simp
  have hdrop : (fifo_model [] ops).1 = (enqueued ops).drop (fifo_model [] ops).2.length := by
    rw [← happ]; simp
  refine ⟨q, (fifo_model [] ops).2, h1, rfl, by omega, ?_, ?_, ⟨l, hinv.chain, ?_, h2⟩, ?_, ?_⟩
  · rw [← happ]; simp
  · rw [hinv.num, ← hlen]; push_cast; ring
  · rw [h2, hdrop]
  · obtain ⟨q', l', g1, _, _⟩ :=
      run_queue_refines (ops ++ [QueueOp.dequeue]) RequestQueue.empty [] queue_inv_empty
    simp only [List.map_nil] at g1
    rw [(fifo_model_snoc ops []).1] at g1
    exact ⟨q', by rw [g1, ← hdrop]⟩
  · intro fd info size
    obtain ⟨q', l', g1, _, _⟩ :=
      run_queue_refines (ops ++ [QueueOp.enqueue fd info size]) RequestQueue.empty []
        queue_inv_empty
    simp only [List.map_nil] at g1
    rw [(fifo_model_snoc ops []).2 fd info size] at g1
    exact ⟨q', g1⟩

/-! ## Game engine: initial state and one guess -/

theorem fill_loop_spec (l : List Char) (k : Nat) :
    ((List.range k).foldl (fun cw i => cw.set i '_') l).length = l.length ∧
    ∀ j, ((List.range k).foldl (fun cw i => cw.set i '_') l)[j]?
      = if j < k ∧ j < l.length then some '_' else l[j]? := by
  induction k with
  | zero => simp
  | succ k ih =>
    obtain ⟨ih1, ih2⟩ := ih
    rw [List.range_succ, List.foldl_append]
    simp only [List.foldl_cons, List.foldl_nil, List.length_set]
    refine ⟨ih1, fun j => ?_⟩
    rw [List.getElem?_set, ih1, ih2]
    by_cases hkj : k = j
    · subst hkj
      by_cases hk : k < l.length
      · simp [hk]
      · have : l[k]? = none := List.getElem?_eq_none (by omega)
        simp [hk, this]
    · simp only [hkj, if_false]
      by_cases h1 : j < k
      · have h2 : j < k + 1 := by omega
        simp [h1, h2]
      · have h2 : ¬ j < k + 1 := by omega
        simp [h1, h2]

theorem reveal_loop_spec (hw : List Char) (guess : Char) (cw : List Char) (k : Nat) :
    ((List.range k).foldl (reveal_step hw guess) (cw, true)).1.length = cw.length ∧
    ∀ j, ((List.range k).foldl (reveal_step hw guess) (cw, true)).1[j]?
      = if j < k ∧ j < cw.length ∧ hw.getD j '\x00' = guess then some guess else cw[j]? := by
  induction k with
  | zero => simp
  | succ k ih =>
    obtain ⟨ih1, ih2⟩ := ih
    rw [List.range_succ, List.foldl_append]
    simp only [List.foldl_cons, List.foldl_nil]
    generalize (List.range k).foldl (reveal_step hw guess) (cw, true) = acc at ih1 ih2
    unfold reveal_step
    by_cases hg : hw.getD k '\x00' = guess
    · simp only [hg, if_true, List.length_set]
      refine ⟨ih1, fun j => ?_⟩
      rw [List.getElem?_set, ih1, ih2]
      by_cases hkj : k = j
      · subst hkj
        have hkk : ¬ k < k := lt_irrefl k
        by_cases hk : k < cw.length
        · rw [if_pos rfl, if_pos hk, if_pos ⟨Nat.lt_succ_self k, hk, hg⟩]
        · have : cw[k]? = none := List.getElem?_eq_none (by omega)
          rw [if_pos rfl, if_neg hk, if_neg (fun h => hk h.2.1), this]
      · rw [if_neg hkj]
        by_cases h1 : j < k ∧ j < cw.length ∧ hw.getD j '\x00' = guess
        · rw [if_pos h1, if_pos ⟨by omega, h1.2⟩]
        · rw [if_neg h1, if_neg]
          rintro ⟨h2, h3⟩
          exact h1 ⟨by omega, h3⟩
    · have hsame : (if acc.1.getD k '\x00' = '_' then (acc.1, false) else acc).1 = acc.1 := by
        split_ifs <;> rfl
      simp only [hg, if_false]
      rw [hsame]
      refine ⟨ih1, fun j => ?_⟩
      rw [ih2]
      by_cases h1 : j < k ∧ j < cw.length ∧ hw.getD j '\x00' = guess
      · rw [if_pos h1, if_pos ⟨by omega, h1.2⟩]
      · rw [if_neg h1, if_neg]
        rintro ⟨h2, h3, h4⟩
        have hjk : j ≠ k := fun e => hg (e ▸ h4)
        exact h1 ⟨by omega, h3, h4⟩

/-- C8: for the corpus entry `(category, item)` the game starts with the phrase
`category ++ " " ++ item`, a mask of the same length that holds `' '` at index
`length category` and `'_'` at every other index, and
`numGuesses = min 26 (length phrase + 9)`.  For `("animal", "dog")` the phrase is
"animal dog" of length 10, the mask is "______ ___" and there are 19 attempts. -/
theorem hangman_init_state (category item : String) :
    String.mk (hangman_init (corpus_entry category item)).hangmanWord
      = category ++ " " ++ item ∧
    (hangman_init (corpus_entry category item)).hangmanWordLength
      = (hangman_init (corpus_entry category item)).hangmanWord.length ∧
    (hangman_init (corpus_entry category item)).clientWord.length
      = (hangman_init (corpus_entry category item)).hangmanWord.length ∧
    (∀ j, j < (hangman_init (corpus_entry category item)).hangmanWord.length →
      (hangman_init (corpus_entry category item)).clientWord[j]?
        = some (if j = category.length then ' ' else '_')) ∧
    (hangman_init (corpus_entry category item)).numGuesses
      = min 26 (((hangman_init (corpus_entry category item)).hangmanWord.length : Int) + 9) ∧
    (hangman_init animal_dog).hangmanWord = "animal dog".data ∧
    (hangman_init animal_dog).hangmanWord.length = 10 ∧
    (hangman_init animal_dog).clientWord = "______ ___".data ∧
    (hangman_init animal_dog).numGuesses = 19 := by
  obtain ⟨c⟩ := category
  obtain ⟨it⟩ := item
  have hlen : (c ++ [' '] ++ it).length = c.length + 1 + it.length := by
    simp only [List.length_append, List.length_singleton]
  obtain ⟨f1, f2⟩ := fill_loop_spec (List.replicate (c.length + 1 + it.length) '\x00')
    (c.length + 1 + it.length)
  rw [List.length_replicate] at f1 f2
  refine ⟨?_, ?_, ?_, ?_, ?_, by decide, by decide, by decide, by decide⟩
  · apply String.ext
    simp [hangman_init, corpus_entry, String.data_append]
  · simp only [hangman_init, corpus_entry, hlen]
  · simp only [hangman_init, corpus_entry, hlen, List.length_set, f1]
  · intro j hj
    simp only [hangman_init, corpus_entry, hlen] at hj ⊢
    rw [List.getElem?_set, f1, f2]
    show _ = some (if j = c.length then ' ' else '_')
    by_cases h1 : c.length = j
    · subst h1
      rw [if_pos rfl, if_pos hj, if_pos rfl]
    · rw [if_neg h1, if_pos ⟨hj, hj⟩, if_neg (fun e => h1 e.symm)]
  · simp only [hangman_init, corpus_entry, hlen, MAX_NUM_GUESSES]
    split_ifs with h
    · rw [min_eq_left]; push_cast; omega
    · rw [min_eq_right]
      · push_cast; ring
      · push_cast; omega

/-- C9: a guess costs one attempt whatever the guessed character is and
whatever was guessed before: `numGuesses` goes down by exactly 1 and the guess
counter `i` up by 1.  The guessed letters are the first `i` characters of the
`guessedLetters` buffer (before the first guess the buffer shows one space in
their place): the guess counter being an index of the buffer, its first `i + 1`
characters afterwards are the `i` earlier guesses followed by this guess, with
no deduplication.  On
"animal dog", guessing the letter `a` of the phrase twice and then the letter
`z`, which is not in it, twice costs four attempts (19 down to 15) and leaves
the guesses `a, a, z, z`. -/
theorem apply_guess_costs_one_attempt (s : GameState) (guess : Char) :
    (apply_guess s guess).numGuesses = s.numGuesses - 1 ∧
    (apply_guess s guess).i = s.i + 1 ∧
    (apply_guess s guess).guessedLetters.length = s.guessedLetters.length ∧
    (s.i < s.guessedLetters.length →
      (apply_guess s guess).guessedLetters.take (s.i + 1)
        = s.guessedLetters.take s.i ++ [guess]) ∧
    (apply_guess (apply_guess (apply_guess (apply_guess
        (hangman_init animal_dog) 'a') 'a') 'z') 'z').numGuesses = 15 ∧
    (apply_guess (apply_guess (apply_guess (apply_guess
        (hangman_init animal_dog) 'a') 'a') 'z') 'z').guessedLetters.take 4
      = ['a', 'a', 'z', 'z'] := by
  refine ⟨rfl, rfl, ?_, ?_, by decide, by decide⟩
  · simp only [apply_guess, List.length_set]
  · intro hi
    simp only [apply_guess]
    apply List.ext_getElem?
    intro j
    rw [List.getElem?_take, List.getElem?_append]
    by_cases hj : j < s.i + 1
    · rw [if_pos hj, List.getElem?_set, if_neg (by omega), List.getElem?_set]
      by_cases hji : s.i = j
      · subst hji
        have h1 : ¬ s.i < (List.take s.i s.guessedLetters).length := by
          rw [List.length_take]; omega
        have h2 : s.i - (List.take s.i s.guessedLetters).length = 0 := by
          rw [List.length_take]; omega
        rw [if_pos rfl, if_pos hi, if_neg h1, h2]
        rfl
      · have h1 : j < (List.take s.i s.guessedLetters).length := by
          rw [List.length_take]; omega
        rw [if_neg hji, if_pos h1, List.getElem?_take, if_pos (by omega)]
    · have h1 : ¬ j < (List.take s.i s.guessedLetters).length := by
        rw [List.length_take]; omega
      rw [if_neg hj, if_neg h1]
      symm
      apply List.getElem?_eq_none
      rw [List.length_take] at h1 ⊢
      simp only [List.length_singleton]
      omega

/-- C9 at the start of the game on "animal dog": the first guess `a` costs one
attempt and is the first guessed letter. -/
theorem apply_guess_costs_one_attempt_witness :
    (apply_guess (hangman_init animal_dog) 'a').numGuesses
      = (hangman_init animal_dog).numGuesses - 1 ∧
    (apply_guess (hangman_init animal_dog) 'a').guessedLetters.take
        ((hangman_init animal_dog).i + 1)
      = (hangman_init animal_dog).guessedLetters.take
          (hangman_init animal_dog).i ++ ['a'] :=
  ⟨(apply_guess_costs_one_attempt (hangman_init animal_dog) 'a').1,
   (apply_guess_costs_one_attempt (hangman_init animal_dog) 'a').2.2.2.1 (by decide)⟩

/-- C10: in a game state whose phrase and mask have the length
`hangmanWordLength`, after a guess `c` the mask holds `c` at every index where
the phrase holds `c` and keeps its earlier character at every other index; the
phrase is unchanged, and the mask keeps its length, which is the length of the
phrase.  On "animal dog" the guess `d` changes the mask from "______ ___" to
"______ d__": index 7, the only `d` of the phrase, is revealed. -/
theorem apply_guess_reveals (s : GameState) (guess : Char)
    (hlen : s.hangmanWord.length = s.hangmanWordLength)
    (hmask : s.clientWord.length = s.hangmanWordLength) :
    (apply_guess s guess).hangmanWord = s.hangmanWord ∧
    (apply_guess s guess).hangmanWordLength = s.hangmanWordLength ∧
    (apply_guess s guess).clientWord.length = s.clientWord.length ∧
    (apply_guess s guess).clientWord.length = (apply_guess s guess).hangmanWord.length ∧
    (∀ j, j < s.hangmanWord.length →
      (s.hangmanWord[j]? = some guess → (apply_guess s guess).clientWord[j]? = some guess) ∧
      (s.hangmanWord[j]? ≠ some guess →
        (apply_guess s guess).clientWord[j]? = s.clientWord[j]?)) ∧
    (apply_guess (hangman_init animal_dog) 'd').clientWord = "______ d__".data := by
  obtain ⟨r1, r2⟩ := reveal_loop_spec s.hangmanWord guess s.clientWord s.hangmanWordLength
  refine ⟨rfl, rfl, r1, ?_, ?_, by decide⟩
  · show ((List.range s.hangmanWordLength).foldl (reveal_step s.hangmanWord guess)
        (s.clientWord, true)).1.length = s.hangmanWord.length
    rw [r1, hmask, hlen]
  · intro j hj
    have hget : s.hangmanWord.getD j '\x00' = guess ↔ s.hangmanWord[j]? = some guess := by
      rw [List.getD_eq_getElem?_getD, List.getElem?_eq_getElem hj]
      simp
    have hres : (apply_guess s guess).clientWord[j]?
        = if j < s.hangmanWordLength ∧ j < s.clientWord.length ∧
            s.hangmanWord.getD j '\x00' = guess then some guess else s.clientWord[j]? := r2 j
    constructor
    · intro h
      rw [hres, if_pos ⟨by omega, by omega, hget.mpr h⟩]
    · intro h
      rw [hres, if_neg (fun h' => h (hget.mp h'.2.2))]

/-- C10 at the start of the game on "animal dog": the guess `d` is revealed at
index 7 and index 0, which holds `a`, keeps its placeholder. -/
theorem apply_guess_reveals_witness :
    (apply_guess (hangman_init animal_dog) 'd').clientWord[7]? = some 'd' ∧
    (apply_guess (hangman_init animal_dog) 'd').clientWord[0]?
      = (hangman_init animal_dog).clientWord[0]? :=
  ⟨((apply_guess_reveals (hangman_init animal_dog) 'd' (by decide) (by decide)).2.2.2.2.1
      7 (by decide)).1 (by decide),
   ((apply_guess_reveals (hangman_init animal_dog) 'd' (by decide) (by decide)).2.2.2.2.1
      0 (by decide)).2 (by decide)⟩

/-! ## Game engine: winning, losing and the game loop -/

theorem reveal_loop_won (hw : List Char) (guess : Char) (cw : List Char) (k : Nat) :
    ((List.range k).foldl (reveal_step hw guess) (cw, true)).2 = true ↔
      ∀ j, j < k → hw.getD j '\x00' = guess ∨ cw.getD j '\x00' ≠ '_' := by
  induction k with
  | zero => simp
  | succ k ih =>
    have hspec := (reveal_loop_spec hw guess cw k).2 k
    rw [if_neg (fun h => lt_irrefl k h.1)] at hspec
    rw [List.range_succ, List.foldl_append]
    simp only [List.foldl_cons, List.foldl_nil]
    generalize (List.range k).foldl (reveal_step hw guess) (cw, true) = acc at ih hspec
    have hget : acc.1.getD k '\x00' = cw.getD k '\x00' := by
      rw [List.getD_eq_getElem?_getD, List.getD_eq_getElem?_getD, hspec]
    unfold reveal_step
    constructor
    · intro h j hj
      by_cases hg : hw.getD k '\x00' = guess
      · rw [if_pos hg] at h
        rcases Nat.lt_succ_iff_lt_or_eq.mp hj with hlt | rfl
        · exact ih.mp h j hlt
        · exact Or.inl hg
      · rw [if_neg hg] at h
        by_cases hu : acc.1.getD k '\x00' = '_'
        · rw [if_pos hu] at h
          exact absurd h (Bool.false_ne_true)
        · rw [if_neg hu] at h
          rcases Nat.lt_succ_iff_lt_or_eq.mp hj with hlt | rfl
          · exact ih.mp h j hlt
          · exact Or.inr (hget ▸ hu)
    · intro h
      have hprev : acc.2 = true := ih.mpr (fun j hj => h j (Nat.lt_succ_of_lt hj))
      by_cases hg : hw.getD k '\x00' = guess
      · rw [if_pos hg]; exact hprev
      · rw [if_neg hg]
        have hu : ¬ acc.1.getD k '\x00' = '_' := by
          rw [hget]
          rcases h k (Nat.lt_succ_self k) with h1 | h1
          · exact absurd h1 hg
          · exact h1
        rw [if_neg hu]; exact hprev

/-- The flag `gameWon` after a guess: every index of the phrase holds the guess
or had a mask character other than the placeholder before the guess. -/
theorem apply_guess_won (s : GameState) (guess : Char) :
    (apply_guess s guess).gameWon = true ↔
      ∀ j, j < s.hangmanWordLength →
        s.hangmanWord.getD j '\x00' = guess ∨ s.clientWord.getD j '\x00' ≠ '_' :=
  reveal_loop_won s.hangmanWord guess s.clientWord s.hangmanWordLength

/-- The mask after a guess, index by index. -/
theorem apply_guess_mask (s : GameState) (guess : Char) (j : Nat) :
    (apply_guess s guess).clientWord[j]? =
      if j < s.hangmanWordLength ∧ j < s.clientWord.length ∧
          s.hangmanWord.getD j '\x00' = guess then some guess else s.clientWord[j]? :=
  (reveal_loop_spec s.hangmanWord guess s.clientWord s.hangmanWordLength).2 j

theorem apply_guess_mask_length (s : GameState) (guess : Char) :
    (apply_guess s guess).clientWord.length = s.clientWord.length :=
  (reveal_loop_spec s.hangmanWord guess s.clientWord s.hangmanWordLength).1

theorem game_status_won_iff (s : GameState) :
    game_status_indicator s = 'W' ↔ s.gameWon = true := by
  unfold game_status_indicator
  by_cases h : s.gameWon = true
  · simp [h]
  · by_cases h0 : s.numGuesses = 0
    · simp only [h, h0, if_true, if_false]
      simp
    · simp only [h, h0, if_false]
      simp

theorem game_status_lost_iff (s : GameState) :
    game_status_indicator s = 'L' ↔ s.numGuesses = 0 ∧ s.gameWon = false := by
  unfold game_status_indicator
  by_cases h : s.gameWon = true
  · simp [h]
  · by_cases h0 : s.numGuesses = 0
    · simp only [h, h0, if_true, if_false]
      simp [h]
    · simp only [h, h0, if_false]
      simp

theorem game_status_ongoing_iff (s : GameState) :
    game_status_indicator s = 'O' ↔ s.gameWon = false ∧ s.numGuesses ≠ 0 := by
  unfold game_status_indicator
  by_cases h : s.gameWon = true
  · simp [h]
  · by_cases h0 : s.numGuesses = 0
    · simp only [h, h0, if_true, if_false]
      simp
    · simp only [h, h0, if_false]
      simp [h, h0]

/-- C11, evaluated on the code: on the phrase "a _" (category "a", item "_")
the guess `a` leaves an ongoing game with the mask "a _"; the next guess `_`
sets `gameWon` although the mask after the reveal, still "a _", holds the
placeholder character at index 2. -/
theorem won_with_placeholder_in_mask :
    game_status_indicator (apply_guess (hangman_init (corpus_entry "a" "_")) 'a') = 'O' ∧
    (apply_guess (apply_guess (hangman_init (corpus_entry "a" "_")) 'a') '_').clientWord
      = ['a', ' ', '_'] ∧
    ¬ ((apply_guess (apply_guess (hangman_init (corpus_entry "a" "_")) 'a') '_').gameWon = true ↔
        '_' ∉ (apply_guess (apply_guess (hangman_init (corpus_entry "a" "_")) 'a')
          '_').clientWord) := by
  decide

/-- C11 as amended: in a game state whose phrase and mask have the length
`hangmanWordLength`, for a guess that is not `'_'`, or on a phrase that does not
contain `'_'`, the game is won after the guess (`gameWon` is set, and the status
the loop computes next is `'W'`) if and only if the mask after the reveal
contains no placeholder character `'_'`. -/
theorem apply_guess_won_iff_no_placeholder (s : GameState) (guess : Char)
    (hlen : s.hangmanWord.length = s.hangmanWordLength)
    (hmask : s.clientWord.length = s.hangmanWordLength)
    (hguess : guess ≠ '_' ∨ '_' ∉ s.hangmanWord) :
    ((apply_guess s guess).gameWon = true ↔ '_' ∉ (apply_guess s guess).clientWord) ∧
    (game_status_indicator (apply_guess s guess) = 'W' ↔
      '_' ∉ (apply_guess s guess).clientWord) := by
  have hmain : (apply_guess s guess).gameWon = true ↔
      '_' ∉ (apply_guess s guess).clientWord := by
    rw [apply_guess_won]
    constructor
    · intro h hmem
      obtain ⟨j, hj, hjv⟩ := List.getElem_of_mem hmem
      have hj' : j < s.clientWord.length := by rw [apply_guess_mask_length] at hj; exact hj
      have hjw : j < s.hangmanWord.length := by omega
      have hm : (apply_guess s guess).clientWord[j]? = some '_' := by
        rw [List.getElem?_eq_getElem hj, hjv]
      rw [apply_guess_mask] at hm
      by_cases hg : s.hangmanWord.getD j '\x00' = guess
      · rw [if_pos ⟨by omega, hj', hg⟩] at hm
        have hgu : guess = '_' := Option.some.inj hm
        rcases hguess with h1 | h1
        · exact h1 hgu
        · apply h1
          rw [List.getD_eq_getElem?_getD, List.getElem?_eq_getElem hjw] at hg
          simp only [Option.getD_some] at hg
          rw [← hgu, ← hg]
          exact List.getElem_mem hjw
      · rw [if_neg (fun h' => hg h'.2.2)] at hm
        rcases h j (by omega) with h1 | h1
        · exact hg h1
        · apply h1
          rw [List.getD_eq_getElem?_getD, hm]
          rfl
    · intro h j hj
      by_cases hg : s.hangmanWord.getD j '\x00' = guess
      · exact Or.inl hg
      · right
        intro hu
        apply h
        have hj' : j < s.clientWord.length := by omega
        have hm : (apply_guess s guess).clientWord[j]? = some '_' := by
          rw [apply_guess_mask, if_neg (fun h' => hg h'.2.2), List.getElem?_eq_getElem hj']
          rw [List.getD_eq_getElem?_getD, List.getElem?_eq_getElem hj'] at hu
          simp only [Option.getD_some] at hu
          rw [hu]
        rw [List.getElem?_eq_some_iff] at hm
        obtain ⟨hj2, hv⟩ := hm
        rw [← hv]
        exact List.getElem_mem hj2
  exact ⟨hmain, by rw [game_status_won_iff]; exact hmain⟩

/-- C11 as amended, at the end of a game on "a b": with the mask "a _" the
guess `b` wins, and no placeholder is left. -/
theorem apply_guess_won_iff_no_placeholder_witness :
    (apply_guess (apply_guess (hangman_init (corpus_entry "a" "b")) 'a') 'b').gameWon = true ↔
      '_' ∉ (apply_guess (apply_guess (hangman_init (corpus_entry "a" "b")) 'a') 'b').clientWord :=
  (apply_guess_won_iff_no_placeholder (apply_guess (hangman_init (corpus_entry "a" "b")) 'a') 'b'
    (by decide) (by decide) (Or.inl (by decide))).1

theorem play_hangman_loop_sent (incoming : List (Option String)) (s : GameState)
    (sent : List String) (m : String)
    (hm : m ∈ (play_hangman_loop incoming s sent).2.2.1) :
    m ∈ sent ∨ ∃ s', m = game_update_message s' (game_status_indicator s') := by
  induction incoming generalizing s sent with
  | nil =>
    unfold play_hangman_loop at hm
    split_ifs at hm <;>
    · rcases List.mem_append.mp hm with h | h
      · exact Or.inl h
      · exact Or.inr ⟨s, List.mem_singleton.mp h⟩
  | cons received rest ih =>
    unfold play_hangman_loop at hm
    split_ifs at hm with hO
    · cases received with
      | none =>
        rcases List.mem_append.mp hm with h | h
        · exact Or.inl h
        · exact Or.inr ⟨s, List.mem_singleton.mp h⟩
      | some receivedMessage =>
        rcases ih _ _ hm with h | h
        · rcases List.mem_append.mp h with h | h
          · exact Or.inl h
          · exact Or.inr ⟨s, List.mem_singleton.mp h⟩
        · exact Or.inr h
    · rcases List.mem_append.mp hm with h | h
      · exact Or.inl h
      · exact Or.inr ⟨s, List.mem_singleton.mp h⟩

set_option maxRecDepth 100000 in
theorem last_attempt_win_run :
    play_hangman_loop
        ((List.replicate 10 "z" ++ ["a", "b"]).map some)
        (hangman_init (corpus_entry "a" "b")) []
      = (true,
         { apply_guess (apply_guess ((List.replicate 10 'z').foldl apply_guess
              (hangman_init (corpus_entry "a" "b"))) 'a') 'b' with gameOver := true },
         [" |12|_ _|O", "z|11|_ _|O", "zz|10|_ _|O", "zzz|9|_ _|O", "zzzz|8|_ _|O",
          "zzzzz|7|_ _|O", "zzzzzz|6|_ _|O", "zzzzzzz|5|_ _|O", "zzzzzzzz|4|_ _|O",
          "zzzzzzzzz|3|_ _|O", "zzzzzzzzzz|2|_ _|O", "zzzzzzzzzza|1|a _|O",
          "zzzzzzzzzzab|0|a b|W"], []) := by
  decide

/-- C12: the status is `'L'` exactly when `numGuesses` is zero and the game is
not won.  A guess that sets `gameWon` is followed by the status `'W'` also when
it used the last attempt, the win being tested first.  Every message that the
game loop sends is the update message of a game state with the status of that
state, so that a message with status `'L'` carries zero remaining attempts.  On
the phrase "a b" (12 attempts) ten guesses `z`, then `a`, then `b` use all
attempts, the last one reveals the last masked position, and the last message
is "zzzzzzzzzzab|0|a b|W". -/
theorem lost_iff_no_attempts_and_not_won (s : GameState) (guess : Char) :
    (game_status_indicator s = 'L' ↔ s.numGuesses = 0 ∧ s.gameWon = false) ∧
    ((apply_guess s guess).gameWon = true →
      game_status_indicator (apply_guess s guess) = 'W') ∧
    (∀ incoming sent m, m ∈ (play_hangman_loop incoming s sent).2.2.1 →
      m ∈ sent ∨ ∃ s', m = game_update_message s' (game_status_indicator s') ∧
        (game_status_indicator s' = 'L' → s'.numGuesses = 0 ∧
          m = String.mk (c_string s'.guessedLetters ++ '|' :: '0' ::
            '|' :: c_string s'.clientWord ++ ['|', 'L']))) ∧
    play_hangman_loop
        ((List.replicate 10 "z" ++ ["a", "b"]).map some)
        (hangman_init (corpus_entry "a" "b")) []
      = (true,
         { apply_guess (apply_guess ((List.replicate 10 'z').foldl apply_guess
              (hangman_init (corpus_entry "a" "b"))) 'a') 'b' with gameOver := true },
         [" |12|_ _|O", "z|11|_ _|O", "zz|10|_ _|O", "zzz|9|_ _|O", "zzzz|8|_ _|O",
          "zzzzz|7|_ _|O", "zzzzzz|6|_ _|O", "zzzzzzz|5|_ _|O", "zzzzzzzz|4|_ _|O",
          "zzzzzzzzz|3|_ _|O", "zzzzzzzzzz|2|_ _|O", "zzzzzzzzzza|1|a _|O",
          "zzzzzzzzzzab|0|a b|W"], []) := by
  refine ⟨game_status_lost_iff s, fun h => (game_status_won_iff _).mpr h, ?_,
    last_attempt_win_run⟩
  intro incoming sent m hm
  rcases play_hangman_loop_sent incoming s sent m hm with h | ⟨s', h⟩
  · exact Or.inl h
  · refine Or.inr ⟨s', h, fun hL => ?_⟩
    have h0 := ((game_status_lost_iff s').mp hL).1
    refine ⟨h0, ?_⟩
    have hzero : sprintf_d 0 = ['0'] := by decide
    rw [h, hL]
    unfold game_update_message
    rw [h0, hzero]
    simp

theorem alphabet_messages_length : alphabet_messages.length = 26 := by decide

theorem hangman_init_numGuesses (entry : hangman_word_t) :
    0 ≤ (hangman_init entry).numGuesses ∧ (hangman_init entry).numGuesses ≤ 26 ∧
    (hangman_init entry).gameWon = false := by
  simp only [hangman_init, MAX_NUM_GUESSES]
  split_ifs with h
  · exact ⟨by decide, by decide, trivial⟩
  · refine ⟨by positivity, ?_, trivial⟩
    push_cast
    simp only [List.length_append, List.length_singleton] at h ⊢
    push_cast
    omega

/-- With `n` attempts left and at least `n` guesses coming in, the loop ends
after at most `n` of them, with the status `'W'` or `'L'`, and leaves the other
receive results where they are. -/
theorem play_hangman_loop_bound (n : Nat) (s : GameState) (hn : s.numGuesses = (n : Int))
    (msgs : List String) (hlen : n ≤ msgs.length) (rest : List (Option String))
    (sent : List String) :
    ∃ k s' sent', k ≤ n ∧
      play_hangman_loop (msgs.map some ++ rest) s sent
        = (true, s', sent', (msgs.map some ++ rest).drop k) ∧
      (game_status_indicator s' = 'W' ∨ game_status_indicator s' = 'L') ∧
      s'.gameOver = true ∧ sent'.length = sent.length + k + 1 := by
  induction n generalizing s msgs sent with
  | zero =>
    have hO : ¬ game_status_indicator s = 'O' := by
      rw [game_status_ongoing_iff]
      intro h; exact h.2 (by simpa using hn)
    have hWL : game_status_indicator s = 'W' ∨ game_status_indicator s = 'L' := by
      rw [game_status_won_iff, game_status_lost_iff]
      cases hw : s.gameWon
      · exact Or.inr ⟨by simpa using hn, rfl⟩
      · exact Or.inl rfl
    refine ⟨0, { s with gameOver := true },
      sent ++ [game_update_message s (game_status_indicator s)], le_refl 0, ?_, hWL, rfl,
      by simp⟩
    cases hin : msgs.map some ++ rest with
    | nil => simp only [play_hangman_loop, hO, if_false, List.drop_zero]
    | cons a l => simp only [play_hangman_loop, hO, if_false, List.drop_zero]
  | succ n ih =>
    by_cases hO : game_status_indicator s = 'O'
    · cases msgs with
      | nil => simp at hlen
      | cons msg msgs =>
        have hn' : (apply_guess s (first_char msg)).numGuesses = (n : Int) := by
          show s.numGuesses - 1 = (n : Int)
          rw [hn]; push_cast; ring
        obtain ⟨k, s', sent', hk, hrun, hWL, hover, hsent⟩ :=
          ih (apply_guess s (first_char msg)) hn' msgs (by simpa using hlen)
            (sent ++ [game_update_message s (game_status_indicator s)])
        refine ⟨k + 1, s', sent', by omega, ?_, hWL, hover, ?_⟩
        · have hstep : play_hangman_loop (some msg :: (msgs.map some ++ rest)) s sent
              = play_hangman_loop (msgs.map some ++ rest) (apply_guess s (first_char msg))
                  (sent ++ [game_update_message s (game_status_indicator s)]) := by
            simp only [play_hangman_loop, hO, if_true]
          rw [List.map_cons, List.cons_append, hstep, List.drop_succ_cons]
          exact hrun
        · rw [hsent]; simp only [List.length_append, List.length_singleton]; omega
    · have hWL : game_status_indicator s = 'W' ∨ game_status_indicator s = 'L' := by
        rw [game_status_won_iff, game_status_lost_iff]
        rw [game_status_ongoing_iff] at hO
        cases hw : s.gameWon
        · right
          refine ⟨?_, rfl⟩
          by_contra h0
          exact hO ⟨hw, h0⟩
        · exact Or.inl rfl
      refine ⟨0, { s with gameOver := true },
        sent ++ [game_update_message s (game_status_indicator s)], Nat.zero_le _, ?_, hWL, rfl,
        by simp⟩
      cases hin : msgs.map some ++ rest with
      | nil => simp only [play_hangman_loop, hO, if_false, List.drop_zero]
      | cons a l => simp only [play_hangman_loop, hO, if_false, List.drop_zero]

/-- In a state with the status `'W'` or `'L'` the loop sends the final update
and is left at once: no receive result is consumed. -/
theorem play_hangman_loop_terminal (s : GameState) (incoming : List (Option String))
    (sent : List String) (hO : game_status_indicator s ≠ 'O') :
    play_hangman_loop incoming s sent
      = (true, { s with gameOver := true },
         sent ++ [game_update_message s (game_status_indicator s)], incoming) := by
  cases incoming with
  | nil => simp only [play_hangman_loop, hO, if_false]
  | cons a l => simp only [play_hangman_loop, hO, if_false]

/-- With `n` attempts left and at least `n` guesses coming in, the loop reads
guesses exactly as long as the status is `'O'`: it stops at the first `k` for
which the state after `k` guesses has the status `'W'` or `'L'`, with that
state, having sent one message per state passed, and leaves the receive results
behind the first `k` where they are. -/
theorem play_hangman_loop_first_terminal (n : Nat) (s : GameState)
    (hn : s.numGuesses = (n : Int)) (msgs : List String) (hlen : n ≤ msgs.length)
    (rest : List (Option String)) (sent : List String) :
    ∃ k, k ≤ n ∧
      (∀ j, j < k →
        game_status_indicator (((msgs.take j).map first_char).foldl apply_guess s) = 'O') ∧
      (game_status_indicator (((msgs.take k).map first_char).foldl apply_guess s) = 'W' ∨
        game_status_indicator (((msgs.take k).map first_char).foldl apply_guess s) = 'L') ∧
      play_hangman_loop (msgs.map some ++ rest) s sent
        = (true,
           { ((msgs.take k).map first_char).foldl apply_guess s with gameOver := true },
           sent ++ (List.range (k + 1)).map (fun j =>
             game_update_message (((msgs.take j).map first_char).foldl apply_guess s)
               (game_status_indicator (((msgs.take j).map first_char).foldl apply_guess s))),
           (msgs.drop k).map some ++ rest) := by
  induction n generalizing s msgs sent with
  | zero =>
    have hO : ¬ game_status_indicator s = 'O' := by
      rw [game_status_ongoing_iff]
      intro h; exact h.2 (by simpa using hn)
    have hWL : game_status_indicator s = 'W' ∨ game_status_indicator s = 'L' := by
      rw [game_status_won_iff, game_status_lost_iff]
      cases hw : s.gameWon
      · exact Or.inr ⟨by simpa using hn, rfl⟩
      · exact Or.inl rfl
    refine ⟨0, le_refl 0, fun j hj => absurd hj (Nat.not_lt_zero j), hWL, ?_⟩
    rw [play_hangman_loop_terminal s _ sent hO]
    rfl
  | succ n ih =>
    by_cases hO : game_status_indicator s = 'O'
    · cases msgs with
      | nil => simp at hlen
      | cons msg msgs =>
        have hn' : (apply_guess s (first_char msg)).numGuesses = (n : Int) := by
          show s.numGuesses - 1 = (n : Int)
          rw [hn]; push_cast; ring
        obtain ⟨k, hk, hOs, hWL, hrun⟩ :=
          ih (apply_guess s (first_char msg)) hn' msgs (by simpa using hlen)
            (sent ++ [game_update_message s (game_status_indicator s)])
        have hstep : play_hangman_loop (some msg :: (msgs.map some ++ rest)) s sent
            = play_hangman_loop (msgs.map some ++ rest) (apply_guess s (first_char msg))
                (sent ++ [game_update_message s (game_status_indicator s)]) := by
          simp only [play_hangman_loop, hO, if_true]
        refine ⟨k + 1, by omega, ?_, ?_, ?_⟩
        · intro j hj
          cases j with
          | zero => exact hO
          | succ j => exact hOs j (by omega)
        · exact hWL
        · rw [List.map_cons, List.cons_append, hstep, hrun]
          refine Prod.ext rfl (Prod.ext rfl (Prod.ext ?_ rfl))
          show sent ++ [game_update_message s (game_status_indicator s)] ++ _ = sent ++ _
          rw [List.range_succ_eq_map (k + 1), List.map_cons, List.map_map, List.append_assoc]
          rfl
    · have hWL : game_status_indicator s = 'W' ∨ game_status_indicator s = 'L' := by
        rw [game_status_won_iff, game_status_lost_iff]
        rw [game_status_ongoing_iff] at hO
        cases hw : s.gameWon
        · right
          refine ⟨?_, rfl⟩
          by_contra h0
          exact hO ⟨hw, h0⟩
        · exact Or.inl rfl
      refine ⟨0, Nat.zero_le _, fun j hj => absurd hj (Nat.not_lt_zero j), hWL, ?_⟩
      rw [play_hangman_loop_terminal s _ sent hO]
      rfl

/-- C13: for every phrase and every stream of guesses that holds at least as
many guesses as there are attempts at the start, the game loop reads guesses
exactly as long as the status is `'O'`.  It is left at the first `k`, at most
the initial `numGuesses`, for which the state after `k` guesses has the status
`'W'` or `'L'`: the final state is that state with `gameOver` set, one update
was sent per state passed (`k + 1` messages), and the guesses behind the first
`k` and all later receive results are left unconsumed.  The 26 one-letter
messages "a" to "z" are such a stream for every phrase.  From any state with
the status `'W'` or `'L'` the loop is left without consuming a receive result. -/
theorem play_hangman_loop_ends (category item : String) (sent : List String)
    (rest : List (Option String)) :
    (∀ msgs : List String,
      (hangman_init (corpus_entry category item)).numGuesses ≤ (msgs.length : Int) →
      ∃ k : Nat,
        (k : Int) ≤ (hangman_init (corpus_entry category item)).numGuesses ∧
        k ≤ msgs.length ∧
        (∀ j, j < k →
          game_status_indicator (((msgs.take j).map first_char).foldl apply_guess
            (hangman_init (corpus_entry category item))) = 'O') ∧
        (game_status_indicator (((msgs.take k).map first_char).foldl apply_guess
            (hangman_init (corpus_entry category item))) = 'W' ∨
          game_status_indicator (((msgs.take k).map first_char).foldl apply_guess
            (hangman_init (corpus_entry category item))) = 'L') ∧
        play_hangman_loop (msgs.map some ++ rest) (hangman_init (corpus_entry category item))
            sent
          = (true,
             { ((msgs.take k).map first_char).foldl apply_guess
                 (hangman_init (corpus_entry category item)) with gameOver := true },
             sent ++ (List.range (k + 1)).map (fun j =>
               game_update_message
                 (((msgs.take j).map first_char).foldl apply_guess
                   (hangman_init (corpus_entry category item)))
                 (game_status_indicator (((msgs.take j).map first_char).foldl apply_guess
                   (hangman_init (corpus_entry category item))))),
             (msgs.drop k).map some ++ rest)) ∧
    (∃ k : Nat,
        (k : Int) ≤ (hangman_init (corpus_entry category item)).numGuesses ∧
        k ≤ 26 ∧
        (∀ j, j < k →
          game_status_indicator (((alphabet_messages.take j).map first_char).foldl apply_guess
            (hangman_init (corpus_entry category item))) = 'O') ∧
        (game_status_indicator (((alphabet_messages.take k).map first_char).foldl apply_guess
            (hangman_init (corpus_entry category item))) = 'W' ∨
          game_status_indicator (((alphabet_messages.take k).map first_char).foldl apply_guess
            (hangman_init (corpus_entry category item))) = 'L') ∧
        play_hangman_loop (alphabet_messages.map some ++ rest)
            (hangman_init (corpus_entry category item)) sent
          = (true,
             { ((alphabet_messages.take k).map first_char).foldl apply_guess
                 (hangman_init (corpus_entry category item)) with gameOver := true },
             sent ++ (List.range (k + 1)).map (fun j =>
               game_update_message
                 (((alphabet_messages.take j).map first_char).foldl apply_guess
                   (hangman_init (corpus_entry category item)))
                 (game_status_indicator
                   (((alphabet_messages.take j).map first_char).foldl apply_guess
                     (hangman_init (corpus_entry category item))))),
             (alphabet_messages.drop k).map some ++ rest)) ∧
    (∀ (s : GameState) (incoming : List (Option String)) (sent0 : List String),
      game_status_indicator s ≠ 'O' →
      play_hangman_loop incoming s sent0
        = (true, { s with gameOver := true },
           sent0 ++ [game_update_message s (game_status_indicator s)], incoming)) := by
  obtain ⟨h0, h26, _⟩ := hangman_init_numGuesses (corpus_entry category item)
  have hn : (hangman_init (corpus_entry category item)).numGuesses
      = (((hangman_init (corpus_entry category item)).numGuesses.toNat : Nat) : Int) :=
    (Int.toNat_of_nonneg h0).symm
  have hgen : ∀ msgs : List String,
      (hangman_init (corpus_entry category item)).numGuesses ≤ (msgs.length : Int) →
      ∃ k : Nat,
        (k : Int) ≤ (hangman_init (corpus_entry category item)).numGuesses ∧
        k ≤ msgs.length ∧
        (∀ j, j < k →
          game_status_indicator (((msgs.take j).map first_char).foldl apply_guess
            (hangman_init (corpus_entry category item))) = 'O') ∧
        (game_status_indicator (((msgs.take k).map first_char).foldl apply_guess
            (hangman_init (corpus_entry category item))) = 'W' ∨
          game_status_indicator (((msgs.take k).map first_char).foldl apply_guess
            (hangman_init (corpus_entry category item))) = 'L') ∧
        play_hangman_loop (msgs.map some ++ rest) (hangman_init (corpus_entry category item))
            sent
          = (true,
             { ((msgs.take k).map first_char).foldl apply_guess
                 (hangman_init (corpus_entry category item)) with gameOver := true },
             sent ++ (List.range (k + 1)).map (fun j =>
               game_update_message
                 (((msgs.take j).map first_char).foldl apply_guess
                   (hangman_init (corpus_entry category item)))
                 (game_status_indicator (((msgs.take j).map first_char).foldl apply_guess
                   (hangman_init (corpus_entry category item))))),
             (msgs.drop k).map some ++ rest) := by
    intro msgs hlen
    have hlen' : (hangman_init (corpus_entry category item)).numGuesses.toNat ≤ msgs.length := by
      omega
    obtain ⟨k, hk, hOs, hWL, hrun⟩ :=
      play_hangman_loop_first_terminal _ (hangman_init (corpus_entry category item)) hn msgs
        hlen' rest sent
    exact ⟨k, by omega, by omega, hOs, hWL, hrun⟩
  refine ⟨hgen, ?_, fun s incoming sent0 hO => play_hangman_loop_terminal s incoming sent0 hO⟩
  obtain ⟨k, hk, hk2, hOs, hWL, hrun⟩ := hgen alphabet_messages (by
    rw [alphabet_messages_length]; exact h26)
  rw [alphabet_messages_length] at hk2
  exact ⟨k, hk, hk2, hOs, hWL, hrun⟩

/-! ## Game engine: guessing the distinct characters of the phrase -/

theorem hangman_init_shape (entry : hangman_word_t) :
    (hangman_init entry).hangmanWordLength = (hangman_init entry).hangmanWord.length ∧
    (hangman_init entry).clientWord.length = (hangman_init entry).hangmanWord.length ∧
    ' ' ∈ (hangman_init entry).hangmanWord ∧
    ∀ n : Nat, n ≤ 26 → n ≤ (hangman_init entry).hangmanWord.length →
      (n : Int) ≤ (hangman_init entry).numGuesses := by
  obtain ⟨name, type⟩ := entry
  obtain ⟨it⟩ := name
  obtain ⟨c⟩ := type
  have hlen : (c ++ [' '] ++ it).length = c.length + 1 + it.length := by
    simp only [List.length_append, List.length_singleton]
  have f1 := (fill_loop_spec (List.replicate (c.length + 1 + it.length) '\x00')
    (c.length + 1 + it.length)).1
  rw [List.length_replicate] at f1
  refine ⟨?_, ?_, ?_, ?_⟩
  · simp only [hangman_init, hlen]
  · simp only [hangman_init, hlen, List.length_set, f1]
  · simp only [hangman_init]
    exact List.mem_append_left _ (List.mem_append_right _ (List.mem_singleton_self _))
  · intro n h26 hn
    simp only [hangman_init, hlen, MAX_NUM_GUESSES] at hn ⊢
    split_ifs with h
    · push_cast; omega
    · push_cast; omega

theorem apply_guess_mask_getD (s : GameState) (guess : Char) (j : Nat)
    (hj : j < s.clientWord.length) (hlen : s.clientWord.length = s.hangmanWordLength) :
    (apply_guess s guess).clientWord.getD j '\x00'
      = if s.hangmanWord.getD j '\x00' = guess then guess else s.clientWord.getD j '\x00' := by
  rw [List.getD_eq_getElem?_getD, apply_guess_mask]
  by_cases hg : s.hangmanWord.getD j '\x00' = guess
  · rw [if_pos ⟨by omega, hj, hg⟩, if_pos hg]; rfl
  · rw [if_neg (fun h => hg h.2.2), if_neg hg, List.getD_eq_getElem?_getD]

theorem getD_mem_of_lt (l : List Char) (j : Nat) (hj : j < l.length) :
    l.getD j '\x00' ∈ l := by
  rw [List.getD_eq_getElem?_getD, List.getElem?_eq_getElem hj]
  exact List.getElem_mem hj

/-- The loop run on guesses that, with the characters guessed before (`done`),
cover the phrase: it ends with `gameWon` set. -/
theorem play_hangman_loop_wins (hw : List Char) (hus : '_' ∉ hw)
    (rest : List (Option String)) (msgs : List String) :
    ∀ (done : List Char) (s : GameState) (sent : List String),
      s.hangmanWord = hw → s.hangmanWordLength = hw.length → s.clientWord.length = hw.length →
      (∀ j, j < hw.length → hw.getD j '\x00' ∈ done → s.clientWord.getD j '\x00' ≠ '_') →
      (∀ c ∈ hw, c ∈ done ∨ c ∈ msgs.map first_char) →
      (msgs.length : Int) ≤ s.numGuesses →
      (msgs = [] → s.gameWon = true) →
      ∃ s' sent' remaining,
        play_hangman_loop (msgs.map some ++ rest) s sent = (true, s', sent', remaining) ∧
        s'.gameWon = true ∧ s'.gameOver = true := by
  induction msgs with
  | nil =>
    intro done s sent _ _ _ _ _ _ hwon
    have hO : ¬ game_status_indicator s = 'O' := by
      rw [game_status_ongoing_iff]; intro h; rw [hwon rfl] at h; exact absurd h.1 (by decide)
    cases rest with
    | nil =>
      exact ⟨{ s with gameOver := true },
        sent ++ [game_update_message s (game_status_indicator s)], [],
        by simp only [List.map_nil, List.nil_append, play_hangman_loop, hO, if_false],
        hwon rfl, rfl⟩
    | cons a l =>
      exact ⟨{ s with gameOver := true },
        sent ++ [game_update_message s (game_status_indicator s)], a :: l,
        by simp only [List.map_nil, List.nil_append, play_hangman_loop, hO, if_false],
        hwon rfl, rfl⟩
  | cons msg msgs ih =>
    intro done s sent h1 h2 h3 hinv hcover hbudget _
    by_cases hwon : s.gameWon = true
    · have hO : ¬ game_status_indicator s = 'O' := by
        rw [game_status_ongoing_iff]; intro h; rw [hwon] at h; exact absurd h.1 (by decide)
      exact ⟨{ s with gameOver := true },
        sent ++ [game_update_message s (game_status_indicator s)], some msg :: (msgs.map some ++ rest),
        by simp only [List.map_cons, List.cons_append, play_hangman_loop, hO, if_false]; rfl,
        hwon, rfl⟩
    · have hO : game_status_indicator s = 'O' := by
        rw [game_status_ongoing_iff]
        refine ⟨by simpa using hwon, ?_⟩
        intro h0
        rw [h0] at hbudget
        simp only [List.length_cons] at hbudget
        push_cast at hbudget
        omega
      have hstep : play_hangman_loop (some msg :: (msgs.map some ++ rest)) s sent
          = play_hangman_loop (msgs.map some ++ rest) (apply_guess s (first_char msg))
              (sent ++ [game_update_message s (game_status_indicator s)]) := by
        simp only [play_hangman_loop, hO, if_true]
      have hlen' : s.clientWord.length = s.hangmanWordLength := by rw [h3, h2]
      obtain ⟨s', sent', remaining, hrun, hw', hover⟩ :=
        ih (first_char msg :: done) (apply_guess s (first_char msg))
          (sent ++ [game_update_message s (game_status_indicator s)]) h1 h2
          (by rw [apply_guess_mask_length, h3])
          (by
            intro j hj hmem
            rw [apply_guess_mask_getD s _ j (by omega) hlen', h1]
            by_cases hg : hw.getD j '\x00' = first_char msg
            · rw [if_pos hg, ← hg]
              intro hu
              exact hus (hu ▸ getD_mem_of_lt hw j hj)
            · rw [if_neg hg]
              rcases List.mem_cons.mp hmem with h | h
              · exact absurd h hg
              · exact hinv j hj h)
          (by
            intro c hc
            rcases hcover c hc with h | h
            · exact Or.inl (List.mem_cons_of_mem _ h)
            · rw [List.map_cons] at h
              rcases List.mem_cons.mp h with h | h
              · exact Or.inl (h ▸ List.mem_cons_self _ _)
              · exact Or.inr h)
          (by
            show (msgs.length : Int) ≤ s.numGuesses - 1
            simp only [List.length_cons] at hbudget
            push_cast at hbudget
            omega)
          (by
            intro hnil
            rw [apply_guess_won, h1, h2]
            intro j hj
            rcases hcover _ (getD_mem_of_lt hw j hj) with h | h
            · exact Or.inr (hinv j hj h)
            · rw [hnil] at h
              simp only [List.map_cons, List.map_nil, List.mem_singleton] at h
              exact Or.inl h)
      exact ⟨s', sent', remaining, by rw [List.map_cons, List.cons_append, hstep]; exact hrun,
        hw', hover⟩

set_option maxRecDepth 1000000 in
theorem pangram_run_lost :
    (pangram_guesses.map first_char).Nodup ∧
    List.Perm (pangram_guesses.map first_char)
      (hangman_init (corpus_entry "abcdefghijklm" "nopqrstuvwxyz")).hangmanWord.dedup ∧
    (play_hangman_loop (pangram_guesses.map some)
        (hangman_init (corpus_entry "abcdefghijklm" "nopqrstuvwxyz")) []).1 = true ∧
    (play_hangman_loop (pangram_guesses.map some)
        (hangman_init (corpus_entry "abcdefghijklm" "nopqrstuvwxyz")) []).2.1.gameWon = false ∧
    game_status_indicator (play_hangman_loop (pangram_guesses.map some)
        (hangman_init (corpus_entry "abcdefghijklm" "nopqrstuvwxyz")) []).2.1 = 'L' ∧
    (play_hangman_loop (pangram_guesses.map some)
        (hangman_init (corpus_entry "abcdefghijklm" "nopqrstuvwxyz")) []).2.2.2 = [some "z"] := by
  decide

theorem underscore_run_not_won :
    (["_", "a", " "].map first_char).Nodup ∧
    List.Perm (["_", "a", " "].map first_char)
      (hangman_init (corpus_entry "a" "_")).hangmanWord.dedup ∧
    (play_hangman_loop (["_", "a", " "].map some)
        (hangman_init (corpus_entry "a" "_")) []).1 = false ∧
    (play_hangman_loop (["_", "a", " "].map some)
        (hangman_init (corpus_entry "a" "_")) []).2.1.gameWon = false := by
  decide

/-- C14, evaluated on the code.  On the phrase
"abcdefghijklm nopqrstuvwxyz", which has 27 distinct characters, the guesses
" ", "a", ..., "z" are the distinct characters of the phrase, each once; the
loop ends after 26 of them with all attempts used, `gameWon` false and the
status `'L'`, the guess "z" not consumed.  On the phrase "a _" the guesses "_",
"a", " " are the distinct characters of the phrase, each once; after them the
game is not won and the loop waits for another guess. -/
theorem distinct_guesses_not_won :
    ((pangram_guesses.map first_char).Nodup ∧
      List.Perm (pangram_guesses.map first_char)
        (hangman_init (corpus_entry "abcdefghijklm" "nopqrstuvwxyz")).hangmanWord.dedup ∧
      (play_hangman_loop (pangram_guesses.map some)
          (hangman_init (corpus_entry "abcdefghijklm" "nopqrstuvwxyz")) []).1 = true ∧
      (play_hangman_loop (pangram_guesses.map some)
          (hangman_init (corpus_entry "abcdefghijklm" "nopqrstuvwxyz")) []).2.1.gameWon = false ∧
      game_status_indicator (play_hangman_loop (pangram_guesses.map some)
          (hangman_init (corpus_entry "abcdefghijklm" "nopqrstuvwxyz")) []).2.1 = 'L' ∧
      (play_hangman_loop (pangram_guesses.map some)
          (hangman_init (corpus_entry "abcdefghijklm" "nopqrstuvwxyz")) []).2.2.2 = [some "z"]) ∧
    ((["_", "a", " "].map first_char).Nodup ∧
      List.Perm (["_", "a", " "].map first_char)
        (hangman_init (corpus_entry "a" "_")).hangmanWord.dedup ∧
      (play_hangman_loop (["_", "a", " "].map some)
          (hangman_init (corpus_entry "a" "_")) []).1 = false ∧
      (play_hangman_loop (["_", "a", " "].map some)
          (hangman_init (corpus_entry "a" "_")) []).2.1.gameWon = false) :=
  ⟨pangram_run_lost, underscore_run_not_won⟩

/-- C14 as amended: for every phrase that has at most 26 distinct characters
and does not contain `'_'`, a stream of guesses that starts with the distinct
characters of the phrase, each once, in any order, ends the game loop with
`gameOver` set, `gameWon` true and the status `'W'`. -/
theorem distinct_guesses_win (category item : String) (msgs : List String)
    (sent : List String) (rest : List (Option String))
    (hnodup : (msgs.map first_char).Nodup)
    (hexact : ∀ c, c ∈ msgs.map first_char ↔
      c ∈ (hangman_init (corpus_entry category item)).hangmanWord)
    (hus : '_' ∉ (hangman_init (corpus_entry category item)).hangmanWord)
    (hcount : (hangman_init (corpus_entry category item)).hangmanWord.dedup.length ≤ 26) :
    ∃ s' sent' remaining,
      play_hangman_loop (msgs.map some ++ rest) (hangman_init (corpus_entry category item)) sent
        = (true, s', sent', remaining) ∧
      s'.gameWon = true ∧ s'.gameOver = true ∧ game_status_indicator s' = 'W' := by
  obtain ⟨g1, g2, g3, g4⟩ := hangman_init_shape (corpus_entry category item)
  have hperm : List.Perm (msgs.map first_char)
      (hangman_init (corpus_entry category item)).hangmanWord.dedup := by
    rw [List.perm_ext_iff_of_nodup hnodup (List.nodup_dedup _)]
    intro c
    rw [hexact c, List.mem_dedup]
  have hlen : msgs.length
      = (hangman_init (corpus_entry category item)).hangmanWord.dedup.length := by
    rw [← hperm.length_eq, List.length_map]
  have hle : msgs.length ≤ (hangman_init (corpus_entry category item)).hangmanWord.length := by
    rw [hlen]
    exact (List.dedup_sublist _).length_le
  have hne : msgs ≠ [] := by
    intro h
    have := (hexact ' ').mpr g3
    rw [h] at this
    simp at this
  obtain ⟨s', sent', remaining, hrun, hwon, hover⟩ :=
    play_hangman_loop_wins (hangman_init (corpus_entry category item)).hangmanWord hus rest msgs
      [] (hangman_init (corpus_entry category item)) sent rfl g1 g2
      (fun j _ h => absurd h (List.not_mem_nil _))
      (fun c hc => Or.inr ((hexact c).mpr hc))
      (g4 msgs.length (by omega) hle)
      (fun h => absurd h hne)
  exact ⟨s', sent', remaining, hrun, hwon, hover, (game_status_won_iff s').mpr hwon⟩

/-- C14 as amended, on the phrase "a b": the guesses "b", " ", "a" win. -/
theorem distinct_guesses_win_witness :
    ∃ s' sent' remaining,
      play_hangman_loop (["b", " ", "a"].map some ++ []) (hangman_init (corpus_entry "a" "b")) []
        = (true, s', sent', remaining) ∧
      s'.gameWon = true ∧ s'.gameOver = true ∧ game_status_indicator s' = 'W' :=
  distinct_guesses_win "a" "b" ["b", " ", "a"] [] [] (by decide)
    (by
      intro c
      have h1 : (["b", " ", "a"].map first_char) = ['b', ' ', 'a'] := by decide
      have h2 : (hangman_init (corpus_entry "a" "b")).hangmanWord = ['a', ' ', 'b'] := by decide
      rw [h1, h2]
      simp only [List.mem_cons, List.mem_singleton, List.not_mem_nil, or_false]
      tauto)
    (by decide) (by decide)

/-! ## Login -/

theorem is_user_valid_loop_unknown (users : List user_info_t) (message : String)
    (ss : Session) (h : lookup users message = none) :
    is_user_valid_loop users message ss = (false, ss) := by
  induction users with
  | nil => rfl
  | cons user rest ih =>
    unfold lookup at h ih
    rw [List.find?_cons] at h
    by_cases hu : user.username = message
    · simp [hu] at h
    · have hs : ¬ strcmp user.username message = 0 := by rw [strcmp_eq_zero_iff]; exact hu
      simp only [hu, decide_False] at h
      simp only [is_user_valid_loop, hs, if_false]
      exact ih h

theorem is_user_valid_loop_known (users : List user_info_t) (message : String)
    (ss : Session) (user : user_info_t) (h : lookup users message = some user) :
    user.username = message ∧
    is_user_valid_loop users message ss =
      match receive_client_message (send_client_message ss "Please enter your password: ") with
      | (none, ss') => (false, ss')
      | (some password, ss') =>
        if strcmp user.password password = 0 then
          (true, { ss' with loggedInUser := some user.username })
        else (false, ss') := by
  induction users with
  | nil => simp [lookup] at h
  | cons u rest ih =>
    unfold lookup at h ih
    rw [List.find?_cons] at h
    by_cases hu : u.username = message
    · have hs : strcmp u.username message = 0 := by rw [strcmp_eq_zero_iff]; exact hu
      simp only [hu, decide_True] at h
      have hu' : u = user := Option.some.inj h
      subst hu'
      exact ⟨hu, by simp only [is_user_valid_loop, hs, if_true]⟩
    · have hs : ¬ strcmp u.username message = 0 := by rw [strcmp_eq_zero_iff]; exact hu
      simp only [hu, decide_False] at h
      obtain ⟨h1, h2⟩ := ih h
      exact ⟨h1, by simp only [is_user_valid_loop, hs, if_false]; exact h2⟩

/-- What `is_user_valid` does on a session whose first receive succeeds with
`username`. -/
theorem is_user_valid_received (users : List user_info_t) (ss : Session) (username : String)
    (rest : List (Option String)) (h : ss.incoming = some username :: rest) :
    is_user_valid users ss =
      is_user_valid_loop users username
        { ss with incoming := rest, sent := ss.sent ++ ["\nPlease enter your username: "] } := by
  simp only [is_user_valid, receive_client_message, send_client_message, h]

/-- C15, evaluated on the code: with the credential table `alice`/`secret`, a
session rejected for the unknown username "bob" is sent two messages, the
username prompt and "false"; a session rejected for the wrong password of
"alice" is sent three, the username prompt, the password prompt and "false".
The two sequences differ. -/
theorem rejected_sessions_differ :
    (handle_request [⟨"alice", "secret"⟩] []
        ⟨[some "bob"], [], Leaderboard.empty, none, []⟩).map (·.sent)
      = some ["\nPlease enter your username: ", "false"] ∧
    (handle_request [⟨"alice", "secret"⟩] []
        ⟨[some "alice", some "wrong"], [], Leaderboard.empty, none, []⟩).map (·.sent)
      = some ["\nPlease enter your username: ", "Please enter your password: ", "false"] ∧
    (handle_request [⟨"alice", "secret"⟩] []
        ⟨[some "bob"], [], Leaderboard.empty, none, []⟩).map (·.sent)
      ≠ (handle_request [⟨"alice", "secret"⟩] []
        ⟨[some "alice", some "wrong"], [], Leaderboard.empty, none, []⟩).map (·.sent) := by
  decide

/-- C15 as amended: for every credential table, a session rejected for an
unknown username is sent exactly the username prompt and then "false"; a
session rejected for a wrong password is sent exactly the username prompt, the
password prompt and then "false".  Both end with the same single literal
"false", nothing is sent after it, no identity is bound and the leaderboard is
untouched; the password prompt is sent only when the username is in the table. -/
theorem rejected_session_messages (users : List user_info_t)
    (hangmanWords : List hangman_word_t) (ss : Session)
    (username : String) (rest : List (Option String))
    (hin : ss.incoming = some username :: rest) :
    (lookup users username = none →
      handle_request users hangmanWords ss =
        some { ss with incoming := rest,
                       sent := ss.sent ++ ["\nPlease enter your username: ", "false"] }) ∧
    (∀ user password rest', lookup users username = some user →
      rest = some password :: rest' → user.password ≠ password →
      handle_request users hangmanWords ss =
        some { ss with incoming := rest',
                       sent := ss.sent ++ ["\nPlease enter your username: ",
                         "Please enter your password: ", "false"] }) := by
  constructor
  · intro hno
    have h1 := is_user_valid_received users ss username rest hin
    rw [is_user_valid_loop_unknown users username _ hno] at h1
    simp only [handle_request, h1, send_client_message, List.append_assoc, List.singleton_append]
  · intro user password rest' hfound hrest hwrong
    have h1 := is_user_valid_received users ss username rest hin
    have hs : ¬ strcmp user.password password = 0 := by rw [strcmp_eq_zero_iff]; exact hwrong
    rw [(is_user_valid_loop_known users username _ user hfound).2] at h1
    simp only [receive_client_message, send_client_message, hrest, hs, if_false] at h1
    simp only [handle_request, h1, send_client_message, List.append_assoc, List.singleton_append,
      List.cons_append, List.nil_append]

/-- C15 as amended, for the table `alice`/`secret`: the session that sends the
unknown username "bob". -/
theorem rejected_session_messages_witness :
    handle_request [⟨"alice", "secret"⟩] [] ⟨[some "bob"], [], Leaderboard.empty, none, []⟩ =
      some { (⟨[some "bob"], [], Leaderboard.empty, none, []⟩ : Session) with
        incoming := [],
        sent := [] ++ ["\nPlease enter your username: ", "false"] } :=
  (rejected_session_messages [⟨"alice", "secret"⟩] []
    ⟨[some "bob"], [], Leaderboard.empty, none, []⟩ "bob" [] rfl).1 (by decide)

/-- The outcome of `is_user_valid`: either it returns `true`, having received a
username of the table and then the password stored with it, sent both prompts
and bound the username; or it returns `false` with the identity as it was and
the leaderboard untouched. -/
theorem is_user_valid_outcome (users : List user_info_t) (ss : Session) :
    (∃ username password rest user,
      ss.incoming = some username :: some password :: rest ∧
      lookup users username = some user ∧ user.password = password ∧
      is_user_valid users ss =
        (true, { ss with incoming := rest,
                         sent := ss.sent ++ ["\nPlease enter your username: ",
                           "Please enter your password: "],
                         loggedInUser := some username })) ∨
    ((is_user_valid users ss).1 = false ∧
      (is_user_valid users ss).2.loggedInUser = ss.loggedInUser ∧
      (is_user_valid users ss).2.leaderboard = ss.leaderboard ∧
      ¬ ∃ username password rest user,
        ss.incoming = some username :: some password :: rest ∧
        lookup users username = some user ∧ user.password = password) := by
  rcases hin : ss.incoming with _ | ⟨r, rest⟩
  · right
    refine ⟨?_, ?_, ?_, ?_⟩
    · simp only [is_user_valid, receive_client_message, send_client_message, hin]
    · simp only [is_user_valid, receive_client_message, send_client_message, hin]
    · simp only [is_user_valid, receive_client_message, send_client_message, hin]
    · rintro ⟨_, _, _, _, h, _⟩; cases h
  · cases r with
    | none =>
      right
      refine ⟨?_, ?_, ?_, ?_⟩
      · simp only [is_user_valid, receive_client_message, send_client_message, hin]
      · simp only [is_user_valid, receive_client_message, send_client_message, hin]
      · simp only [is_user_valid, receive_client_message, send_client_message, hin]
      · rintro ⟨_, _, _, _, h, _⟩; cases h
    | some username =>
      have h1 := is_user_valid_received users ss username rest hin
      cases hl : lookup users username with
      | none =>
        right
        rw [h1, is_user_valid_loop_unknown users username _ hl]
        refine ⟨rfl, rfl, rfl, ?_⟩
        rintro ⟨u, _, _, user, h, h', _⟩
        injection h with h2 _
        injection h2 with h2
        subst h2
        rw [hl] at h'
        cases h'
      | some user =>
        obtain ⟨hname, hloop⟩ := is_user_valid_loop_known users username
          { ss with incoming := rest, sent := ss.sent ++ ["\nPlease enter your username: "] }
          user hl
        rw [hloop] at h1
        rcases rest with _ | ⟨r2, rest2⟩
        · right
          simp only [receive_client_message, send_client_message] at h1
          rw [h1]
          refine ⟨rfl, rfl, rfl, ?_⟩
          rintro ⟨_, _, _, _, h, _⟩; cases h
        · cases r2 with
          | none =>
            right
            simp only [receive_client_message, send_client_message] at h1
            rw [h1]
            refine ⟨rfl, rfl, rfl, ?_⟩
            rintro ⟨_, _, _, _, h, _⟩; cases h
          | some password =>
            simp only [receive_client_message, send_client_message] at h1
            by_cases hp : user.password = password
            · left
              have hs : strcmp user.password password = 0 := (strcmp_eq_zero_iff _ _).mpr hp
              rw [if_pos hs] at h1
              refine ⟨username, password, rest2, user, rfl, hl, hp, ?_⟩
              rw [h1, hname]
              simp
            · right
              have hs : ¬ strcmp user.password password = 0 := by
                rw [strcmp_eq_zero_iff]; exact hp
              rw [if_neg hs] at h1
              rw [h1]
              refine ⟨rfl, rfl, rfl, ?_⟩
              rintro ⟨u, p, _, user', h, h', h''⟩
              injection h with h2 h3
              injection h2 with h2
              injection h3 with h3 _
              injection h3 with h3
              subst h2; subst h3
              rw [hl] at h'
              injection h' with h'
              subst h'
              exact hp h''

/-- C16: `is_user_valid` returns `true` if and only if the first message
received is a username found in the credential table (`lookup`, the first entry
with that username) and the second is the password stored in that entry.  Then
the username is bound to the session, and `handle_request` sends "true" and runs
`main_menu`.  In every other case the identity of the session is left as it was,
and `handle_request` ends the session by sending "false" as its last message,
with the leaderboard untouched.  For the table `alice`/`secret`, the messages
"alice", "secret", "3" are answered by the two prompts and "true". -/
theorem is_user_valid_iff (users : List user_info_t) (hangmanWords : List hangman_word_t)
    (ss : Session) :
    ((is_user_valid users ss).1 = true ↔
      ∃ username password rest user,
        ss.incoming = some username :: some password :: rest ∧
        lookup users username = some user ∧ user.password = password) ∧
    ((is_user_valid users ss).1 = true →
      ∃ username, ss.incoming.head? = some (some username) ∧
        (is_user_valid users ss).2.loggedInUser = some username ∧
        handle_request users hangmanWords ss
          = (main_menu hangmanWords
              { (is_user_valid users ss).2 with
                sent := (is_user_valid users ss).2.sent ++ ["true"] }).map Prod.snd) ∧
    ((is_user_valid users ss).1 = false →
      (is_user_valid users ss).2.loggedInUser = ss.loggedInUser ∧
      ∃ ss', handle_request users hangmanWords ss = some ss' ∧
        ss'.sent.getLast? = some "false" ∧ ss'.loggedInUser = ss.loggedInUser ∧
        ss'.leaderboard = ss.leaderboard) ∧
    handle_request [⟨"alice", "secret"⟩] [animal_dog]
        ⟨[some "alice", some "secret", some "3"], [], Leaderboard.empty, none, []⟩
      = some ⟨[], ["\nPlease enter your username: ", "Please enter your password: ", "true"],
          Leaderboard.empty, some "alice", []⟩ := by
  refine ⟨?_, ?_, ?_, by decide⟩
  · rcases is_user_valid_outcome users ss with ⟨u, p, rest, user, h1, h2, h3, h4⟩ | ⟨h1, _, _, h4⟩
    · rw [h4]
      exact ⟨fun _ => ⟨u, p, rest, user, h1, h2, h3⟩, fun _ => rfl⟩
    · rw [h1]
      exact ⟨fun h => absurd h (by decide), fun h => absurd h h4⟩
  · intro htrue
    rcases is_user_valid_outcome users ss with ⟨u, p, rest, user, h1, h2, h3, h4⟩ | ⟨h1, _, _, _⟩
    · refine ⟨u, by rw [h1]; rfl, by rw [h4], ?_⟩
      simp only [handle_request, h4, send_client_message]
      cases main_menu hangmanWords _ with
      | none => rfl
      | some r => rfl
    · rw [h1] at htrue
      exact absurd htrue (by decide)
  · intro hfalse
    rcases is_user_valid_outcome users ss with ⟨u, p, rest, user, h1, h2, h3, h4⟩ | ⟨h1, h2, h3, _⟩
    · rw [h4] at hfalse
      exact Bool.noConfusion hfalse
    · refine ⟨h2, send_client_message (is_user_valid users ss).2 "false", ?_, ?_, h2, h3⟩
      · unfold handle_request
        generalize is_user_valid users ss = r at h1
        obtain ⟨b, ss1⟩ := r
        simp only at h1
        subst h1
        rfl
      · simp [send_client_message]

/-! ## Menu -/

/-- One round of the menu loop on a received selection. -/
theorem main_menu_round (hangmanWords : List hangman_word_t) (ss : Session)
    (selection : String) (rest : List (Option String))
    (hin : ss.incoming = some selection :: rest) :
    main_menu hangmanWords ss =
      if first_char selection = '1' then
        match play_hangman hangmanWords { ss with incoming := rest } with
        | none => none
        | some (true, ss') => main_menu_loop hangmanWords (rest.length + 1) ss'
        | some (false, ss') => some (true, ss')
      else if first_char selection = '2' then
        match send_leaderboard { ss with incoming := rest } with
        | none => none
        | some (true, ss') => main_menu_loop hangmanWords (rest.length + 1) ss'
        | some (false, ss') => some (true, ss')
      else if first_char selection = '3' then some (true, { ss with incoming := rest })
      else some (false, { ss with incoming := rest }) := by
  have hfuel : ss.incoming.length + 1 = (rest.length + 1) + 1 := by rw [hin]; rfl
  unfold main_menu
  rw [hfuel, main_menu_loop]
  simp only [receive_client_message, hin]

/-- C17, evaluated on the code: the message "1x", which is none of "1", "2",
"3", does not end the session as a protocol violation: `main_menu` starts a
game (it sends the first game update of "animal dog") and, the peer sending
nothing more, returns `true`. -/
theorem menu_accepts_longer_message :
    ("1x" : String) ≠ "1" ∧ ("1x" : String) ≠ "2" ∧ ("1x" : String) ≠ "3" ∧
    main_menu [animal_dog] ⟨[some "1x"], [], Leaderboard.empty, some "alice", []⟩
      = some (true, ⟨[], [" |19|______ ___|O"], Leaderboard.empty, some "alice", []⟩) := by
  decide

/-- C17 as amended: `main_menu` dispatches on the first character of the
received message.  A message whose first character is none of `'1'`, `'2'`,
`'3'` ends the session as a protocol violation: `main_menu` returns `false`,
having sent nothing (no game update, no leaderboard message, no prompt),
received nothing more and left the leaderboard as it was.  A message that starts
with `'3'` makes `main_menu` return `true`, again with nothing sent.  A message
that starts with `'1'` runs `play_hangman` and one that starts with `'2'` runs
`send_leaderboard`, whatever follows the first character. -/
theorem main_menu_dispatch (hangmanWords : List hangman_word_t) (ss : Session)
    (selection : String) (rest : List (Option String))
    (hin : ss.incoming = some selection :: rest) :
    (first_char selection ≠ '1' → first_char selection ≠ '2' → first_char selection ≠ '3' →
      main_menu hangmanWords ss = some (false, { ss with incoming := rest })) ∧
    (first_char selection = '3' →
      main_menu hangmanWords ss = some (true, { ss with incoming := rest })) ∧
    (first_char selection = '1' →
      main_menu hangmanWords ss =
        match play_hangman hangmanWords { ss with incoming := rest } with
        | none => none
        | some (true, ss') => main_menu_loop hangmanWords (rest.length + 1) ss'
        | some (false, ss') => some (true, ss')) ∧
    (first_char selection = '2' →
      main_menu hangmanWords ss =
        match send_leaderboard { ss with incoming := rest } with
        | none => none
        | some (true, ss') => main_menu_loop hangmanWords (rest.length + 1) ss'
        | some (false, ss') => some (true, ss')) := by
  have hround := main_menu_round hangmanWords ss selection rest hin
  refine ⟨?_, ?_, ?_, ?_⟩
  · intro h1 h2 h3
    rw [hround, if_neg h1, if_neg h2, if_neg h3]
  · intro h3
    have h1 : first_char selection ≠ '1' := by rw [h3]; decide
    have h2 : first_char selection ≠ '2' := by rw [h3]; decide
    rw [hround, if_neg h1, if_neg h2, if_pos h3]
  · intro h1
    rw [hround, if_pos h1]
  · intro h2
    have h1 : first_char selection ≠ '1' := by rw [h2]; decide
    rw [hround, if_neg h1, if_pos h2]

/-- C17 as amended, for the message "9" received after the login of "alice". -/
theorem main_menu_dispatch_witness :
    main_menu [animal_dog] ⟨[some "9", some "1"], ["true"], Leaderboard.empty, some "alice", []⟩
      = some (false, ⟨[some "1"], ["true"], Leaderboard.empty, some "alice", []⟩) :=
  (main_menu_dispatch [animal_dog]
    ⟨[some "9", some "1"], ["true"], Leaderboard.empty, some "alice", []⟩ "9" [some "1"] rfl).1
    (by decide) (by decide) (by decide)

/-! ## Leaderboard stream -/

theorem send_leaderboard_items_acked (items : List leaderboard_item_t) :
    ∀ (acks : List String) (ss : Session) (rest : List (Option String)),
      acks.length = items.length → ss.incoming = acks.map some ++ rest →
      send_leaderboard_items items.length items ss =
        some (true, { ss with incoming := rest,
                              sent := ss.sent ++ items.map leaderboard_item_message }) := by
  induction items with
  | nil =>
    intro acks ss rest hlen hin
    have : acks = [] := List.length_eq_zero.mp hlen
    subst this
    simp only [List.map_nil, List.nil_append] at hin
    simp only [List.length_nil, send_leaderboard_items, List.map_nil, List.append_nil, ← hin]
  | cons item items ih =>
    intro acks ss rest hlen hin
    cases acks with
    | nil => simp at hlen
    | cons ack acks =>
      simp only [List.length_cons, send_leaderboard_items, receive_client_message,
        send_client_message, hin, List.map_cons, List.cons_append]
      rw [ih acks _ rest (by simpa using hlen) rfl]
      simp

theorem send_leaderboard_items_failed (items : List leaderboard_item_t) :
    ∀ (n : Nat) (acks : List String) (ss : Session) (tail : List (Option String)),
      acks.length < n → n ≤ items.length →
      ss.incoming = acks.map some ++ tail → (tail = [] ∨ ∃ rest, tail = none :: rest) →
      send_leaderboard_items n items ss =
        some (false, { ss with incoming := tail.tail,
                               sent := ss.sent ++
                                 (items.take (acks.length + 1)).map leaderboard_item_message }) := by
  induction items with
  | nil => intro n acks ss tail h1 h2; simp at h2; omega
  | cons item items ih =>
    intro n acks ss tail h1 h2 hin htail
    cases n with
    | zero => omega
    | succ n =>
      cases acks with
      | nil =>
        simp only [List.map_nil, List.nil_append] at hin
        rcases htail with rfl | ⟨rest, rfl⟩
        · simp only [send_leaderboard_items, receive_client_message, send_client_message, hin,
            List.length_nil, List.take_succ_cons, List.take_zero, List.map_cons, List.map_nil,
            List.tail_nil]
        · simp only [send_leaderboard_items, receive_client_message, send_client_message, hin,
            List.length_nil, List.take_succ_cons, List.take_zero, List.map_cons, List.map_nil,
            List.tail_cons]
      | cons ack acks =>
        simp only [send_leaderboard_items, receive_client_message, send_client_message, hin,
          List.map_cons, List.cons_append, List.length_cons, List.take_succ_cons]
        rw [ih n acks _ tail (by simpa using h1) (by simpa using h2) rfl htail]
        simp

/-- The protocol of `send_leaderboard` in list order: on a leaderboard whose
item count is the length of its list, `n`, with
a peer that acknowledges every message (`n + 1` acknowledgments),
`send_leaderboard` sends exactly the decimal count `n`, then one message
`username|gamesWon|totalGames` per entry in list order, then "Y": `n + 2`
messages; it consumes exactly the `n + 1` acknowledgments, returns `true` and
leaves the leaderboard and the bound identity as they were.  When the
acknowledgment number `k` (counting from 0, the first one answering the count)
fails, by a receive error or because the peer has closed, the messages sent are
the count and the first `k` entries, nothing is sent after the failure and the
result is `false`.  For the leaderboard bob 0/1, alice 1/1 the messages are
"2", "bob|0|1", "alice|1|1", "Y". -/
theorem send_leaderboard_protocol (ss : Session)
    (hnum : ss.leaderboard.numLeaderboardItems
      = (ss.leaderboard.leaderboardItems.length : Int)) :
    (∀ (acks : List String) (rest : List (Option String)),
      acks.length = ss.leaderboard.leaderboardItems.length + 1 →
      ss.incoming = acks.map some ++ rest →
      send_leaderboard ss =
        some (true, { ss with
          incoming := rest,
          sent := ss.sent ++
            (String.mk (sprintf_d (ss.leaderboard.leaderboardItems.length : Int)) ::
              ss.leaderboard.leaderboardItems.map leaderboard_item_message ++ ["Y"]) }) ∧
      (String.mk (sprintf_d (ss.leaderboard.leaderboardItems.length : Int)) ::
          ss.leaderboard.leaderboardItems.map leaderboard_item_message ++ ["Y"]).length
        = ss.leaderboard.leaderboardItems.length + 2) ∧
    (∀ (acks : List String) (tail : List (Option String)),
      acks.length ≤ ss.leaderboard.leaderboardItems.length →
      ss.incoming = acks.map some ++ tail → (tail = [] ∨ ∃ rest, tail = none :: rest) →
      send_leaderboard ss =
        some (false, { ss with
          incoming := tail.tail,
          sent := ss.sent ++
            (String.mk (sprintf_d (ss.leaderboard.leaderboardItems.length : Int)) ::
              (ss.leaderboard.leaderboardItems.take acks.length).map
                leaderboard_item_message) })) ∧
    (send_leaderboard
        ⟨[some "Y", some "Y", some "Y", some "3"], [],
          ⟨[⟨"bob", 0, 1, 0⟩, ⟨"alice", 1, 1, 1⟩], 2⟩, some "alice", []⟩).map
        (fun r => (r.1, r.2.sent, r.2.incoming))
      = some (true, ["2", "bob|0|1", "alice|1|1", "Y"], [some "3"]) := by
  have htoNat : ss.leaderboard.numLeaderboardItems.toNat
      = ss.leaderboard.leaderboardItems.length := by rw [hnum]; simp
  refine ⟨?_, ?_, by decide⟩
  · intro acks rest hlen hin
    refine ⟨?_, by simp⟩
    cases acks with
    | nil => simp at hlen
    | cons ack acks =>
      simp only [send_leaderboard, receive_client_message, send_client_message, hin,
        List.map_cons, List.cons_append, htoNat]
      rw [send_leaderboard_items_acked _ acks _ rest (by simpa using hlen) rfl, hnum]
      simp
  · intro acks tail hlen hin htail
    cases acks with
    | nil =>
      simp only [List.map_nil, List.nil_append] at hin
      rcases htail with rfl | ⟨rest, rfl⟩
      · simp only [send_leaderboard, receive_client_message, send_client_message, hin, hnum,
          List.length_nil, List.take_zero, List.map_nil, List.tail_nil]
      · simp only [send_leaderboard, receive_client_message, send_client_message, hin, hnum,
          List.length_nil, List.take_zero, List.map_nil, List.tail_cons]
    | cons ack acks =>
      simp only [send_leaderboard, receive_client_message, send_client_message, hin,
        List.map_cons, List.cons_append, htoNat]
      rw [send_leaderboard_items_failed _ _ acks _ tail (by simpa using hlen) (le_refl _) rfl
        htail, hnum]
      simp

/-- The protocol on the leaderboard bob 0/1, alice 1/1 with three
acknowledgments. -/
theorem send_leaderboard_protocol_witness :
    send_leaderboard
        ⟨[some "Y", some "Y", some "Y"], [], ⟨[⟨"bob", 0, 1, 0⟩, ⟨"alice", 1, 1, 1⟩], 2⟩,
          some "alice", []⟩ =
      some (true, { (⟨[some "Y", some "Y", some "Y"], [],
            ⟨[⟨"bob", 0, 1, 0⟩, ⟨"alice", 1, 1, 1⟩], 2⟩, some "alice", []⟩ : Session) with
          incoming := [],
          sent := [] ++ (String.mk (sprintf_d ((2 : Nat) : Int)) ::
            ([⟨"bob", 0, 1, 0⟩, ⟨"alice", 1, 1, 1⟩] : List leaderboard_item_t).map
              leaderboard_item_message ++ ["Y"]) }) :=
  ((send_leaderboard_protocol
    ⟨[some "Y", some "Y", some "Y"], [], ⟨[⟨"bob", 0, 1, 0⟩, ⟨"alice", 1, 1, 1⟩], 2⟩,
      some "alice", []⟩ rfl).1 ["Y", "Y", "Y"] [] rfl rfl).1

/-- The leaderboard after "a" wins, "b" wins and "b" loses, from the empty one. -/
theorem record_results_a_b_b :
    record_results Leaderboard.empty [("a", true), ("b", true), ("b", false)]
      = ⟨[⟨"a", 1, 1, 1⟩, ⟨"b", 1, 2, 1 / 2⟩], 2⟩ := by
  have hab : strcmp "a" "b" = -1 := by decide
  have hbb : strcmp "b" "b" = 0 := by decide
  have hba : strcmp "b" "a" = 1 := by decide
  norm_num [record_results, update_leaderboard, find_leaderboard_item, add_leaderboard_item,
    new_leaderboard_item, update_leaderboard_item, updated_item,
    insert_leaderboard_item_at_correct_pos, get_percentage_won, compare_leaderboard_items,
    Leaderboard.empty, hab, hbb, hba]

theorem send_leaderboard_a_b :
    (send_leaderboard
        ⟨[some "Y", some "Y", some "Y"], [], ⟨[⟨"a", 1, 1, 1⟩, ⟨"b", 1, 2, 1 / 2⟩], 2⟩,
          some "b", []⟩).map (fun r => (r.1, r.2.sent, r.2.incoming))
      = some (true, ["2", "a|1|1", "b|1|2", "Y"], []) := by
  decide

/-- C18, evaluated on the code.  From the empty leaderboard, after "a" wins,
"b" wins and "b" loses, the list is a (1 of 1), b (1 of 2), with item count 2,
although b ranks before a per the comparator (equal wins, lower rate).  With a
peer that acknowledges every message `send_leaderboard` returns `true` after
sending "2", "a|1|1", "b|1|2", "Y": the entries go out in list order, a before
b, which is not rank order. -/
theorem send_leaderboard_out_of_rank_order :
    record_results Leaderboard.empty [("a", true), ("b", true), ("b", false)]
      = ⟨[⟨"a", 1, 1, 1⟩, ⟨"b", 1, 2, 1 / 2⟩], 2⟩ ∧
    compare_leaderboard_items ⟨"b", 1, 2, 1 / 2⟩ ⟨"a", 1, 1, 1⟩ < 0 ∧
    (send_leaderboard
        ⟨[some "Y", some "Y", some "Y"], [],
          record_results Leaderboard.empty [("a", true), ("b", true), ("b", false)],
          some "b", []⟩).map (fun r => (r.1, r.2.sent, r.2.incoming))
      = some (true, ["2", "a|1|1", "b|1|2", "Y"], []) := by
  refine ⟨record_results_a_b_b, ?_, ?_⟩
  · norm_num [compare_leaderboard_items]
  · rw [record_results_a_b_b]
    exact send_leaderboard_a_b

/-! ## Game update message -/

theorem digitChar_ne_bar : ∀ k, k < 10 → Nat.digitChar k ≠ '|' := by
  decide

theorem toDigitsCore_no_bar (fuel : Nat) :
    ∀ (n : Nat) (ds : List Char), (∀ c ∈ ds, c ≠ '|') →
      ∀ c ∈ Nat.toDigitsCore 10 fuel n ds, c ≠ '|' := by
  induction fuel with
  | zero => intro n ds hds c hc; exact hds c hc
  | succ fuel ih =>
    intro n ds hds c hc
    have hds' : ∀ c ∈ Nat.digitChar (n % 10) :: ds, c ≠ '|' := by
      intro x hx
      rcases List.mem_cons.mp hx with rfl | hx
      · exact digitChar_ne_bar _ (Nat.mod_lt _ (by decide))
      · exact hds x hx
    unfold Nat.toDigitsCore at hc
    simp only at hc
    split_ifs at hc
    · exact hds' c hc
    · exact ih _ _ hds' c hc

theorem toDigitsCore_ne_nil (fuel : Nat) :
    ∀ (n : Nat) (ds : List Char), Nat.toDigitsCore 10 (fuel + 1) n ds ≠ [] := by
  induction fuel with
  | zero =>
    intro n ds
    unfold Nat.toDigitsCore
    simp only
    split_ifs
    · exact List.cons_ne_nil _ _
    · unfold Nat.toDigitsCore; exact List.cons_ne_nil _ _
  | succ fuel ih =>
    intro n ds
    unfold Nat.toDigitsCore
    simp only
    split_ifs
    · exact List.cons_ne_nil _ _
    · exact ih _ _

theorem sprintf_d_tokens (n : Int) : sprintf_d n ≠ [] ∧ ∀ c ∈ sprintf_d n, c ≠ '|' := by
  unfold sprintf_d
  split_ifs
  · refine ⟨List.cons_ne_nil _ _, ?_⟩
    intro c hc
    rcases List.mem_cons.mp hc with rfl | hc
    · decide
    · exact toDigitsCore_no_bar _ _ [] (fun _ h => absurd h (List.not_mem_nil _)) c hc
  · exact ⟨toDigitsCore_ne_nil _ _ [],
      toDigitsCore_no_bar _ _ [] (fun _ h => absurd h (List.not_mem_nil _))⟩

theorem strtok_fields_run (a : List Char) (ha : ∀ x ∈ a, x ≠ '|') :
    ∀ (rest cur : List Char),
      strtok_fields (a ++ rest) cur = strtok_fields rest (a.reverse ++ cur) := by
  induction a with
  | nil => intro rest cur; rfl
  | cons x a ih =>
    intro rest cur
    have hx : x ≠ '|' := ha x (List.mem_cons_self _ _)
    simp only [List.cons_append, strtok_fields, hx, if_false, List.reverse_cons,
      List.append_assoc, List.singleton_append]
    exact ih (fun y hy => ha y (List.mem_cons_of_mem _ hy)) rest (x :: cur)

theorem strtok_fields_token (a : List Char) (ha : ∀ x ∈ a, x ≠ '|') (hne : a ≠ [])
    (rest : List Char) :
    strtok_fields (a ++ '|' :: rest) [] = a :: strtok_fields rest [] := by
  rw [strtok_fields_run a ha]
  have hr : ¬ a.reverse = [] := by simpa using hne
  simp only [strtok_fields, if_true, hr, if_false, List.append_nil, List.reverse_reverse]

theorem strtok_fields_last (a : List Char) (ha : ∀ x ∈ a, x ≠ '|') (hne : a ≠ []) :
    strtok_fields a [] = [a] := by
  have h := strtok_fields_run a ha [] []
  rw [List.append_nil] at h
  rw [h]
  have hr : ¬ a.reverse = [] := by simpa using hne
  simp only [strtok_fields, hr, if_false, List.append_nil, List.reverse_reverse]

/-- A message of four fields is split into its fields by the client. -/
theorem strtok_fields_four (a b c : List Char) (st : Char)
    (ha : ∀ x ∈ a, x ≠ '|') (hane : a ≠ []) (hb : ∀ x ∈ b, x ≠ '|') (hbne : b ≠ [])
    (hc : ∀ x ∈ c, x ≠ '|') (hcne : c ≠ []) (hst : st ≠ '|') :
    strtok_fields (a ++ '|' :: b ++ '|' :: c ++ ['|', st]) [] = [a, b, c, [st]] := by
  have e : a ++ '|' :: b ++ '|' :: c ++ ['|', st]
      = a ++ '|' :: (b ++ '|' :: (c ++ '|' :: [st])) := by simp
  rw [e, strtok_fields_token a ha hane, strtok_fields_token b hb hbne,
    strtok_fields_token c hc hcne,
    strtok_fields_last [st] (by intro x hx; rw [List.mem_singleton.mp hx]; exact hst)
      (List.cons_ne_nil _ _)]

theorem c_string_subset (buf : List Char) : ∀ c ∈ c_string buf, c ∈ buf := by
  intro c hc
  exact (List.takeWhile_sublist _).subset hc

theorem c_string_ne_nil (c : Char) (rest : List Char) (hc : c ≠ '\x00') :
    c_string (c :: rest) ≠ [] := by
  unfold c_string
  rw [List.takeWhile_cons]
  have : (c != '\x00') = true := by simpa using hc
  rw [this]
  exact List.cons_ne_nil _ _

theorem mem_set_cases (l : List Char) (i : Nat) (a c : Char) (h : c ∈ l.set i a) :
    c = a ∨ c ∈ l := by
  rw [List.mem_iff_getElem?] at h
  obtain ⟨j, hj⟩ := h
  rw [List.getElem?_set] at hj
  by_cases h1 : i = j
  · rw [if_pos h1] at hj
    by_cases h2 : i < l.length
    · rw [if_pos h2] at hj
      exact Or.inl (Option.some.inj hj).symm
    · rw [if_neg h2] at hj
      cases hj
  · rw [if_neg h1] at hj
    exact Or.inr (List.mem_iff_getElem?.mpr ⟨j, hj⟩)

theorem hangman_init_fields (entry : hangman_word_t) :
    (∀ c ∈ (hangman_init entry).guessedLetters, c ≠ '|') ∧
    (∃ c rest, (hangman_init entry).guessedLetters = c :: rest ∧ c ≠ '\x00') ∧
    (∀ c ∈ (hangman_init entry).clientWord, c ≠ '|' ∧ c ≠ '\x00') ∧
    (hangman_init entry).clientWord ≠ [] := by
  refine ⟨?_, ⟨' ', _, rfl, by decide⟩, ?_, ?_⟩
  · intro c hc
    simp only [hangman_init] at hc
    rcases List.mem_cons.mp hc with rfl | hc
    · decide
    · rw [List.eq_of_mem_replicate hc]; decide
  · intro c hc
    simp only [hangman_init] at hc
    rcases mem_set_cases _ _ _ _ hc with rfl | hc
    · exact ⟨by decide, by decide⟩
    · rw [List.mem_iff_getElem?] at hc
      obtain ⟨j, hj⟩ := hc
      rw [(fill_loop_spec _ _).2 j, List.length_replicate] at hj
      split_ifs at hj with h1
      · rw [← Option.some.inj hj]; exact ⟨by decide, by decide⟩
      · rw [List.getElem?_replicate] at hj
        have h2 : ¬ j < entry.objectType.data.length + 1 + entry.objectName.data.length :=
          fun h => h1 ⟨h, h⟩
        rw [if_neg h2] at hj
        cases hj
  · intro h
    have hl := (hangman_init_shape entry).2.1
    rw [h] at hl
    simp only [hangman_init, List.length_nil, List.length_append, List.length_singleton] at hl
    omega

theorem apply_guess_fields (s : GameState) (guess : Char)
    (hbar : guess ≠ '|') (hnul : guess ≠ '\x00')
    (h : (∀ c ∈ s.guessedLetters, c ≠ '|') ∧
      (∃ c rest, s.guessedLetters = c :: rest ∧ c ≠ '\x00') ∧
      (∀ c ∈ s.clientWord, c ≠ '|' ∧ c ≠ '\x00') ∧ s.clientWord ≠ []) :
    (∀ c ∈ (apply_guess s guess).guessedLetters, c ≠ '|') ∧
    (∃ c rest, (apply_guess s guess).guessedLetters = c :: rest ∧ c ≠ '\x00') ∧
    (∀ c ∈ (apply_guess s guess).clientWord, c ≠ '|' ∧ c ≠ '\x00') ∧
    (apply_guess s guess).clientWord ≠ [] := by
  obtain ⟨h1, ⟨c0, rest0, h2, h2'⟩, h3, h4⟩ := h
  refine ⟨?_, ?_, ?_, ?_⟩
  · intro c hc
    simp only [apply_guess] at hc
    rcases mem_set_cases _ _ _ _ hc with rfl | hc
    · decide
    · rcases mem_set_cases _ _ _ _ hc with rfl | hc
      · exact hbar
      · exact h1 c hc
  · simp only [apply_guess, h2]
    cases s.i with
    | zero => exact ⟨guess, _, rfl, hnul⟩
    | succ k => exact ⟨c0, _, rfl, h2'⟩
  · intro c hc
    rw [List.mem_iff_getElem?] at hc
    obtain ⟨j, hj⟩ := hc
    rw [apply_guess_mask] at hj
    split_ifs at hj
    · rw [← Option.some.inj hj]; exact ⟨hbar, hnul⟩
    · exact h3 c (List.mem_iff_getElem?.mpr ⟨j, hj⟩)
  · intro hnil
    have hl := apply_guess_mask_length s guess
    rw [hnil] at hl
    exact h4 (List.length_eq_zero.mp hl.symm)

theorem foldl_apply_guess_fields (guesses : List Char)
    (hg : ∀ g ∈ guesses, g ≠ '|' ∧ g ≠ '\x00') :
    ∀ s : GameState,
      ((∀ c ∈ s.guessedLetters, c ≠ '|') ∧
        (∃ c rest, s.guessedLetters = c :: rest ∧ c ≠ '\x00') ∧
        (∀ c ∈ s.clientWord, c ≠ '|' ∧ c ≠ '\x00') ∧ s.clientWord ≠ []) →
      ((∀ c ∈ (guesses.foldl apply_guess s).guessedLetters, c ≠ '|') ∧
        (∃ c rest, (guesses.foldl apply_guess s).guessedLetters = c :: rest ∧ c ≠ '\x00') ∧
        (∀ c ∈ (guesses.foldl apply_guess s).clientWord, c ≠ '|' ∧ c ≠ '\x00') ∧
        (guesses.foldl apply_guess s).clientWord ≠ []) := by
  induction guesses with
  | nil => intro s h; exact h
  | cons g guesses ih =>
    intro s h
    rw [List.foldl_cons]
    exact ih (fun x hx => hg x (List.mem_cons_of_mem _ hx)) _
      (apply_guess_fields s g (hg g (List.mem_cons_self _ _)).1
        (hg g (List.mem_cons_self _ _)).2 h)

/-- C19, evaluated on the code.  On "animal dog" the first guess `|` gives the
update message "||18|______ ___|O", which the client's `strtok` calls split
into three tokens, "18", "______ ___" and "O": the client takes "18" for the
guessed letters, the mask for the number of attempts, "O" for the mask, and has
no status.  The first guess NUL gives "|18|______ ___|O", split the same way. -/
theorem update_message_misparsed :
    game_status_indicator (hangman_init animal_dog) = 'O' ∧
    game_update_message (apply_guess (hangman_init animal_dog) '|') 'O'
      = "||18|______ ___|O" ∧
    strtok_fields (game_update_message (apply_guess (hangman_init animal_dog) '|') 'O').data []
      = ["18".data, "______ ___".data, "O".data] ∧
    game_update_message (apply_guess (hangman_init animal_dog) '\x00') 'O'
      = "|18|______ ___|O" ∧
    strtok_fields
        (game_update_message (apply_guess (hangman_init animal_dog) '\x00') 'O').data []
      = ["18".data, "______ ___".data, "O".data] := by
  decide

/-- C19 as amended: in every game state reached from the start of a game by
guesses none of which is `'|'` or NUL, the update message is the four fields
guessed letters, decimal `numGuesses`, mask and status character, in this
order, joined by `'|'`, and the client's `strtok` calls split it into exactly
these four fields; the status character is `'O'`, `'W'` or `'L'`, and it is
`'O'` exactly when the game is ongoing (not won, attempts left). -/
theorem update_message_fields (entry : hangman_word_t) (guesses : List Char)
    (hg : ∀ g ∈ guesses, g ≠ '|' ∧ g ≠ '\x00') :
    (game_update_message (guesses.foldl apply_guess (hangman_init entry))
        (game_status_indicator (guesses.foldl apply_guess (hangman_init entry)))).data
      = c_string (guesses.foldl apply_guess (hangman_init entry)).guessedLetters ++
          '|' :: sprintf_d (guesses.foldl apply_guess (hangman_init entry)).numGuesses ++
          '|' :: c_string (guesses.foldl apply_guess (hangman_init entry)).clientWord ++
          ['|', game_status_indicator (guesses.foldl apply_guess (hangman_init entry))] ∧
    strtok_fields (game_update_message (guesses.foldl apply_guess (hangman_init entry))
        (game_status_indicator (guesses.foldl apply_guess (hangman_init entry)))).data []
      = [c_string (guesses.foldl apply_guess (hangman_init entry)).guessedLetters,
         sprintf_d (guesses.foldl apply_guess (hangman_init entry)).numGuesses,
         c_string (guesses.foldl apply_guess (hangman_init entry)).clientWord,
         [game_status_indicator (guesses.foldl apply_guess (hangman_init entry))]] ∧
    (game_status_indicator (guesses.foldl apply_guess (hangman_init entry)) = 'O' ∨
      game_status_indicator (guesses.foldl apply_guess (hangman_init entry)) = 'W' ∨
      game_status_indicator (guesses.foldl apply_guess (hangman_init entry)) = 'L') ∧
    (game_status_indicator (guesses.foldl apply_guess (hangman_init entry)) = 'O' ↔
      (guesses.foldl apply_guess (hangman_init entry)).gameWon = false ∧
      (guesses.foldl apply_guess (hangman_init entry)).numGuesses ≠ 0) := by
  obtain ⟨h1, ⟨c0, rest0, h2, h2'⟩, h3, h4⟩ :=
    foldl_apply_guess_fields guesses hg (hangman_init entry) (hangman_init_fields entry)
  generalize guesses.foldl apply_guess (hangman_init entry) = s at h1 h2 h3 h4
  have hst : game_status_indicator s = 'O' ∨ game_status_indicator s = 'W' ∨
      game_status_indicator s = 'L' := by
    unfold game_status_indicator
    split_ifs
    · exact Or.inr (Or.inl rfl)
    · exact Or.inr (Or.inr rfl)
    · exact Or.inl rfl
  have hstbar : game_status_indicator s ≠ '|' := by
    rcases hst with h | h | h <;> rw [h] <;> decide
  refine ⟨rfl, ?_, hst, game_status_ongoing_iff s⟩
  obtain ⟨cm, restm, hm⟩ := List.exists_cons_of_ne_nil h4
  have hcm : cm ≠ '\x00' := (h3 cm (by rw [hm]; exact List.mem_cons_self _ _)).2
  exact strtok_fields_four _ _ _ _
    (fun x hx => h1 x (c_string_subset _ x hx))
    (by rw [h2]; exact c_string_ne_nil c0 rest0 h2')
    (sprintf_d_tokens s.numGuesses).2 (sprintf_d_tokens s.numGuesses).1
    (fun x hx => (h3 x (c_string_subset _ x hx)).1)
    (by rw [hm]; exact c_string_ne_nil cm restm hcm)
    hstbar

/-- C19 as amended, on "animal dog" after the guesses `d` and `x`. -/
theorem update_message_fields_witness :
    strtok_fields (game_update_message (['d', 'x'].foldl apply_guess (hangman_init animal_dog))
        (game_status_indicator (['d', 'x'].foldl apply_guess (hangman_init animal_dog)))).data []
      = [c_string (['d', 'x'].foldl apply_guess (hangman_init animal_dog)).guessedLetters,
         sprintf_d (['d', 'x'].foldl apply_guess (hangman_init animal_dog)).numGuesses,
         c_string (['d', 'x'].foldl apply_guess (hangman_init animal_dog)).clientWord,
         [game_status_indicator (['d', 'x'].foldl apply_guess (hangman_init animal_dog))]] :=
  (update_message_fields animal_dog ['d', 'x'] (by decide)).2.1

/-! ## Game, leaderboard and menu in one session -/

/-- How the game loop is left: by `return false` only in the status `'O'`, after
a receive that failed; otherwise with `gameOver` set, in the status `'W'` or
`'L'`.  It never hands back more receive results than it was given. -/
theorem play_hangman_loop_result (incoming : List (Option String)) (s : GameState)
    (sent : List String) :
    ((play_hangman_loop incoming s sent).1 = false →
      game_status_indicator (play_hangman_loop incoming s sent).2.1 = 'O') ∧
    ((play_hangman_loop incoming s sent).1 = true →
      (play_hangman_loop incoming s sent).2.1.gameOver = true ∧
      (game_status_indicator (play_hangman_loop incoming s sent).2.1 = 'W' ∨
        game_status_indicator (play_hangman_loop incoming s sent).2.1 = 'L')) ∧
    (play_hangman_loop incoming s sent).2.2.2.length ≤ incoming.length := by
  have hWL : ∀ s : GameState, ¬ game_status_indicator s = 'O' →
      game_status_indicator { s with gameOver := true } = 'W' ∨
        game_status_indicator { s with gameOver := true } = 'L' := by
    intro s hO
    have h1 : game_status_indicator { s with gameOver := true } = game_status_indicator s := rfl
    rw [h1, game_status_won_iff, game_status_lost_iff]
    rw [game_status_ongoing_iff] at hO
    cases hw : s.gameWon
    · right
      refine ⟨?_, rfl⟩
      by_contra h0
      exact hO ⟨hw, h0⟩
    · exact Or.inl rfl
  induction incoming generalizing s sent with
  | nil =>
    by_cases hO : game_status_indicator s = 'O'
    · have hrun : play_hangman_loop [] s sent
          = (false, s, sent ++ [game_update_message s (game_status_indicator s)], []) := by
        simp only [play_hangman_loop, hO, if_true]
      rw [hrun]
      exact ⟨fun _ => hO, fun h => Bool.noConfusion h, le_refl _⟩
    · have hrun : play_hangman_loop [] s sent
          = (true, { s with gameOver := true },
              sent ++ [game_update_message s (game_status_indicator s)], []) := by
        simp only [play_hangman_loop, hO, if_false]
      rw [hrun]
      exact ⟨fun h => Bool.noConfusion h, fun _ => ⟨rfl, hWL s hO⟩, le_refl _⟩
  | cons received rest ih =>
    by_cases hO : game_status_indicator s = 'O'
    · cases received with
      | none =>
        have hrun : play_hangman_loop (none :: rest) s sent
            = (false, s, sent ++ [game_update_message s (game_status_indicator s)], rest) := by
          simp only [play_hangman_loop, hO, if_true]
        rw [hrun]
        exact ⟨fun _ => hO, fun h => Bool.noConfusion h, Nat.le_succ _⟩
      | some receivedMessage =>
        have hstep : play_hangman_loop (some receivedMessage :: rest) s sent
            = play_hangman_loop rest (apply_guess s (first_char receivedMessage))
                (sent ++ [game_update_message s (game_status_indicator s)]) := by
          simp only [play_hangman_loop, hO, if_true]
        rw [hstep]
        obtain ⟨h1, h2, h3⟩ := ih (apply_guess s (first_char receivedMessage))
          (sent ++ [game_update_message s (game_status_indicator s)])
        exact ⟨h1, h2, Nat.le_succ_of_le h3⟩
    · have hrun : play_hangman_loop (received :: rest) s sent
          = (true, { s with gameOver := true },
              sent ++ [game_update_message s (game_status_indicator s)], received :: rest) := by
        simp only [play_hangman_loop, hO, if_false]
      rw [hrun]
      exact ⟨fun h => Bool.noConfusion h, fun _ => ⟨rfl, hWL s hO⟩, le_refl _⟩

/-- The function `play_hangman` on the corpus entry that `rand()` selects, by
the way the game loop is left. -/
theorem play_hangman_cases (hangmanWords : List hangman_word_t) (ss : Session)
    (item : hangman_word_t) (hne : hangmanWords.length ≠ 0)
    (hw : hangmanWords[ss.randoms.headD 0 % hangmanWords.length]? = some item)
    (ok : Bool) (s : GameState) (sent : List String) (incoming : List (Option String))
    (hrun : play_hangman_loop ss.incoming (hangman_init item) ss.sent
      = (ok, s, sent, incoming)) :
    (ok = false →
      play_hangman hangmanWords ss =
        some (false, { ss with incoming := incoming, sent := sent,
                               randoms := ss.randoms.tail })) ∧
    (ok = true → ∀ currentUser, ss.loggedInUser = some currentUser →
      play_hangman hangmanWords ss =
        some (true, { ss with incoming := incoming, sent := sent,
                              randoms := ss.randoms.tail,
                              leaderboard := update_leaderboard ss.leaderboard currentUser
                                s.gameWon })) ∧
    (ok = true → ss.loggedInUser = none → play_hangman hangmanWords ss = none) := by
  refine ⟨?_, ?_, ?_⟩
  · intro hok
    subst hok
    unfold play_hangman
    rw [if_neg hne, hw]
    simp only [hrun]
  · intro hok u hu
    subst hok
    unfold play_hangman
    rw [if_neg hne, hw]
    simp only [hrun, hu]
  · intro hok hu
    subst hok
    unfold play_hangman
    rw [if_neg hne, hw]
    simp only [hrun, hu]

theorem play_hangman_incoming_le (hangmanWords : List hangman_word_t) (ss : Session)
    (b : Bool) (ss' : Session) (h : play_hangman hangmanWords ss = some (b, ss')) :
    ss'.incoming.length ≤ ss.incoming.length := by
  by_cases hne : hangmanWords.length = 0
  · unfold play_hangman at h
    rw [if_pos hne] at h
    cases h
  · cases hw : hangmanWords[ss.randoms.headD 0 % hangmanWords.length]? with
    | none =>
      unfold play_hangman at h
      rw [if_neg hne, hw] at h
      cases h
    | some item =>
      have hlen := (play_hangman_loop_result ss.incoming (hangman_init item) ss.sent).2.2
      rcases hr : play_hangman_loop ss.incoming (hangman_init item) ss.sent with
        ⟨ok, s, sent, incoming⟩
      rw [hr] at hlen
      obtain ⟨c1, c2, c3⟩ := play_hangman_cases hangmanWords ss item hne hw ok s sent incoming hr
      cases ok with
      | false =>
        rw [c1 rfl] at h
        injection h with h
        injection h with _ h
        rw [← h]
        exact hlen
      | true =>
        cases hu : ss.loggedInUser with
        | none => rw [c3 rfl hu] at h; cases h
        | some u =>
          rw [c2 rfl u hu] at h
          injection h with h
          injection h with _ h
          rw [← h]
          exact hlen

theorem send_leaderboard_items_incoming_le (n : Nat) (items : List leaderboard_item_t) :
    ∀ (ss : Session) (b : Bool) (ss' : Session),
      send_leaderboard_items n items ss = some (b, ss') →
      ss'.incoming.length ≤ ss.incoming.length := by
  induction n generalizing items with
  | zero =>
    intro ss b ss' h
    simp only [send_leaderboard_items] at h
    injection h with h
    injection h with _ h
    rw [h]
  | succ n ih =>
    intro ss b ss' h
    cases items with
    | nil => simp only [send_leaderboard_items] at h; cases h
    | cons item items =>
      simp only [send_leaderboard_items, receive_client_message, send_client_message] at h
      cases hin : ss.incoming with
      | nil =>
        rw [hin] at h
        simp only at h
        injection h with h
        injection h with _ h
        rw [← h]
      | cons r rest =>
        rw [hin] at h
        cases r with
        | none =>
          simp only at h
          injection h with h
          injection h with _ h
          rw [← h]
          simp
        | some ack =>
          simp only at h
          have := ih items _ b ss' h
          simp only at this
          exact Nat.le_succ_of_le this

theorem send_leaderboard_incoming_le (ss : Session) (b : Bool) (ss' : Session)
    (h : send_leaderboard ss = some (b, ss')) :
    ss'.incoming.length ≤ ss.incoming.length := by
  simp only [send_leaderboard, receive_client_message, send_client_message] at h
  cases hin : ss.incoming with
  | nil =>
    rw [hin] at h
    simp only at h
    injection h with h
    injection h with _ h
    rw [← h]
  | cons r rest =>
    rw [hin] at h
    cases r with
    | none =>
      simp only at h
      injection h with h
      injection h with _ h
      rw [← h]
      simp
    | some ack =>
      simp only at h
      cases hitems : send_leaderboard_items ss.leaderboard.numLeaderboardItems.toNat
          ss.leaderboard.leaderboardItems
          { incoming := rest,
            sent := ss.sent ++ [String.mk (sprintf_d ss.leaderboard.numLeaderboardItems)],
            leaderboard := ss.leaderboard, loggedInUser := ss.loggedInUser,
            randoms := ss.randoms } with
      | none => rw [hitems] at h; cases h
      | some r2 =>
        obtain ⟨b2, ss2⟩ := r2
        have hle := send_leaderboard_items_incoming_le _ _ _ b2 ss2 hitems
        simp only at hle
        rw [hitems] at h
        cases b2 with
        | false =>
          simp only at h
          injection h with h
          injection h with _ h
          rw [← h]
          exact Nat.le_succ_of_le hle
        | true =>
          simp only at h
          injection h with h
          injection h with _ h
          rw [← h]
          exact Nat.le_succ_of_le hle

/-- The bound on the rounds of the menu loop does not matter once it exceeds
the number of pending receive results. -/
theorem main_menu_loop_fuel (hangmanWords : List hangman_word_t) (fuel1 : Nat) :
    ∀ (fuel2 : Nat) (ss : Session),
      ss.incoming.length < fuel1 → ss.incoming.length < fuel2 →
      main_menu_loop hangmanWords fuel1 ss = main_menu_loop hangmanWords fuel2 ss := by
  induction fuel1 with
  | zero => intro fuel2 ss h1; omega
  | succ fuel1 ih =>
    intro fuel2 ss h1 h2
    cases fuel2 with
    | zero => omega
    | succ fuel2 =>
      rw [main_menu_loop, main_menu_loop]
      cases hin : ss.incoming with
      | nil => simp only [receive_client_message, hin]
      | cons r rest =>
        rw [hin] at h1 h2
        simp only [List.length_cons] at h1 h2
        cases r with
        | none => simp only [receive_client_message, hin]
        | some selection =>
          simp only [receive_client_message, hin]
          by_cases hs1 : first_char selection = '1'
          · rw [if_pos hs1, if_pos hs1]
            cases hp : play_hangman hangmanWords { ss with incoming := rest } with
            | none => rfl
            | some r =>
              obtain ⟨b, ss2⟩ := r
              have hle := play_hangman_incoming_le _ _ _ _ hp
              simp only at hle
              cases b with
              | false => rfl
              | true => exact ih fuel2 ss2 (by omega) (by omega)
          · rw [if_neg hs1, if_neg hs1]
            by_cases hs2 : first_char selection = '2'
            · rw [if_pos hs2, if_pos hs2]
              cases hp : send_leaderboard { ss with incoming := rest } with
              | none => rfl
              | some r =>
                obtain ⟨b, ss2⟩ := r
                have hle := send_leaderboard_incoming_le _ _ _ hp
                simp only at hle
                cases b with
                | false => rfl
                | true => exact ih fuel2 ss2 (by omega) (by omega)
            · rw [if_neg hs2, if_neg hs2]

/-- C21: a game that reaches a terminal outcome (the game loop is left with
`gameOver` set, the status being `'W'` or `'L'`) is followed by exactly one call
of `update_leaderboard`, for the username bound to the session, with
`gameWon = true` exactly when the status is `'W'` and `false` exactly when it is
`'L'`: the leaderboard afterwards is `update_leaderboard` applied once to the
leaderboard before, so the sum of `totalGames` grows by one.  `play_hangman`
returns `true`, and `main_menu` goes on as `main_menu` does from the session
state after the game. -/
theorem finished_game_recorded_once (hangmanWords : List hangman_word_t) (ss : Session)
    (selection : String) (rest : List (Option String)) (item : hangman_word_t)
    (currentUser : String) (s : GameState) (sent : List String)
    (remaining : List (Option String))
    (hin : ss.incoming = some selection :: rest)
    (hsel : first_char selection = '1')
    (huser : ss.loggedInUser = some currentUser)
    (hne : hangmanWords.length ≠ 0)
    (hw : hangmanWords[ss.randoms.headD 0 % hangmanWords.length]? = some item)
    (hrun : play_hangman_loop rest (hangman_init item) ss.sent = (true, s, sent, remaining)) :
    play_hangman hangmanWords { ss with incoming := rest } =
      some (true, { ss with incoming := remaining, sent := sent, randoms := ss.randoms.tail,
                            leaderboard := update_leaderboard ss.leaderboard currentUser
                              s.gameWon }) ∧
    (game_status_indicator s = 'W' ∨ game_status_indicator s = 'L') ∧
    (s.gameWon = true ↔ game_status_indicator s = 'W') ∧
    (s.gameWon = false ↔ game_status_indicator s = 'L') ∧
    ((update_leaderboard ss.leaderboard currentUser s.gameWon).leaderboardItems.map
        (·.totalGames)).sum
      = (ss.leaderboard.leaderboardItems.map (·.totalGames)).sum + 1 ∧
    main_menu hangmanWords ss =
      main_menu hangmanWords
        { ss with incoming := remaining, sent := sent, randoms := ss.randoms.tail,
                  leaderboard := update_leaderboard ss.leaderboard currentUser s.gameWon } := by
  have hres := play_hangman_loop_result rest (hangman_init item) ss.sent
  rw [hrun] at hres
  obtain ⟨_, h2, h3⟩ := hres
  obtain ⟨_, hWL⟩ := h2 rfl
  have hplay := (play_hangman_cases hangmanWords { ss with incoming := rest } item hne hw true s
    sent remaining hrun).2.1 rfl currentUser huser
  refine ⟨hplay, hWL, (game_status_won_iff s).symm, ?_, update_leaderboard_sum _ _ _, ?_⟩
  · constructor
    · intro hf
      rcases hWL with h | h
      · rw [game_status_won_iff, hf] at h
        exact Bool.noConfusion h
      · exact h
    · intro hL
      exact ((game_status_lost_iff s).mp hL).2
  · rw [main_menu_round hangmanWords ss selection rest hin, if_pos hsel, hplay]
    exact main_menu_loop_fuel hangmanWords _ _ _ (Nat.lt_succ_of_le h3) (Nat.lt_succ_self _)

/-- C21 on a game of "alice" on the phrase "a b" that the guesses `a`, `b` win. -/
theorem finished_game_recorded_once_witness :
    play_hangman [corpus_entry "a" "b"]
        { (⟨[some "1", some "a", some "b", some "3"], ["true"], Leaderboard.empty,
            some "alice", []⟩ : Session) with incoming := [some "a", some "b", some "3"] } =
      some (true,
        { (⟨[some "1", some "a", some "b", some "3"], ["true"], Leaderboard.empty,
            some "alice", []⟩ : Session) with
          incoming := [some "3"],
          sent := ["true", " |12|_ _|O", "a|11|a _|O", "ab|10|a b|W"],
          randoms := ([] : List Nat).tail,
          leaderboard := update_leaderboard Leaderboard.empty "alice"
            ({ apply_guess (apply_guess (hangman_init (corpus_entry "a" "b")) 'a') 'b' with
                gameOver := true } : GameState).gameWon }) :=
  (finished_game_recorded_once [corpus_entry "a" "b"]
    ⟨[some "1", some "a", some "b", some "3"], ["true"], Leaderboard.empty, some "alice", []⟩
    "1" [some "a", some "b", some "3"] (corpus_entry "a" "b") "alice"
    { apply_guess (apply_guess (hangman_init (corpus_entry "a" "b")) 'a') 'b' with
        gameOver := true }
    ["true", " |12|_ _|O", "a|11|a _|O", "ab|10|a b|W"] [some "3"]
    rfl (by decide) rfl (by decide) (by decide) (by decide)).1

theorem getD_eq_iff_getElem? (l : List Char) (j : Nat) (c : Char) (hj : j < l.length) :
    l.getD j '\x00' = c ↔ l[j]? = some c := by
  rw [List.getD_eq_getElem?_getD, List.getElem?_eq_getElem hj]
  simp

/-- The mask invariant is kept by a guess, and a guess that sets `gameWon`
leaves the mask equal to the phrase. -/
theorem apply_guess_mask_inv (s : GameState) (guess : Char)
    (hlen : s.hangmanWordLength = s.hangmanWord.length)
    (hmask : s.clientWord.length = s.hangmanWord.length)
    (hinv : ∀ j, j < s.hangmanWord.length →
      s.clientWord[j]? = some '_' ∨ s.clientWord[j]? = s.hangmanWord[j]?) :
    (∀ j, j < s.hangmanWord.length →
      (apply_guess s guess).clientWord[j]? = some '_' ∨
      (apply_guess s guess).clientWord[j]? = s.hangmanWord[j]?) ∧
    (∀ j, j < s.hangmanWord.length → s.clientWord[j]? = s.hangmanWord[j]? →
      (apply_guess s guess).clientWord[j]? = s.hangmanWord[j]?) ∧
    ((apply_guess s guess).gameWon = true → (apply_guess s guess).clientWord = s.hangmanWord) := by
  have hm : ∀ j, j < s.hangmanWord.length →
      (apply_guess s guess).clientWord[j]?
        = if s.hangmanWord[j]? = some guess then some guess else s.clientWord[j]? := by
    intro j hj
    rw [apply_guess_mask]
    by_cases hg : s.hangmanWord[j]? = some guess
    · rw [if_pos ⟨by omega, by omega, (getD_eq_iff_getElem? _ _ _ hj).mpr hg⟩, if_pos hg]
    · rw [if_neg (fun h => hg ((getD_eq_iff_getElem? _ _ _ hj).mp h.2.2)), if_neg hg]
  refine ⟨?_, ?_, ?_⟩
  · intro j hj
    rw [hm j hj]
    by_cases hg : s.hangmanWord[j]? = some guess
    · rw [if_pos hg]; exact Or.inr hg.symm
    · rw [if_neg hg]; exact hinv j hj
  · intro j hj hrev
    rw [hm j hj]
    by_cases hg : s.hangmanWord[j]? = some guess
    · rw [if_pos hg]; exact hg.symm
    · rw [if_neg hg]; exact hrev
  · intro hwon
    rw [apply_guess_won] at hwon
    apply List.ext_getElem?
    intro j
    by_cases hj : j < s.hangmanWord.length
    · rw [hm j hj]
      by_cases hg : s.hangmanWord[j]? = some guess
      · rw [if_pos hg]; exact hg.symm
      · rw [if_neg hg]
        rcases hwon j (by omega) with h | h
        · exact absurd ((getD_eq_iff_getElem? _ _ _ hj).mp h) hg
        · rcases hinv j hj with h1 | h1
          · exfalso
            apply h
            rw [List.getD_eq_getElem?_getD, h1]
            rfl
          · exact h1
    · rw [List.getElem?_eq_none (by rw [apply_guess_mask_length]; omega),
        List.getElem?_eq_none (by omega)]

theorem hangman_init_mask_inv (entry : hangman_word_t) (j : Nat)
    (hj : j < (hangman_init entry).hangmanWord.length) :
    (hangman_init entry).clientWord[j]? = some '_' ∨
    (hangman_init entry).clientWord[j]? = (hangman_init entry).hangmanWord[j]? := by
  obtain ⟨name, type⟩ := entry
  obtain ⟨it⟩ := name
  obtain ⟨c⟩ := type
  have hlen : (c ++ [' '] ++ it).length = c.length + 1 + it.length := by
    simp only [List.length_append, List.length_singleton]
  obtain ⟨f1, f2⟩ := fill_loop_spec (List.replicate (c.length + 1 + it.length) '\x00')
    (c.length + 1 + it.length)
  rw [List.length_replicate] at f1 f2
  simp only [hangman_init, hlen] at hj ⊢
  rw [List.getElem?_set, f1, f2]
  by_cases h1 : c.length = j
  · right
    subst h1
    rw [if_pos rfl, if_pos hj, List.append_assoc,
      List.getElem?_append_right (le_refl _), Nat.sub_self]
    simp
  · left
    rw [if_neg h1, if_pos ⟨hj, hj⟩]

/-- What holds in every game state reached from the start by guesses. -/
theorem foldl_apply_guess_mask_inv (entry : hangman_word_t) (guesses : List Char) :
    (guesses.foldl apply_guess (hangman_init entry)).hangmanWord
      = (hangman_init entry).hangmanWord ∧
    (guesses.foldl apply_guess (hangman_init entry)).hangmanWordLength
      = (hangman_init entry).hangmanWord.length ∧
    (guesses.foldl apply_guess (hangman_init entry)).clientWord.length
      = (hangman_init entry).hangmanWord.length ∧
    (∀ j, j < (hangman_init entry).hangmanWord.length →
      (guesses.foldl apply_guess (hangman_init entry)).clientWord[j]? = some '_' ∨
      (guesses.foldl apply_guess (hangman_init entry)).clientWord[j]?
        = (hangman_init entry).hangmanWord[j]?) ∧
    ((guesses.foldl apply_guess (hangman_init entry)).gameWon = true →
      (guesses.foldl apply_guess (hangman_init entry)).clientWord
        = (hangman_init entry).hangmanWord) := by
  induction guesses using List.reverseRecOn with
  | nil =>
    obtain ⟨g1, g2, _, _⟩ := hangman_init_shape entry
    refine ⟨rfl, g1, g2, hangman_init_mask_inv entry, ?_⟩
    intro h
    exact Bool.noConfusion ((hangman_init_numGuesses entry).2.2 ▸ h)
  | append_singleton guesses g ih =>
    obtain ⟨h1, h2, h3, h4, _⟩ := ih
    rw [List.foldl_append, List.foldl_cons, List.foldl_nil]
    generalize guesses.foldl apply_guess (hangman_init entry) = s at h1 h2 h3 h4
    obtain ⟨k1, _, k3⟩ := apply_guess_mask_inv s g (by rw [h2, h1]) (by rw [h3, h1])
      (by rw [h1]; exact h4)
    refine ⟨h1, h2, by rw [apply_guess_mask_length, h3], ?_, ?_⟩
    · intro j hj
      have := k1 j (by rw [h1]; exact hj)
      rw [h1] at this
      exact this
    · intro hwon
      rw [k3 hwon, h1]

/-- C26: in every game state reached from the start of a game by guesses, each
position of the mask holds the placeholder `'_'` or the character of the phrase
at that position, and the mask has the length of the phrase; a position that
holds the character of the phrase still holds it after any further guess
(it is not masked again and not overwritten); and whenever `gameWon` is set,
that is when the status is `'W'`, the mask is equal to the phrase. -/
theorem mask_shows_placeholder_or_phrase (entry : hangman_word_t) (guesses : List Char) :
    (guesses.foldl apply_guess (hangman_init entry)).hangmanWord
      = (hangman_init entry).hangmanWord ∧
    (guesses.foldl apply_guess (hangman_init entry)).clientWord.length
      = (hangman_init entry).hangmanWord.length ∧
    (∀ j, j < (hangman_init entry).hangmanWord.length →
      (guesses.foldl apply_guess (hangman_init entry)).clientWord[j]? = some '_' ∨
      (guesses.foldl apply_guess (hangman_init entry)).clientWord[j]?
        = (hangman_init entry).hangmanWord[j]?) ∧
    (∀ (guess : Char) (j : Nat), j < (hangman_init entry).hangmanWord.length →
      (guesses.foldl apply_guess (hangman_init entry)).clientWord[j]?
        = (hangman_init entry).hangmanWord[j]? →
      (apply_guess (guesses.foldl apply_guess (hangman_init entry)) guess).clientWord[j]?
        = (hangman_init entry).hangmanWord[j]?) ∧
    (game_status_indicator (guesses.foldl apply_guess (hangman_init entry)) = 'W' →
      (guesses.foldl apply_guess (hangman_init entry)).clientWord
        = (hangman_init entry).hangmanWord) := by
  obtain ⟨h1, h2, h3, h4, h5⟩ := foldl_apply_guess_mask_inv entry guesses
  refine ⟨h1, h3, h4, ?_, fun h => h5 ((game_status_won_iff _).mp h)⟩
  intro guess j hj hrev
  generalize guesses.foldl apply_guess (hangman_init entry) = s at h1 h2 h3 h4 hrev
  have := (apply_guess_mask_inv s guess (by rw [h2, h1]) (by rw [h3, h1])
    (by rw [h1]; exact h4)).2.1 j (by rw [h1]; exact hj) (by rw [h1]; exact hrev)
  rw [h1] at this
  exact this

set_option maxRecDepth 1000000 in
theorem hippopotamus_run_a :
    (hangman_init animal_hippopotamus).hangmanWord.length = 19 ∧
    (hangman_init animal_hippopotamus).numGuesses = 26 ∧
    (hangman_init animal_hippopotamus).guessedLetters.length = MAX_NUM_GUESSES := by
  decide

set_option maxRecDepth 1000000 in
theorem hippopotamus_run_b :
    (play_hangman_loop ((List.replicate 25 "z").map some)
        (hangman_init animal_hippopotamus) []).1 = false ∧
    game_status_indicator (play_hangman_loop ((List.replicate 25 "z").map some)
        (hangman_init animal_hippopotamus) []).2.1 = 'O' ∧
    (play_hangman_loop ((List.replicate 25 "z").map some)
        (hangman_init animal_hippopotamus) []).2.1.i = 25 := by
  decide

set_option maxRecDepth 1000000 in
theorem hippopotamus_run_c :
    (play_hangman_loop ((List.replicate 25 "z").map some)
        (hangman_init animal_hippopotamus) []).2.1.guessedLetters.length = MAX_NUM_GUESSES := by
  decide

set_option maxRecDepth 1000000 in
theorem hippopotamus_run_d :
    (play_hangman_loop ((List.replicate 26 "z").map some)
        (hangman_init animal_hippopotamus) []).2.1.i = 26 ∧
    game_status_indicator (play_hangman_loop ((List.replicate 26 "z").map some)
        (hangman_init animal_hippopotamus) []).2.1 = 'L' := by
  decide

/-- C23, evaluated on the code.  The phrase "animal hippopotamus" has 19
characters, so the game starts with `MAX_NUM_GUESSES` = 26 attempts and a
guessed-letters buffer of 26 characters (indices 0 to 25).  After 25 guesses
"z" the loop is still waiting for a guess: the game is ongoing with `i` = 25
and a buffer of 26 characters, so the writes of the next guess go to the
indices 25 and 26, and the index 26 of the string terminator is not below
`MAX_NUM_GUESSES`.  The loop does take that 26th guess: with 26 guesses "z" it
ends lost with `i` = 26. -/
theorem guess_terminator_past_buffer :
    (hangman_init animal_hippopotamus).numGuesses = 26 ∧
    (hangman_init animal_hippopotamus).guessedLetters.length = MAX_NUM_GUESSES ∧
    (play_hangman_loop ((List.replicate 25 "z").map some)
        (hangman_init animal_hippopotamus) []).1 = false ∧
    game_status_indicator (play_hangman_loop ((List.replicate 25 "z").map some)
        (hangman_init animal_hippopotamus) []).2.1 = 'O' ∧
    (play_hangman_loop ((List.replicate 25 "z").map some)
        (hangman_init animal_hippopotamus) []).2.1.guessedLetters.length = MAX_NUM_GUESSES ∧
    guess_write_indices (play_hangman_loop ((List.replicate 25 "z").map some)
        (hangman_init animal_hippopotamus) []).2.1 = [25, 26] ∧
    ¬ (∀ k ∈ guess_write_indices (play_hangman_loop ((List.replicate 25 "z").map some)
        (hangman_init animal_hippopotamus) []).2.1, k < MAX_NUM_GUESSES) ∧
    (play_hangman_loop ((List.replicate 26 "z").map some)
        (hangman_init animal_hippopotamus) []).2.1.i = 26 ∧
    game_status_indicator (play_hangman_loop ((List.replicate 26 "z").map some)
        (hangman_init animal_hippopotamus) []).2.1 = 'L' := by
  obtain ⟨_, a2, a3⟩ := hippopotamus_run_a
  obtain ⟨b1, b2, b3⟩ := hippopotamus_run_b
  obtain ⟨d1, d2⟩ := hippopotamus_run_d
  have hw : guess_write_indices (play_hangman_loop ((List.replicate 25 "z").map some)
      (hangman_init animal_hippopotamus) []).2.1 = [25, 26] := by
    rw [guess_write_indices, b3]
  refine ⟨a2, a3, b1, b2, hippopotamus_run_c, hw, ?_, d1, d2⟩
  rw [hw]
  decide

/-! ## Shutdown: the loop of `close_sockets` over the queued requests -/

/-- With no queued request `close_sockets` returns after closing the listening
socket and the worker connections; with one queued request it also closes that
request's connection, once. -/
theorem close_sockets_short_queue (server : Int) (clients : List Int) (q : RequestQueue) :
    (queue_chain q.heap q.requests [] →
      ∀ fuel, close_sockets server clients q fuel = some (close_connections server clients)) ∧
    (∀ a d, queue_chain q.heap q.requests [(a, d)] →
      ∀ fuel, close_sockets server clients q (fuel + 1)
        = some (close_connections server clients ++ [d.1])) := by
  constructor
  · intro h fuel
    have h0 : q.requests = none := h
    cases fuel with
    | zero => simp only [close_sockets, close_sockets_loop, h0, if_true]
    | succ n => simp only [close_sockets, close_sockets_loop, h0, if_true]
  · intro a d h fuel
    obtain ⟨hp, node, hnode, hd, hnext⟩ := h
    have hnext0 : node.next = none := hnext
    have hfd : node.fileDescriptor = d.1 := by rw [← hd]
    cases fuel with
    | zero => simp only [close_sockets, close_sockets_loop, hp, hnode, hnext0, hfd, if_true]
    | succ n => simp only [close_sockets, close_sockets_loop, hp, hnode, hnext0, hfd, if_true]

/-- Once `currentRequest` is the second node of the queue it stays there: each
further iteration closes the second node's descriptor again. -/
theorem close_sockets_loop_second (q : RequestQueue) (a b : Nat) (n1 n2 : request_t)
    (hreq : q.requests = some a) (ha : q.heap a = some n1) (hnext : n1.next = some b)
    (hb : q.heap b = some n2) (n : Nat) (closed : List Int) :
    close_sockets_loop q n { currentRequest := some b, closed := closed }
      = some { currentRequest := some b,
               closed := closed ++ List.replicate n n2.fileDescriptor } := by
  induction n generalizing closed with
  | zero => simp [close_sockets_loop]
  | succ n ih =>
    rw [close_sockets_loop]
    simp only [hb, hreq, ha, hnext]
    rw [ih]
    simp [List.replicate_succ]

theorem close_sockets_loop_first (q : RequestQueue) (a b : Nat) (n1 n2 : request_t)
    (hreq : q.requests = some a) (ha : q.heap a = some n1) (hnext : n1.next = some b)
    (hb : q.heap b = some n2) (n : Nat) (closed : List Int) :
    close_sockets_loop q (n + 1) { currentRequest := some a, closed := closed }
      = some { currentRequest := some b,
               closed := closed ++ n1.fileDescriptor :: List.replicate n n2.fileDescriptor } := by
  rw [close_sockets_loop]
  simp only [ha, hreq, hnext]
  rw [close_sockets_loop_second q a b n1 n2 hreq ha hnext hb]
  simp

/-- C22, evaluated on the code.  For a queue whose chain of pending requests
starts with two requests (descriptors `d1.1` and `d2.1`) followed by any
others: after `n + 1` iterations of the loop of `close_sockets`, for every
`n`, `currentRequest` is the second request again, not `NULL`, and what has
been closed after the listening socket and the worker connections is the first
request's connection once and the second request's connection `n` times, none
of the later ones; so for no number of iterations does `close_sockets` return. -/
theorem close_sockets_stuck_on_second_request (server : Int) (clients : List Int)
    (q : RequestQueue) (a b : Nat) (d1 d2 : RequestData) (rest : List (Nat × RequestData))
    (hchain : queue_chain q.heap q.requests ((a, d1) :: (b, d2) :: rest)) :
    (∀ n, close_sockets_loop q (n + 1)
        { currentRequest := q.requests, closed := close_connections server clients }
      = some { currentRequest := some b,
               closed := close_connections server clients ++ d1.1 :: List.replicate n d2.1 }) ∧
    (∀ fuel, close_sockets server clients q fuel = none) := by
  obtain ⟨hp, n1, hn1, hd1, hrest⟩ := hchain
  obtain ⟨hp2, n2, hn2, hd2, _⟩ := hrest
  have hfd1 : n1.fileDescriptor = d1.1 := by rw [← hd1]
  have hfd2 : n2.fileDescriptor = d2.1 := by rw [← hd2]
  have hloop : ∀ n, close_sockets_loop q (n + 1)
        { currentRequest := q.requests, closed := close_connections server clients }
      = some { currentRequest := some b,
               closed := close_connections server clients ++ d1.1 :: List.replicate n d2.1 } := by
    intro n
    rw [hp, close_sockets_loop_first q a b n1 n2 hp hn1 hp2 hn2, hfd1, hfd2]
  refine ⟨hloop, ?_⟩
  intro fuel
  cases fuel with
  | zero => simp [close_sockets, close_sockets_loop, hp]
  | succ n =>
    rw [close_sockets, hloop n]
    simp

theorem close_sockets_stuck_on_second_request_witness :
    ∃ q, run_queue RequestQueue.empty [QueueOp.enqueue 4 0 0, QueueOp.enqueue 5 0 0]
        = some (q, []) ∧
      queue_chain q.heap q.requests [(0, (4, 0, 0)), (1, (5, 0, 0))] ∧
      (∀ n, close_sockets_loop q (n + 1)
          { currentRequest := q.requests, closed := close_connections 3 [] }
        = some { currentRequest := some 1,
                 closed := close_connections 3 [] ++ 4 :: List.replicate n 5 }) ∧
      (∀ fuel, close_sockets 3 [] q fuel = none) := by
  obtain ⟨q1, h1, inv1⟩ := add_request_inv RequestQueue.empty [] queue_inv_empty 4 0 0
  obtain ⟨q2, h2, inv2⟩ := add_request_inv q1 _ inv1 5 0 0
  have hfree : q1.nextFree = 1 := by
    simp only [add_request, RequestQueue.empty, if_true, Option.some.injEq] at h1
    rw [← h1]
  have hchain : queue_chain q2.heap q2.requests [(0, (4, 0, 0)), (1, (5, 0, 0))] := by
    have := inv2.chain
    rw [hfree] at this
    exact this
  exact ⟨q2, by simp only [run_queue, h1, h2], hchain,
    close_sockets_stuck_on_second_request 3 [] q2 0 1 (4, 0, 0) (5, 0, 0) [] hchain⟩

/-! ## A win keeps the leaderboard sorted -/

theorem reinsert_from_head_eq (l1 l2 : List leaderboard_item_t) (x : leaderboard_item_t)
    (h1 : ∀ a ∈ l1, compare_leaderboard_items a x < 0)
    (h2 : ∀ b ∈ l2.head?, ¬ compare_leaderboard_items b x < 0) :
    reinsert_from_head (l1 ++ l2) x = l1 ++ x :: l2 := by
  induction l1 with
  | nil =>
    cases l2 with
    | nil => rfl
    | cons b l2 =>
      have hb : ¬ compare_leaderboard_items b x < 0 := h2 b rfl
      simp only [List.nil_append, reinsert_from_head, hb, if_false]
  | cons a l1 ih =>
    have ha : compare_leaderboard_items a x < 0 := h1 a (List.mem_cons_self _ _)
    have ih2 := ih (fun c hc => h1 c (List.mem_cons_of_mem _ hc))
    rw [List.cons_append, reinsert_from_head, if_pos ha, ih2]
    rfl

/-- The scan of `update_leaderboard_item`: the updated item ends up behind the
items of `after` that rank before it and in front of the first that does not. -/
theorem update_leaderboard_item_scan (b : List leaderboard_item_t)
    (p : Option leaderboard_item_t) (item : leaderboard_item_t)
    (after : List leaderboard_item_t) (won : Bool) (hinv : p = none → b = []) :
    ∃ l1 l2, after = l1 ++ l2 ∧
      update_leaderboard_item b p item after won
        = b ++ p.toList ++ l1 ++ updated_item item won :: l2 ∧
      (∀ x ∈ l1, compare_leaderboard_items x (updated_item item won) < 0) ∧
      (∀ y ∈ l2.head?, ¬ compare_leaderboard_items y (updated_item item won) < 0) := by
  cases after with
  | nil => exact ⟨[], [], rfl, by simp [update_leaderboard_item], by simp, by simp⟩
  | cons next rest =>
    by_cases h : compare_leaderboard_items (updated_item item won) next > 0
    · have hnext : compare_leaderboard_items next (updated_item item won) < 0 :=
        (compare_antisymm_sign _ _).mp h
      cases p with
      | none =>
        obtain ⟨l1, l2, h1, h2, h3, h4⟩ :=
          insert_at_correct_pos_shape next rest (updated_item item won)
        refine ⟨next :: l1, l2, by rw [h1]; rfl, ?_, ?_, h4⟩
        · simp only [update_leaderboard_item, h, if_true, h2, hinv rfl]
          simp
        · intro x hx
          rcases List.mem_cons.mp hx with rfl | hx
          · exact hnext
          · exact h3 x hx
      | some prev =>
        obtain ⟨l1, l2, h1, h2, h3, h4⟩ :=
          insert_at_correct_pos_shape prev (next :: rest) (updated_item item won)
        refine ⟨l1, l2, h1, ?_, h3, h4⟩
        simp only [update_leaderboard_item, h, if_true, h2]
        simp
    · refine ⟨[], next :: rest, rfl, ?_, by simp, ?_⟩
      · simp only [update_leaderboard_item, h, if_false]
        simp
      · intro y hy
        simp only [List.head?_cons, Option.mem_def, Option.some.injEq] at hy
        subst hy
        intro hlt
        exact h ((compare_antisymm_sign _ _).mpr hlt)

theorem split_at_first_unique {α : Type} (P : α → Prop) (pre pre0 : List α) (item item0 : α)
    (after after0 : List α)
    (h : pre ++ item :: after = pre0 ++ item0 :: after0)
    (h1 : ∀ x ∈ pre, ¬ P x) (h2 : P item) (h3 : ∀ x ∈ pre0, ¬ P x) (h4 : P item0) :
    pre = pre0 ∧ item = item0 ∧ after = after0 := by
  induction pre generalizing pre0 with
  | nil =>
    cases pre0 with
    | nil =>
      simp only [List.nil_append, List.cons.injEq] at h
      exact ⟨rfl, h.1, h.2⟩
    | cons y pre0 =>
      simp only [List.nil_append, List.cons_append, List.cons.injEq] at h
      exact absurd (h.1 ▸ h2) (h3 y (List.mem_cons_self _ _))
  | cons x pre ih =>
    cases pre0 with
    | nil =>
      simp only [List.nil_append, List.cons_append, List.cons.injEq] at h
      exact absurd (h.1 ▸ h4) (h1 x (List.mem_cons_self _ _))
    | cons y pre0 =>
      simp only [List.cons_append, List.cons.injEq] at h
      obtain ⟨e1, e2, e3⟩ := ih pre0 h.2 (fun z hz => h1 z (List.mem_cons_of_mem _ hz))
        (fun z hz => h3 z (List.mem_cons_of_mem _ hz))
      exact ⟨by rw [h.1, e1], e2, e3⟩

theorem compare_updated_won (item : leaderboard_item_t) :
    compare_leaderboard_items item (updated_item item true) < 0 := by
  rw [compare_neg_iff]
  left
  simp [updated_item]

/-- Where a win puts the entry of an existing user in a sorted leaderboard with
unique usernames. -/
theorem update_leaderboard_won_shape (lb : Leaderboard) (u : String)
    (hsorted : leaderboard_sorted lb.leaderboardItems)
    (hnodup : (lb.leaderboardItems.map (·.username)).Nodup)
    (pre : List leaderboard_item_t) (item : leaderboard_item_t)
    (after : List leaderboard_item_t)
    (hsplit : lb.leaderboardItems = pre ++ item :: after) (hu : item.username = u) :
    ∃ l1 l2, after = l1 ++ l2 ∧
      (update_leaderboard lb u true).leaderboardItems
        = (pre ++ l1) ++ updated_item item true :: l2 ∧
      (∀ x ∈ pre ++ l1, compare_leaderboard_items x (updated_item item true) < 0) ∧
      (∀ y ∈ l2.head?, compare_leaderboard_items (updated_item item true) y < 0) ∧
      (∀ y ∈ l2.head?, ¬ compare_leaderboard_items y (updated_item item true) < 0) := by
  rw [hsplit] at hsorted hnodup
  have hnd : ∀ x ∈ pre ++ after, x.username ≠ u := by
    intro x hx hxu
    rw [List.map_append, List.map_cons] at hnodup
    have hmid := List.nodup_middle.mp hnodup
    apply (List.nodup_cons.mp hmid).1
    rw [← List.map_append, hu, ← hxu]
    exact List.mem_map_of_mem _ hx
  obtain ⟨b, p, pre0, item0, after0, e1, e2, e3, e4, e5, e6⟩ :=
    find_leaderboard_item_present u lb.leaderboardItems
      ⟨item, by rw [hsplit]; simp, hu⟩ [] none (fun _ => rfl)
  obtain ⟨g1, g2, g3⟩ := split_at_first_unique (fun x => x.username = u) pre pre0 item item0
    after after0 (by rw [← hsplit, e2])
    (fun x hx => hnd x (List.mem_append_left _ hx)) hu e4 e3
  subst g1 g2 g3
  obtain ⟨l1, l2, f1, f2, f3, f4⟩ := update_leaderboard_item_scan b p item after true e6
  have hp := sorted_pairwise hsorted
  rw [List.pairwise_append] at hp
  refine ⟨l1, l2, f1, ?_, ?_, ?_, f4⟩
  · simp only [update_leaderboard, e1, f2, e5]
    simp
  · intro x hx
    rcases List.mem_append.mp hx with hx | hx
    · exact compare_trans (hp.2.2 x hx item (List.mem_cons_self _ _)) (compare_updated_won item)
    · exact f3 x hx
  · intro y hy
    have hy2 : y ∈ l2 := List.mem_of_mem_head? hy
    have hyu : y.username ≠ u :=
      hnd y (List.mem_append_right _ (by rw [f1]; exact List.mem_append_right _ hy2))
    apply compare_neg_of_not_neg _ (f4 y hy)
    intro e
    apply hyu
    rw [e]
    exact hu

/-- C24: for every leaderboard that is sorted per the comparator and has unique
usernames, and every username `u`, the leaderboard after
`update_leaderboard` with `gameWon = true` is sorted per the comparator.  When
`u` has an entry, the resulting list is the list without that entry with the
updated entry re-inserted by a scan from the head; when `u` has none, it is the
list with the new entry inserted by a scan from the head. -/
theorem update_leaderboard_won_sorted (lb : Leaderboard) (u : String)
    (hsorted : leaderboard_sorted lb.leaderboardItems)
    (hnodup : (lb.leaderboardItems.map (·.username)).Nodup) :
    leaderboard_sorted (update_leaderboard lb u true).leaderboardItems ∧
    (∀ pre item after, lb.leaderboardItems = pre ++ item :: after → item.username = u →
      (update_leaderboard lb u true).leaderboardItems
        = reinsert_from_head (pre ++ after) (updated_item item true)) ∧
    ((∀ x ∈ lb.leaderboardItems, x.username ≠ u) →
      (update_leaderboard lb u true).leaderboardItems
        = reinsert_from_head lb.leaderboardItems (new_leaderboard_item u true)) := by
  have hnew : (∀ x ∈ lb.leaderboardItems, x.username ≠ u) →
      leaderboard_sorted (update_leaderboard lb u true).leaderboardItems ∧
      (update_leaderboard lb u true).leaderboardItems
        = reinsert_from_head lb.leaderboardItems (new_leaderboard_item u true) := by
    intro habs
    have hupd : update_leaderboard lb u true = add_leaderboard_item lb u true := by
      rcases update_leaderboard_shape lb u true with ⟨_, h⟩ | ⟨pre, item, l1, l2, h1, h2, _⟩
      · exact h
      · exact absurd h2 (habs item (by rw [h1]; simp))
    obtain ⟨l1, l2, e1, e2, _, e4, e5⟩ := add_leaderboard_item_shape lb u true
    rw [hupd, e2]
    constructor
    · rw [e1] at hsorted
      refine (sorted_insert hsorted e4 ?_).1
      intro y hy
      have hy2 : y ∈ lb.leaderboardItems := by
        rw [e1]; exact List.mem_append_right _ (List.mem_of_mem_head? hy)
      exact compare_neg_of_not_neg (habs y hy2) (e5 y hy)
    · rw [e1, reinsert_from_head_eq l1 l2 _ e4 e5]
  have hold : ∀ pre item after, lb.leaderboardItems = pre ++ item :: after →
      item.username = u →
      leaderboard_sorted (update_leaderboard lb u true).leaderboardItems ∧
      (update_leaderboard lb u true).leaderboardItems
        = reinsert_from_head (pre ++ after) (updated_item item true) := by
    intro pre item after hsplit hu
    obtain ⟨l1, l2, f1, f2, f3, f4, f5⟩ :=
      update_leaderboard_won_shape lb u hsorted hnodup pre item after hsplit hu
    rw [f2]
    constructor
    · have hs : leaderboard_sorted ((pre ++ l1) ++ l2) := by
        apply sorted_of_pairwise
        have hp := sorted_pairwise hsorted
        rw [hsplit, f1] at hp
        refine hp.sublist ?_
        rw [List.append_assoc]
        exact List.Sublist.append_left (List.sublist_cons_self _ _) _
      exact (sorted_insert hs f3 f4).1
    · rw [f1, ← List.append_assoc, reinsert_from_head_eq (pre ++ l1) l2 _ f3 f5]
  refine ⟨?_, fun pre item after hsplit hu => (hold pre item after hsplit hu).2,
    fun habs => (hnew habs).2⟩
  by_cases h : ∃ x ∈ lb.leaderboardItems, x.username = u
  · obtain ⟨x, hx, hxu⟩ := h
    obtain ⟨pre, after, hsplit⟩ := List.append_of_mem hx
    exact (hold pre x after hsplit hxu).1
  · exact (hnew (fun x hx hxu => h ⟨x, hx, hxu⟩)).1

theorem alice_bob_sorted :
    leaderboard_sorted ([⟨"alice", 0, 1, 0⟩, ⟨"bob", 0, 2, 0⟩] : List leaderboard_item_t) ∧
    (([⟨"alice", 0, 1, 0⟩, ⟨"bob", 0, 2, 0⟩] : List leaderboard_item_t).map
      (·.username)).Nodup := by
  constructor
  · apply List.chain'_pair.mpr
    simp only [compare_leaderboard_items]
    norm_num
    decide
  · decide

/-- C24 at a concrete leaderboard: "alice" (0 of 1) is the head in front of
"bob" (0 of 2); she wins, and her entry, now 1 of 2, is moved behind "bob". -/
theorem update_leaderboard_won_sorted_witness :
    leaderboard_sorted ([⟨"alice", 0, 1, 0⟩, ⟨"bob", 0, 2, 0⟩] : List leaderboard_item_t) ∧
    (([⟨"alice", 0, 1, 0⟩, ⟨"bob", 0, 2, 0⟩] : List leaderboard_item_t).map
      (·.username)).Nodup ∧
    leaderboard_sorted
      (update_leaderboard ⟨[⟨"alice", 0, 1, 0⟩, ⟨"bob", 0, 2, 0⟩], 2⟩ "alice"
        true).leaderboardItems ∧
    (update_leaderboard ⟨[⟨"alice", 0, 1, 0⟩, ⟨"bob", 0, 2, 0⟩], 2⟩ "alice"
        true).leaderboardItems
      = reinsert_from_head ([] ++ [⟨"bob", 0, 2, 0⟩])
          (updated_item ⟨"alice", 0, 1, 0⟩ true) :=
  ⟨alice_bob_sorted.1, alice_bob_sorted.2,
    (update_leaderboard_won_sorted ⟨[⟨"alice", 0, 1, 0⟩, ⟨"bob", 0, 2, 0⟩], 2⟩ "alice"
      alice_bob_sorted.1 alice_bob_sorted.2).1,
    (update_leaderboard_won_sorted ⟨[⟨"alice", 0, 1, 0⟩, ⟨"bob", 0, 2, 0⟩], 2⟩ "alice"
      alice_bob_sorted.1 alice_bob_sorted.2).2.1 [] ⟨"alice", 0, 1, 0⟩ [⟨"bob", 0, 2, 0⟩]
      rfl rfl⟩

end Hangman
